import Mathlib

/-!
Verification development for the Reach decision-evaluation engine.

This file gives a shallow embedding, in Lean 4, of the parts of the Rust
source that the verified claims are about:

* `crates/decision-engine/src/determinism.rs` (float normalization,
  canonical JSON, SHA-256 fingerprints),
* `crates/decision-engine/src/engine.rs` (`evaluate_decision` and its
  helper tables),
* `crates/engine-core/src/decision/classical.rs` (the classical criteria,
  validation, ranking and tie-breaking),
* `crates/requiem/src/protocol/frame.rs` (the CRC32C-protected frame codec).

Rust `f64` values are embedded by the type `F64` below: an explicit
NaN / signed-infinity / finite-rational datatype whose arithmetic is
IEEE-754 binary64 with round-to-nearest, ties-to-even, implemented by exact
rational arithmetic followed by correct rounding (`roundF64q`).  The one
deliberate simplification is that the negative zero bit pattern is
identified with positive zero: none of the embedded code branches on the
sign of zero, and equality tests in the source use `==`/`OrderedFloat`
semantics under which `-0.0 == 0.0`.

All definitions are written with structural (or fuel-bounded) recursion so
that concrete inputs evaluate inside the kernel (`decide` / `rfl`).
-/

set_option maxRecDepth 8000

/-! ## Kernel-computable rational arithmetic

`Rat.add` and friends do not reduce well inside the kernel, while `mkRat`,
`Rat.num`, `Rat.den` and the order relations do.  We therefore route all
rational arithmetic through `mkRat` and prove once and for all that the
results agree with the Mathlib field operations. -/

/-- Kernel-computable addition on `ℚ`. -/
def qadd (a b : ℚ) : ℚ := mkRat (a.num * b.den + b.num * a.den) (a.den * b.den)

/-- Kernel-computable multiplication on `ℚ`. -/
def qmul (a b : ℚ) : ℚ := mkRat (a.num * b.num) (a.den * b.den)

/-- Kernel-computable negation on `ℚ`. -/
def qneg (a : ℚ) : ℚ := mkRat (-a.num) a.den

/-- Kernel-computable subtraction on `ℚ`. -/
def qsub (a b : ℚ) : ℚ := qadd a (qneg b)

/-- Kernel-computable exact division on `ℚ` (with the `0⁻¹ = 0` convention,
matching Mathlib division). -/
def qdivE (a b : ℚ) : ℚ :=
  if 0 < b.num then mkRat (a.num * b.den) (a.den * b.num.toNat)
  else if b.num < 0 then mkRat (-(a.num * b.den)) (a.den * (-b.num).toNat)
  else 0

theorem qadd_eq (a b : ℚ) : qadd a b = a + b := by
  rw [qadd, Rat.mkRat_eq_div]
  have ha : (a.den : ℚ) ≠ 0 := by positivity
  have hb : (b.den : ℚ) ≠ 0 := by positivity
  conv_rhs => rw [← Rat.num_div_den a, ← Rat.num_div_den b]
  push_cast
  field_simp

theorem qmul_eq (a b : ℚ) : qmul a b = a * b := by
  rw [qmul, Rat.mkRat_eq_div]
  have ha : (a.den : ℚ) ≠ 0 := by positivity
  have hb : (b.den : ℚ) ≠ 0 := by positivity
  conv_rhs => rw [← Rat.num_div_den a, ← Rat.num_div_den b]
  push_cast
  field_simp

theorem qneg_eq (a : ℚ) : qneg a = -a := by
  rw [qneg, Rat.mkRat_eq_div]
  conv_rhs => rw [← Rat.num_div_den a]
  push_cast
  field_simp

theorem qsub_eq (a b : ℚ) : qsub a b = a - b := by
  rw [qsub, qadd_eq, qneg_eq]; ring

theorem qdivE_eq (a b : ℚ) : qdivE a b = a / b := by
  rcases lt_trichotomy b.num 0 with hneg | hz | hpos
  · rw [qdivE, if_neg (by omega), if_pos hneg, Rat.mkRat_eq_div]
    have hb : (b.den : ℚ) ≠ 0 := by positivity
    have hbn : ((-b.num).toNat : ℤ) = -b.num := Int.toNat_of_nonneg (by omega)
    have hbn' : (((-b.num).toNat : ℕ) : ℚ) = -(b.num : ℚ) := by exact_mod_cast hbn
    have hbq : (b.num : ℚ) ≠ 0 := by
      exact_mod_cast fun h => absurd h (by omega)
    conv_rhs => rw [← Rat.num_div_den a, ← Rat.num_div_den b]
    rw [div_div_div_eq]
    push_cast [hbn']
    field_simp
  · have hb0 : b = 0 := by
      have := Rat.num_eq_zero.mp hz
      exact this
    rw [qdivE, hb0]
    simp
  · rw [qdivE, if_pos hpos, Rat.mkRat_eq_div]
    have hb : (b.den : ℚ) ≠ 0 := by positivity
    have hbn : ((b.num).toNat : ℤ) = b.num := Int.toNat_of_nonneg (by omega)
    have hbn' : (((b.num).toNat : ℕ) : ℚ) = (b.num : ℚ) := by exact_mod_cast hbn
    have hbq : (b.num : ℚ) ≠ 0 := by
      exact_mod_cast fun h => absurd h (by omega)
    conv_rhs => rw [← Rat.num_div_den a, ← Rat.num_div_den b]
    rw [div_div_div_eq]
    push_cast [hbn']
    field_simp

/-- An integer seen as a rational, kernel-computably. -/
def qofZ (n : ℤ) : ℚ := mkRat n 1

theorem qofZ_eq (n : ℤ) : qofZ n = (n : ℚ) := by
  rw [qofZ, Rat.mkRat_eq_div]; simp

/-- Powers of two as naturals, via the kernel-accelerated shift. -/
def pow2N (k : ℕ) : ℕ := 1 <<< k

theorem pow2N_eq (k : ℕ) : pow2N k = 2 ^ k := by
  rw [pow2N, Nat.shiftLeft_eq, one_mul]

/-- `2 ^ k` as a rational. -/
def qpow2 (k : ℕ) : ℚ := mkRat (Int.ofNat (pow2N k)) 1

/-- `2 ^ (-k)` as a rational. -/
def qpow2inv (k : ℕ) : ℚ := mkRat 1 (pow2N k)

/-- `2 ^ e` for an integer exponent `e`, as a rational. -/
def qpow2Z : ℤ → ℚ
  | .ofNat k => qpow2 k
  | .negSucc k => qpow2inv (k + 1)

theorem qpow2_eq (k : ℕ) : qpow2 k = (2 : ℚ) ^ k := by
  rw [qpow2, Rat.mkRat_eq_div, pow2N_eq]
  push_cast
  simp

theorem qpow2inv_eq (k : ℕ) : qpow2inv k = ((2 : ℚ) ^ k)⁻¹ := by
  rw [qpow2inv, Rat.mkRat_eq_div, pow2N_eq]
  push_cast
  simp

/-- Number of binary digits of a natural number (0 for 0), one bit at a
time, by fuel. -/
def bitlen1 : ℕ → ℕ → ℕ
  | 0, _ => 0
  | fuel + 1, n => if n = 0 then 0 else 1 + bitlen1 fuel (n >>> 1)

/-- Number of binary digits, 64 bits at a time, by fuel. -/
def bitlen64A : ℕ → ℕ → ℕ
  | 0, n => bitlen1 64 n
  | fuel + 1, n => if n < pow2N 64 then bitlen1 64 n else 64 + bitlen64A fuel (n >>> 64)

/-- Number of binary digits, 512 bits at a time, by fuel. -/
def bitlen512A : ℕ → ℕ → ℕ
  | 0, n => bitlen64A 8 n
  | fuel + 1, n => if n < pow2N 512 then bitlen64A 8 n else 512 + bitlen512A fuel (n >>> 512)

/-- Number of binary digits; the fuel covers every integer (up to 65536
bits) that can arise from binary64 computations in this file, while the
chunking keeps the recursion depth small. -/
def bitlen (n : ℕ) : ℕ := bitlen512A 128 n

/-- Decides `2 ^ e ≤ q` for positive `q`, exactly. -/
def qpow2Le (e : ℤ) (q : ℚ) : Bool :=
  match e with
  | .ofNat k => (q.den : ℤ) * (pow2N k : ℤ) ≤ q.num
  | .negSucc k => (q.den : ℤ) ≤ q.num * (pow2N (k + 1) : ℤ)

/-- Binade of a positive rational: the `e` with `2 ^ e ≤ q < 2 ^ (e + 1)`.
The estimate from digit counts is off by at most one, and is corrected by
exact comparisons. -/
def floorLog2 (q : ℚ) : ℤ :=
  let e0 : ℤ := (bitlen q.num.toNat : ℤ) - (bitlen q.den : ℤ)
  if qpow2Le e0 q then (if qpow2Le (e0 + 1) q then e0 + 1 else e0) else e0 - 1

/-- Round a rational to the nearest integer, ties to even. -/
def roundNE (q : ℚ) : ℤ :=
  let n := ⌊q⌋
  let r := qsub q (qofZ n)
  if r < mkRat 1 2 then n
  else if mkRat 1 2 < r then n + 1
  else if n % 2 = 0 then n else n + 1

/-- Round a nonnegative rational to the nearest integer, ties away from
zero (upward). -/
def roundHalfUp (q : ℚ) : ℤ :=
  let n := ⌊q⌋
  if qsub q (qofZ n) < mkRat 1 2 then n else n + 1

/-- Round a rational to the nearest integer, ties away from zero.  This is
the semantics of Rust `f64::round`. -/
def roundHalfAway (q : ℚ) : ℤ :=
  if 0 ≤ q.num then roundHalfUp q else -(roundHalfUp (qneg q))

/-! ## The binary64 model -/

/-- A Rust `f64` value: NaN, a signed infinity (`true` = `+∞`), or a finite
value given by its exact rational magnitude (negative zero is identified
with zero, see the module comment). -/
inductive F64 where
  | nan : F64
  | inf : Bool → F64
  | fin : ℚ → F64
deriving DecidableEq

/-- The largest finite binary64 value, `(2^53 - 1) * 2^971`. -/
def f64MaxQ : ℚ := mkRat (Int.ofNat ((pow2N 53 - 1) * pow2N 971)) 1

/-- The smallest finite binary64 value, `-f64MaxQ`. -/
def f64MinQ : ℚ := qneg f64MaxQ

/-- Attach a sign to a magnitude. -/
def qsigned (neg : Bool) (q : ℚ) : ℚ := if neg then qneg q else q

/-- Round a positive rational magnitude to binary64 (round to nearest, ties
to even), producing either a finite value or an overflow to `+∞`; the
`neg` flag carries the sign of the original value. -/
def roundF64pos (neg : Bool) (q : ℚ) : F64 :=
  let e := floorLog2 q
  if e < -1022 then
    -- subnormal range: round to a multiple of 2 ^ (-1074)
    let m := roundNE (qmul q (qpow2 1074))
    F64.fin (qsigned neg (qmul (qofZ m) (qpow2inv 1074)))
  else
    let m := roundNE (qmul q (qpow2Z (52 - e)))
    let me : ℤ × ℤ := if m = (Int.ofNat (pow2N 53)) then (Int.ofNat (pow2N 52), e + 1) else (m, e)
    if 1023 < me.2 then F64.inf (!neg)
    else F64.fin (qsigned neg (qmul (qofZ me.1) (qpow2Z (me.2 - 52))))

/-- Correct rounding of an exact rational to binary64
(round to nearest, ties to even; overflow to the correctly signed infinity). -/
def roundF64q (q : ℚ) : F64 :=
  if 0 < q.num then roundF64pos false q
  else if q.num < 0 then roundF64pos true (qneg q)
  else F64.fin 0

/-- The binary64 value of a decimal literal `n * 10 ^ (-scale)`; Rust float
literals are parsed to the nearest binary64 value. -/
def flit (n : ℤ) (den : ℕ) : F64 := roundF64q (mkRat n den)

namespace F64

/-- Rust `f64::is_nan`. -/
def isNaN : F64 → Bool
  | .nan => true
  | _ => false

/-- Rust `f64::is_infinite`. -/
def isInfB : F64 → Bool
  | .inf _ => true
  | _ => false

/-- Negation (exact in binary64). -/
def fneg : F64 → F64
  | .nan => .nan
  | .inf b => .inf (!b)
  | .fin q => .fin (qneg q)

/-- IEE754 addition with correct rounding. -/
def fadd : F64 → F64 → F64
  | .nan, _ => .nan
  | _, .nan => .nan
  | .inf a, .inf b => if a = b then .inf a else .nan
  | .inf a, .fin _ => .inf a
  | .fin _, .inf b => .inf b
  | .fin a, .fin b => roundF64q (qadd a b)

/-- IEEE-754 subtraction (`a - b = a + (-b)` exactly). -/
def fsub (a b : F64) : F64 := fadd a (fneg b)

/-- IEEE-754 multiplication with correct rounding. -/
def fmul : F64 → F64 → F64
  | .nan, _ => .nan
  | _, .nan => .nan
  | .inf a, .inf b => .inf (a = b)
  | .inf a, .fin q => if q = 0 then .nan else .inf (a = decide (0 < q))
  | .fin q, .inf b => if q = 0 then .nan else .inf (b = decide (0 < q))
  | .fin a, .fin b => roundF64q (qmul a b)

/-- IEEE-754 division with correct rounding (sign of a zero quotient or of
a division by zero follows the magnitude signs; zero signs themselves are
not tracked, see the module comment). -/
def fdiv : F64 → F64 → F64
  | .nan, _ => .nan
  | _, .nan => .nan
  | .inf _, .inf _ => .nan
  | .inf a, .fin q => .inf (a = decide (0 ≤ q))
  | .fin _, .inf _ => .fin 0
  | .fin a, .fin b =>
    if b = 0 then (if a = 0 then .nan else .inf (decide (0 < a)))
    else roundF64q (qdivE a b)

/-- Rust `f64::round`: nearest integer, ties away from zero.  The result
of rounding a finite binary64 value to an integer is always representable,
so no re-rounding is needed. -/
def fround : F64 → F64
  | .nan => .nan
  | .inf b => .inf b
  | .fin q => .fin (qofZ (roundHalfAway q))

/-- IEEE-754 partial comparison: `None` when either side is NaN.  This is
Rust `f64::partial_cmp`. -/
def pcmp : F64 → F64 → Option Ordering
  | .nan, _ => none
  | _, .nan => none
  | .inf a, .inf b =>
    some (if a = b then .eq else if a then .gt else .lt)
  | .inf a, .fin _ => some (if a then .gt else .lt)
  | .fin _, .inf b => some (if b then .lt else .gt)
  | .fin a, .fin b => some (if a < b then .lt else if b < a then .gt else .eq)

/-- Rust `<` on `f64` (false when either side is NaN). -/
def fltb (a b : F64) : Bool := pcmp a b = some .lt

/-- Rust `>` on `f64`. -/
def fgtb (a b : F64) : Bool := pcmp a b = some .gt

/-- Rust `<=` on `f64`. -/
def fleb (a b : F64) : Bool := pcmp a b = some .lt || pcmp a b = some .eq

/-- The total order of the `ordered_float` crate: NaN is equal to itself
and greater than every other value. -/
def ocmp : F64 → F64 → Ordering
  | .nan, .nan => .eq
  | .nan, _ => .gt
  | _, .nan => .lt
  | .inf a, .inf b => if a = b then .eq else if a then .gt else .lt
  | .inf a, .fin _ => if a then .gt else .lt
  | .fin _, .inf b => if b then .lt else .gt
  | .fin a, .fin b => if a < b then .lt else if b < a then .gt else .eq

/-- Rust `f64::min`: if one operand is NaN the other is returned. -/
def fmin64 (a b : F64) : F64 :=
  if a.isNaN then b else if b.isNaN then a else if fleb a b then a else b

/-- Rust `f64::max`: if one operand is NaN the other is returned. -/
def fmax64 (a b : F64) : F64 :=
  if a.isNaN then b else if b.isNaN then a else if fleb b a then a else b

/-- Rust `f64::abs` (sign of zero not tracked). -/
def fabs : F64 → F64
  | .nan => .nan
  | .inf _ => .inf true
  | .fin q => .fin (if q < 0 then qneg q else q)

/-- Whether `v.fract() == 0.0` holds in Rust: true exactly for finite
integral values (the `fract` of an infinity or NaN is NaN). -/
def isWholeB : F64 → Bool
  | .fin q => q.den = 1
  | _ => false

/-- Rust `as i64` cast: truncation toward zero with saturation; NaN casts
to zero. -/
def toI64sat : F64 → ℤ
  | .nan => 0
  | .inf b => if b then (Int.ofNat (pow2N 63)) - 1 else -(Int.ofNat (pow2N 63))
  | .fin q =>
    let t : ℤ := if 0 ≤ q.num then ⌊q⌋ else -⌊qneg q⌋
    if t < -(Int.ofNat (pow2N 63)) then -(Int.ofNat (pow2N 63))
    else if (Int.ofNat (pow2N 63)) - 1 < t then (Int.ofNat (pow2N 63)) - 1
    else t

end F64

-- Sanity checks of the binary64 model against reference values computed
-- from an IEEE-754 implementation.
example : flit 3 10 = F64.fin (mkRat 5404319552844595 18014398509481984) := by decide
example : flit 1 1000000000 = F64.fin (mkRat 4835703278458517 4835703278458516698824704) := by decide
example : F64.fadd (flit 1 10) (flit 2 10) = F64.fin (mkRat 1351079888211149 4503599627370496) := by
  decide
example : F64.fdiv (F64.fin f64MaxQ) (flit 1 1000000000) = F64.inf true := by decide
example : F64.fdiv (flit 3 10) (flit 1 1000000000) = F64.fin (mkRat 300000000 1) := by decide
example : F64.fmul (F64.fin (mkRat 300000000 1)) (flit 1 1000000000)
    = F64.fin (mkRat 1351079888211149 4503599627370496) := by decide
example : F64.fadd (F64.fin (mkRat 100 1)) (F64.fin (mkRat 20 1)) = F64.fin (mkRat 120 1) := by
  decide

/-! ## Byte-wise string order

Rust compares `String`s byte-wise on their UTF-8 encoding; since UTF-8
preserves codepoint order, this is the same as lexicographic comparison of
the codepoint sequences, which is what we implement. -/

/-- Lexicographic strict order on codepoint lists. -/
def clLt : List Char → List Char → Bool
  | [], [] => false
  | [], _ :: _ => true
  | _ :: _, [] => false
  | a :: as, b :: bs =>
    if a.toNat < b.toNat then true
    else if b.toNat < a.toNat then false
    else clLt as bs

/-- Rust `<` on `String`. -/
def strLtB (a b : String) : Bool := clLt a.data b.data

/-- Rust `Ord::cmp` on `String`. -/
def strCmp (a b : String) : Ordering :=
  if strLtB a b then .lt else if strLtB b a then .gt else .eq

theorem clLt_irrefl (l : List Char) : clLt l l = false := by
  induction l with
  | nil => rfl
  | cons a as ih => simp [clLt, ih]


theorem clLt_asymm {a b : List Char} (h : clLt a b = true) : clLt b a = false := by
  induction a generalizing b with
  | nil =>
    cases b with
    | nil => simp [clLt] at h
    | cons x xs => simp [clLt]
  | cons x xs ih =>
    cases b with
    | nil => simp [clLt] at h
    | cons y ys =>
      simp only [clLt] at h ⊢
      by_cases h1 : x.toNat < y.toNat
      · have h2 : ¬ y.toNat < x.toNat := by omega
        simp [h1, h2]
      · by_cases h2 : y.toNat < x.toNat
        · simp [h1, h2] at h
        · simp [h1, h2] at h ⊢
          exact ih h

theorem clLt_conn {a b : List Char} (h1 : clLt a b = false) (h2 : clLt b a = false) :
    a = b := by
  induction a generalizing b with
  | nil =>
    cases b with
    | nil => rfl
    | cons y ys => simp [clLt] at h1
  | cons x xs ih =>
    cases b with
    | nil => simp [clLt] at h2
    | cons y ys =>
      simp only [clLt] at h1 h2
      by_cases hxy : x.toNat < y.toNat
      · simp [hxy] at h1
      · by_cases hyx : y.toNat < x.toNat
        · simp [hyx, hxy] at h2
        · have hval : x.toNat = y.toNat := by omega
          have hx : x = y := by
            apply Char.ext
            have : x.val.toNat = y.val.toNat := hval
            exact UInt32.toNat.inj this
          subst hx
          simp [hxy] at h1 h2
          rw [ih h1 h2]

theorem clLt_trans {a b c : List Char} (h1 : clLt a b = true) (h2 : clLt b c = true) :
    clLt a c = true := by
  induction a generalizing b c with
  | nil =>
    cases c with
    | nil =>
      cases b with
      | nil => simp [clLt] at h1
      | cons y ys => simp [clLt] at h2
    | cons z zs => simp [clLt]
  | cons x xs ih =>
    cases b with
    | nil => simp [clLt] at h1
    | cons y ys =>
      cases c with
      | nil => simp [clLt] at h2
      | cons z zs =>
        simp only [clLt] at h1 h2 ⊢
        by_cases hxy : x.toNat < y.toNat
        · by_cases hyz : y.toNat < z.toNat
          · simp [show x.toNat < z.toNat by omega]
          · by_cases hzy : z.toNat < y.toNat
            · simp [hyz, hzy] at h2
            · simp [show x.toNat < z.toNat by omega]
        · by_cases hyx : y.toNat < x.toNat
          · simp [hxy, hyx] at h1
          · have hxyeq : x.toNat = y.toNat := by omega
            by_cases hyz : y.toNat < z.toNat
            · simp [show x.toNat < z.toNat by omega]
            · by_cases hzy : z.toNat < y.toNat
              · simp [hyz, hzy] at h2
              · have hne1 : ¬ x.toNat < z.toNat := by omega
                have hne2 : ¬ z.toNat < x.toNat := by omega
                simp [hxy, hyx] at h1
                simp [hyz, hzy] at h2
                simp [hne1, hne2, ih h1 h2]

theorem strDataInj {a b : String} (h : a.data = b.data) : a = b := by
  cases a; cases b
  exact congrArg String.mk h

theorem strLtB_irrefl (s : String) : strLtB s s = false := clLt_irrefl _

theorem strLtB_asymm {a b : String} (h : strLtB a b = true) : strLtB b a = false :=
  clLt_asymm h

theorem strLtB_conn {a b : String} (h1 : strLtB a b = false) (h2 : strLtB b a = false) :
    a = b := strDataInj (clLt_conn h1 h2)

theorem strLtB_trans {a b c : String} (h1 : strLtB a b = true) (h2 : strLtB b c = true) :
    strLtB a c = true := clLt_trans h1 h2

theorem strCmp_lt_iff {a b : String} : strCmp a b = .lt ↔ strLtB a b = true := by
  unfold strCmp
  by_cases h : strLtB a b = true
  · simp [h]
  · simp only [h]
    by_cases h2 : strLtB b a = true <;> simp [h, h2]

theorem strCmp_eq_iff {a b : String} : strCmp a b = .eq ↔ a = b := by
  unfold strCmp
  by_cases h : strLtB a b = true
  · simp only [h, if_true]
    constructor
    · intro hc; exact absurd hc (by simp)
    · intro he; subst he; rw [strLtB_irrefl] at h; exact absurd h (by simp)
  · by_cases h2 : strLtB b a = true
    · simp only [h, h2]
      constructor
      · intro hc; simp at hc
      · intro he; subst he; rw [strLtB_irrefl] at h2; exact absurd h2 (by simp)
    · simp only [h, h2]
      simp only [Bool.not_eq_true] at h h2
      simp [strLtB_conn h h2]

/-! ## A lawful-comparator framework

All sort comparators in the embedded code are built from total orders by
lexicographic composition (`Ordering::then`), so we package the laws we
need once. -/

/-- The laws of a total (preorder) comparator. -/
structure LawfulCmp {α : Type _} (cmp : α → α → Ordering) : Prop where
  swapEq : ∀ a b, (cmp a b).swap = cmp b a
  lt_trans : ∀ {a b c}, cmp a b = .lt → cmp b c = .lt → cmp a c = .lt
  eq_lt : ∀ {a b c}, cmp a b = .eq → cmp b c = .lt → cmp a c = .lt
  lt_eq : ∀ {a b c}, cmp a b = .lt → cmp b c = .eq → cmp a c = .lt
  eq_trans : ∀ {a b c}, cmp a b = .eq → cmp b c = .eq → cmp a c = .eq

namespace LawfulCmp

variable {α : Type _} {cmp : α → α → Ordering}

theorem refl_eq (L : LawfulCmp cmp) (a : α) : cmp a a = .eq := by
  have h := L.swapEq a a
  cases hc : cmp a a <;> rw [hc] at h <;> simp [Ordering.swap] at h

theorem gt_iff (L : LawfulCmp cmp) (a b : α) : cmp a b = .gt ↔ cmp b a = .lt := by
  constructor
  · intro hg
    have h := L.swapEq a b
    rw [hg] at h
    exact h.symm
  · intro hl
    have h := L.swapEq b a
    rw [hl] at h
    exact h.symm

theorem le_trans (L : LawfulCmp cmp) {a b c : α}
    (h1 : cmp a b ≠ .gt) (h2 : cmp b c ≠ .gt) : cmp a c ≠ .gt := by
  cases hab : cmp a b with
  | gt => exact absurd hab h1
  | lt =>
    cases hbc : cmp b c with
    | gt => exact absurd hbc h2
    | lt => simp [L.lt_trans hab hbc]
    | eq => simp [L.lt_eq hab hbc]
  | eq =>
    cases hbc : cmp b c with
    | gt => exact absurd hbc h2
    | lt => simp [L.eq_lt hab hbc]
    | eq => simp [L.eq_trans hab hbc]

theorem le_total (L : LawfulCmp cmp) (a b : α) : cmp a b ≠ .gt ∨ cmp b a ≠ .gt := by
  by_cases h : cmp a b = .gt
  · right
    rw [(L.gt_iff a b).mp h]
    simp
  · left; exact h

end LawfulCmp

/-- Lexicographic composition of comparators (`Ordering::then` in Rust). -/
def thenCmp {α : Type _} (c1 c2 : α → α → Ordering) (a b : α) : Ordering :=
  (c1 a b).then (c2 a b)

theorem thenCmp_lawful {α : Type _} {c1 c2 : α → α → Ordering}
    (L1 : LawfulCmp c1) (L2 : LawfulCmp c2) : LawfulCmp (thenCmp c1 c2) := by
  constructor
  · intro a b
    rw [thenCmp, thenCmp, Ordering.swap_then, L1.swapEq, L2.swapEq]
  · intro a b c h1 h2
    rw [thenCmp, Ordering.then_eq_lt] at h1 h2 ⊢
    rcases h1 with h1 | ⟨h1e, h1l⟩
    · rcases h2 with h2 | ⟨h2e, h2l⟩
      · exact Or.inl (L1.lt_trans h1 h2)
      · exact Or.inl (L1.lt_eq h1 h2e)
    · rcases h2 with h2 | ⟨h2e, h2l⟩
      · exact Or.inl (L1.eq_lt h1e h2)
      · exact Or.inr ⟨L1.eq_trans h1e h2e, L2.lt_trans h1l h2l⟩
  · intro a b c h1 h2
    rw [thenCmp, Ordering.then_eq_eq] at h1
    rw [thenCmp, Ordering.then_eq_lt] at h2 ⊢
    rcases h2 with h2 | ⟨h2e, h2l⟩
    · exact Or.inl (L1.eq_lt h1.1 h2)
    · exact Or.inr ⟨L1.eq_trans h1.1 h2e, L2.eq_lt h1.2 h2l⟩
  · intro a b c h1 h2
    rw [thenCmp, Ordering.then_eq_eq] at h2
    rw [thenCmp, Ordering.then_eq_lt] at h1 ⊢
    rcases h1 with h1 | ⟨h1e, h1l⟩
    · exact Or.inl (L1.lt_eq h1 h2.1)
    · exact Or.inr ⟨L1.eq_trans h1e h2.1, L2.lt_eq h1l h2.2⟩
  · intro a b c h1 h2
    rw [thenCmp, Ordering.then_eq_eq] at h1 h2 ⊢
    exact ⟨L1.eq_trans h1.1 h2.1, L2.eq_trans h1.2 h2.2⟩

theorem lawful_strCmp : LawfulCmp strCmp := by
  constructor
  · intro a b
    unfold strCmp
    by_cases h : strLtB a b = true
    · rw [strLtB_asymm h]
      simp [h, Ordering.swap]
    · by_cases h2 : strLtB b a = true <;> simp [h, h2, Ordering.swap]
  · intro a b c h1 h2
    rw [strCmp_lt_iff] at h1 h2 ⊢
    exact strLtB_trans h1 h2
  · intro a b c h1 h2
    rw [strCmp_eq_iff] at h1; subst h1; exact h2
  · intro a b c h1 h2
    rw [strCmp_eq_iff] at h2; subst h2; exact h1
  · intro a b c h1 h2
    rw [strCmp_eq_iff] at h1 h2 ⊢; exact h1.trans h2

/-- A comparator pulled back along a projection is lawful. -/
theorem lawful_comap {α β : Type _} {cmp : β → β → Ordering} (f : α → β)
    (L : LawfulCmp cmp) : LawfulCmp (fun a b => cmp (f a) (f b)) := by
  constructor
  · intro a b; exact L.swapEq (f a) (f b)
  · intro a b c h1 h2; exact L.lt_trans h1 h2
  · intro a b c h1 h2; exact L.eq_lt h1 h2
  · intro a b c h1 h2; exact L.lt_eq h1 h2
  · intro a b c h1 h2; exact L.eq_trans h1 h2

/-! ## Stable sorting by a comparator

Rust `slice::sort_by` is a stable sort driven by a total comparator; any
stable sort computes the same permutation, so we embed it as stable
insertion sort: an element is inserted after every earlier element that
does not compare strictly greater than it. -/

/-- Stable insert: `x` moves left past exactly the elements `y` with
`cmp x y = .gt` read right-to-left, i.e. it lands after every earlier
element that is less than or equivalent to it. -/
def insCmp {α : Type _} (cmp : α → α → Ordering) (x : α) : List α → List α
  | [] => [x]
  | y :: ys => if cmp x y = .gt then y :: insCmp cmp x ys else x :: y :: ys

/-- Stable sort by a comparator. -/
def sortCmp {α : Type _} (cmp : α → α → Ordering) : List α → List α
  | [] => []
  | x :: xs => insCmp cmp x (sortCmp cmp xs)

theorem insCmp_perm {α : Type _} (cmp : α → α → Ordering) (x : α) (l : List α) :
    (insCmp cmp x l).Perm (x :: l) := by
  induction l with
  | nil => rfl
  | cons y ys ih =>
    rw [insCmp]
    by_cases h : cmp x y = .gt
    · rw [if_pos h]
      exact (ih.cons y).trans (List.Perm.swap x y ys)
    · rw [if_neg h]

theorem sortCmp_perm {α : Type _} (cmp : α → α → Ordering) (l : List α) :
    (sortCmp cmp l).Perm l := by
  induction l with
  | nil => rfl
  | cons x xs ih =>
    rw [sortCmp]
    exact (insCmp_perm cmp x (sortCmp cmp xs)).trans (List.Perm.cons x ih)

theorem insCmp_pairwise {α : Type _} {cmp : α → α → Ordering} (L : LawfulCmp cmp)
    (x : α) {l : List α} (h : l.Pairwise (fun a b => cmp a b ≠ .gt)) :
    (insCmp cmp x l).Pairwise (fun a b => cmp a b ≠ .gt) := by
  induction l with
  | nil => simp [insCmp]
  | cons y ys ih =>
    rw [List.pairwise_cons] at h
    rw [insCmp]
    by_cases hc : cmp x y = .gt
    · rw [if_pos hc]
      rw [List.pairwise_cons]
      constructor
      · intro z hz
        have hz2 : z ∈ x :: ys := (insCmp_perm cmp x ys).mem_iff.mp hz
        rcases List.mem_cons.mp hz2 with hz3 | hz3
        · rw [hz3, (L.gt_iff x y).mp hc]
          simp
        · exact h.1 z hz3
      · exact ih h.2
    · rw [if_neg hc]
      rw [List.pairwise_cons]
      refine ⟨?_, List.pairwise_cons.mpr h⟩
      intro z hz
      rcases List.mem_cons.mp hz with hz3 | hz3
      · rw [hz3]; exact hc
      · exact L.le_trans hc (h.1 z hz3)

theorem sortCmp_pairwise {α : Type _} {cmp : α → α → Ordering} (L : LawfulCmp cmp)
    (l : List α) : (sortCmp cmp l).Pairwise (fun a b => cmp a b ≠ .gt) := by
  induction l with
  | nil => simp [sortCmp]
  | cons x xs ih =>
    rw [sortCmp]
    exact insCmp_pairwise L x ih

/-- The head of a sorted list is a least element of the input. -/
theorem sortCmp_head_le {α : Type _} {cmp : α → α → Ordering} (L : LawfulCmp cmp)
    {l : List α} {h : α} {t : List α} (he : sortCmp cmp l = h :: t) :
    ∀ x ∈ l, cmp h x ≠ .gt := by
  intro x hx
  have hmem : x ∈ h :: t := by
    rw [← he]
    exact (List.Perm.mem_iff (sortCmp_perm cmp l)).mpr hx
  rcases hmem with _ | hmem
  · rw [L.refl_eq]; simp
  · have hp := sortCmp_pairwise L l
    rw [he, List.pairwise_cons] at hp
    exact hp.1 x (by assumption)

/-- The head of a sorted list is a member of the input. -/
theorem sortCmp_head_mem {α : Type _} {cmp : α → α → Ordering}
    {l : List α} {h : α} {t : List α} (he : sortCmp cmp l = h :: t) : h ∈ l := by
  have : h ∈ h :: t := by simp
  rw [← he] at this
  exact (List.Perm.mem_iff (sortCmp_perm cmp l)).mp this

/-- Sorted output, element-wise: earlier elements never compare strictly
greater than later ones. -/
theorem sortCmp_sorted_getElem {α : Type _} {cmp : α → α → Ordering} (L : LawfulCmp cmp)
    (l : List α) {i j : ℕ} (hij : i < j) (hj : j < (sortCmp cmp l).length) :
    cmp ((sortCmp cmp l).get ⟨i, by omega⟩) ((sortCmp cmp l).get ⟨j, hj⟩) ≠ .gt := by
  have hp := sortCmp_pairwise L l
  exact List.pairwise_iff_getElem.mp hp i j (by omega) hj hij

/-! ## Ordered string-keyed maps

`std::collections::BTreeMap<String, V>` is embedded as a list of pairs kept
strictly sorted by key; iteration order is the list order, insertion
replaces an existing binding. -/

/-- The embedding of `BTreeMap<String, α>`. -/
abbrev SMap (α : Type _) := List (String × α)

/-- `BTreeMap::insert` (keeps keys strictly sorted, replaces on equality). -/
def smapIns {α : Type _} (k : String) (v : α) : SMap α → SMap α
  | [] => [(k, v)]
  | (k0, v0) :: rest =>
    if strLtB k k0 then (k, v) :: (k0, v0) :: rest
    else if strLtB k0 k then (k0, v0) :: smapIns k v rest
    else (k, v) :: rest

/-- `BTreeMap::get` (first matching key; on maps built by `smapIns` keys
are unique). -/
def smapGet? {α : Type _} : SMap α → String → Option α
  | [], _ => none
  | (k0, v0) :: rest, k => if k = k0 then some v0 else smapGet? rest k

/-- `BTreeMap::get` with a default, modelling the `unwrap_or`-style reads
of the source. -/
def smapGetD {α : Type _} (m : SMap α) (k : String) (d : α) : α := (smapGet? m k).getD d

/-- `BTreeMap::contains_key`. -/
def smapHas {α : Type _} (m : SMap α) (k : String) : Bool := (smapGet? m k).isSome

theorem smapGet?_ins_self {α : Type _} (k : String) (v : α) (m : SMap α) :
    smapGet? (smapIns k v m) k = some v := by
  induction m with
  | nil => simp [smapIns, smapGet?]
  | cons p rest ih =>
    obtain ⟨k0, v0⟩ := p
    rw [smapIns]
    by_cases h1 : strLtB k k0 = true
    · rw [if_pos h1, smapGet?, if_pos rfl]
    · rw [if_neg (by simpa using h1)]
      by_cases h2 : strLtB k0 k = true
      · rw [if_pos h2, smapGet?]
        have : k ≠ k0 := by
          intro he; subst he; rw [strLtB_irrefl] at h2; exact absurd h2 (by simp)
        rw [if_neg this]
        exact ih
      · rw [if_neg (by simpa using h2), smapGet?, if_pos rfl]

theorem smapGet?_ins_ne {α : Type _} {k k' : String} (h : k' ≠ k) (v : α) (m : SMap α) :
    smapGet? (smapIns k v m) k' = smapGet? m k' := by
  induction m with
  | nil => simp [smapIns, smapGet?, h]
  | cons p rest ih =>
    obtain ⟨k0, v0⟩ := p
    rw [smapIns]
    by_cases h1 : strLtB k k0 = true
    · rw [if_pos h1, smapGet?, if_neg h, smapGet?]
    · rw [if_neg (by simpa using h1)]
      by_cases h2 : strLtB k0 k = true
      · rw [if_pos h2, smapGet?, smapGet?]
        by_cases h3 : k' = k0
        · rw [if_pos h3, if_pos h3]
        · rw [if_neg h3, if_neg h3]
          exact ih
      · rw [if_neg (by simpa using h2)]
        have hk : k = k0 := strLtB_conn (by simpa using h1) (by simpa using h2)
        subst hk
        rw [smapGet?, smapGet?, if_neg h, if_neg h]

/-- The value bound to `k` after folding a sequence of inserts: the last
pair of the sequence with key `k` wins. -/
def lastVal? {α : Type _} : List (String × α) → String → Option α
  | [], _ => none
  | p :: rest, k => (lastVal? rest k).or (if p.1 = k then some p.2 else none)

theorem smapGet?_foldl_ins {α : Type _} (l : List (String × α)) (m0 : SMap α) (k : String) :
    smapGet? (l.foldl (fun m p => smapIns p.1 p.2 m) m0) k
      = (lastVal? l k).or (smapGet? m0 k) := by
  induction l generalizing m0 with
  | nil => simp [lastVal?]
  | cons b rest ih =>
    rw [List.foldl_cons, ih, lastVal?]
    by_cases h : b.1 = k
    · simp only [h, if_pos rfl]
      cases hl : lastVal? rest k with
      | none =>
        simp [Option.or]
        subst h
        exact smapGet?_ins_self b.1 b.2 m0
      | some v => simp [Option.or]
    · simp only [if_neg h]
      cases hl : lastVal? rest k with
      | none =>
        simp [Option.or]
        exact smapGet?_ins_ne (fun he => h he.symm) b.2 m0
      | some v => simp [Option.or]

/-! ## Order-theoretic facts about the binary64 comparators -/

/-- The comparator induced by a linear order. -/
def cmpOfLt {β : Type _} [LinearOrder β] (a b : β) : Ordering :=
  if a < b then .lt else if b < a then .gt else .eq

theorem cmpOfLt_lt_iff {β : Type _} [LinearOrder β] {a b : β} :
    cmpOfLt a b = .lt ↔ a < b := by
  unfold cmpOfLt
  rcases lt_trichotomy a b with h | h | h
  · simp [h]
  · subst h; simp [lt_irrefl]
  · simp [lt_asymm h, h]

theorem cmpOfLt_eq_iff {β : Type _} [LinearOrder β] {a b : β} :
    cmpOfLt a b = .eq ↔ a = b := by
  unfold cmpOfLt
  rcases lt_trichotomy a b with h | h | h
  · simp [h]
    exact ne_of_lt h
  · subst h; simp [lt_irrefl]
  · simp [lt_asymm h, h]
    exact (ne_of_lt h).symm

theorem lawful_cmpOfLt {β : Type _} [LinearOrder β] : LawfulCmp (cmpOfLt (β := β)) := by
  constructor
  · intro a b
    unfold cmpOfLt
    rcases lt_trichotomy a b with h | h | h
    · simp [h, lt_asymm h, Ordering.swap]
    · subst h; simp [lt_irrefl, Ordering.swap]
    · simp [h, lt_asymm h, Ordering.swap]
  · intro a b c h1 h2
    rw [cmpOfLt_lt_iff] at h1 h2 ⊢
    exact lt_trans h1 h2
  · intro a b c h1 h2
    rw [cmpOfLt_eq_iff] at h1
    rw [cmpOfLt_lt_iff] at h2 ⊢
    rw [h1]; exact h2
  · intro a b c h1 h2
    rw [cmpOfLt_eq_iff] at h2
    rw [cmpOfLt_lt_iff] at h1 ⊢
    rw [← h2]; exact h1
  · intro a b c h1 h2
    rw [cmpOfLt_eq_iff] at h1 h2 ⊢
    exact h1.trans h2

/-- Order class of a value in the `ordered_float` total order:
`-∞ < finite < +∞ < NaN`. -/
def F64.classOf : F64 → ℕ
  | .inf false => 0
  | .fin _ => 1
  | .inf true => 2
  | .nan => 3

/-- The rational content of a finite value, zero otherwise. -/
def F64.qOf : F64 → ℚ
  | .fin q => q
  | _ => 0

theorem ocmp_eq_pair (a b : F64) :
    F64.ocmp a b
      = thenCmp (fun x y => cmpOfLt (F64.classOf x) (F64.classOf y))
          (fun x y => cmpOfLt (F64.qOf x) (F64.qOf y)) a b := by
  rcases a with _ | ab | aq <;> rcases b with _ | bb | bq <;>
    first
      | (cases ab <;> cases bb <;>
          simp [F64.ocmp, F64.classOf, F64.qOf, thenCmp, cmpOfLt, Ordering.then])
      | (try cases ab) <;> (try cases bb) <;>
          simp [F64.ocmp, F64.classOf, F64.qOf, thenCmp, cmpOfLt, Ordering.then]

theorem lawful_ocmp : LawfulCmp F64.ocmp := by
  have h := thenCmp_lawful
    (lawful_comap F64.classOf lawful_cmpOfLt) (lawful_comap F64.qOf lawful_cmpOfLt)
  have he : F64.ocmp = thenCmp (fun x y => cmpOfLt (F64.classOf x) (F64.classOf y))
      (fun x y => cmpOfLt (F64.qOf x) (F64.qOf y)) := by
    funext a b
    exact ocmp_eq_pair a b
  rw [he]
  exact h

theorem ocmp_eq_iff {a b : F64} : F64.ocmp a b = .eq ↔ a = b := by
  rw [ocmp_eq_pair, thenCmp, Ordering.then_eq_eq, cmpOfLt_eq_iff, cmpOfLt_eq_iff]
  constructor
  · rintro ⟨hc, hq⟩
    rcases a with _ | ab | aq <;> rcases b with _ | bb | bq <;>
      (try cases ab) <;> (try cases bb) <;> simp_all [F64.classOf, F64.qOf]
  · rintro rfl
    exact ⟨rfl, rfl⟩

/-- When neither operand is NaN, the partial comparison succeeds and agrees
with the `ordered_float` total order. -/
theorem pcmp_eq_ocmp {a b : F64} (ha : a.isNaN = false) (hb : b.isNaN = false) :
    F64.pcmp a b = some (F64.ocmp a b) := by
  rcases a with _ | ab | aq
  · simp [F64.isNaN] at ha
  all_goals rcases b with _ | bb | bq
  · simp [F64.isNaN] at hb
  all_goals simp [F64.pcmp, F64.ocmp]
  · simp [F64.isNaN] at hb

/-- The reverse of a lawful comparator is lawful (used for descending
sorts). -/
theorem lawful_reverse {α : Type _} {cmp : α → α → Ordering} (L : LawfulCmp cmp) :
    LawfulCmp (fun a b => cmp b a) := by
  constructor
  · intro a b; exact L.swapEq b a
  · intro a b c h1 h2; exact L.lt_trans h2 h1
  · intro a b c h1 h2; exact L.lt_eq h2 h1
  · intro a b c h1 h2; exact L.eq_lt h2 h1
  · intro a b c h1 h2; exact L.eq_trans h2 h1

/-- Sorting only inspects comparisons between list members, so comparators
that agree on the members sort identically. -/
theorem insCmp_congr {α : Type _} {cmp cmp' : α → α → Ordering} (x : α) (l : List α)
    (h : ∀ b ∈ l, cmp x b = cmp' x b) : insCmp cmp x l = insCmp cmp' x l := by
  induction l with
  | nil => rfl
  | cons y ys ih =>
    rw [insCmp, insCmp, h y (by simp)]
    by_cases hc : cmp' x y = .gt
    · rw [if_pos hc, if_pos hc, ih (fun b hb => h b (by simp [hb]))]
    · rw [if_neg hc, if_neg hc]

theorem sortCmp_congr {α : Type _} {cmp cmp' : α → α → Ordering} (l : List α)
    (h : ∀ a ∈ l, ∀ b ∈ l, cmp a b = cmp' a b) : sortCmp cmp l = sortCmp cmp' l := by
  induction l with
  | nil => rfl
  | cons x xs ih =>
    rw [sortCmp, sortCmp, ih (fun a ha b hb => h a (by simp [ha]) b (by simp [hb]))]
    apply insCmp_congr
    intro b hb
    have hbmem : b ∈ xs := (sortCmp_perm cmp' xs).mem_iff.mp hb
    exact h x (by simp) b (by simp [hbmem])

/-! ## SHA-256

A byte-level implementation of FIPS 180-4 SHA-256 over `List ℕ` (bytes),
used by `stable_hash` in `determinism.rs` (via the `sha2` crate). -/

namespace SHA256

/-- 2^32, the word modulus. -/
def M32 : ℕ := pow2N 32

/-- Right rotation of a 32-bit word. -/
def rotr (x n : ℕ) : ℕ := ((x >>> n) ||| (x <<< (32 - n))) % M32

/-- Modular word addition. -/
def wadd (a b : ℕ) : ℕ := (a + b) % M32

/-- The 64 round constants. -/
def K : List ℕ := [
  1116352408, 1899447441, 3049323471, 3921009573, 961987163, 1508970993,
  2453635748, 2870763221, 3624381080, 310598401, 607225278, 1426881987,
  1925078388, 2162078206, 2614888103, 3248222580, 3835390401, 4022224774,
  264347078, 604807628, 770255983, 1249150122, 1555081692, 1996064986,
  2554220882, 2821834349, 2952996808, 3210313671, 3336571891, 3584528711,
  113926993, 338241895, 666307205, 773529912, 1294757372, 1396182291,
  1695183700, 1986661051, 2177026350, 2456956037, 2730485921, 2820302411,
  3259730800, 3345764771, 3516065817, 3600352804, 4094571909, 275423344,
  430227734, 506948616, 659060556, 883997877, 958139571, 1322822218,
  1537002063, 1747873779, 1955562222, 2024104815, 2227730452, 2361852424,
  2428436474, 2756734187, 3204031479, 3329325298]

/-- The initial hash state. -/
def H0 : List ℕ :=
  [1779033703, 3144134277, 1013904242, 2773480762,
   1359893119, 2600822924, 528734635, 1541459225]

/-- A 64-bit big-endian length field. -/
def be64 (n : ℕ) : List ℕ :=
  [(n >>> 56) % 256, (n >>> 48) % 256, (n >>> 40) % 256, (n >>> 32) % 256,
   (n >>> 24) % 256, (n >>> 16) % 256, (n >>> 8) % 256, n % 256]

/-- Merkle-Damgard padding: `0x80`, zeros to 56 mod 64, then the bit
length. -/
def pad (msg : List ℕ) : List ℕ :=
  let len := msg.length
  let k := len % 64
  let zeros := if k < 56 then 55 - k else 119 - k
  msg ++ 0x80 :: List.replicate zeros 0 ++ be64 (8 * len)

/-- Group bytes into big-endian 32-bit words. -/
def toWords : List ℕ → List ℕ
  | b0 :: b1 :: b2 :: b3 :: rest =>
    ((((b0 <<< 8) ||| b1) <<< 8 ||| b2) <<< 8 ||| b3) :: toWords rest
  | _ => []

/-- The next word of the message schedule, from the last 16 words. -/
def nextWord (w : List ℕ) : ℕ :=
  let t := w.length
  let x15 := w.getD (t - 15) 0
  let x2 := w.getD (t - 2) 0
  let s0 := rotr x15 7 ^^^ rotr x15 18 ^^^ (x15 >>> 3)
  let s1 := rotr x2 17 ^^^ rotr x2 19 ^^^ (x2 >>> 10)
  (w.getD (t - 16) 0 + s0 + w.getD (t - 7) 0 + s1) % M32

/-- Extend the schedule by `fuel` words. -/
def extendW : ℕ → List ℕ → List ℕ
  | 0, w => w
  | fuel + 1, w => extendW fuel (w ++ [nextWord w])

/-- One compression round. -/
def round1 (st : List ℕ) (kw : ℕ × ℕ) : List ℕ :=
  match st with
  | [a, b, c, d, e, f, g, h] =>
    let S1 := rotr e 6 ^^^ rotr e 11 ^^^ rotr e 25
    let ch := (e &&& f) ^^^ ((M32 - 1 - e) &&& g)
    let t1 := (h + S1 + ch + kw.1 + kw.2) % M32
    let S0 := rotr a 2 ^^^ rotr a 13 ^^^ rotr a 22
    let maj := (a &&& b) ^^^ (a &&& c) ^^^ (b &&& c)
    let t2 := (S0 + maj) % M32
    [(t1 + t2) % M32, a, b, c, (d + t1) % M32, e, f, g]
  | st => st

/-- Compress one 64-byte block into the state. -/
def compress (st : List ℕ) (block : List ℕ) : List ℕ :=
  let w := extendW 48 (toWords block)
  let final := (K.zip w).foldl round1 st
  List.zipWith wadd st final

/-- Split a byte list into 64-byte blocks (fuel on the block count). -/
def chunksAux : ℕ → List ℕ → List (List ℕ)
  | 0, _ => []
  | _ + 1, [] => []
  | fuel + 1, l => l.take 64 :: chunksAux fuel (l.drop 64)

/-- The SHA-256 digest (8 words) of a byte list. -/
def digestWords (msg : List ℕ) : List ℕ :=
  let padded := pad msg
  (chunksAux (padded.length / 64 + 1) padded).foldl compress H0

/-- Lowercase hex digit. -/
def hexDigit (n : ℕ) : Char := if n < 10 then Char.ofNat (48 + n) else Char.ofNat (87 + n)

/-- A 32-bit word as 8 lowercase hex characters. -/
def wordHex (n : ℕ) : List Char :=
  [hexDigit ((n >>> 28) % 16), hexDigit ((n >>> 24) % 16), hexDigit ((n >>> 20) % 16),
   hexDigit ((n >>> 16) % 16), hexDigit ((n >>> 12) % 16), hexDigit ((n >>> 8) % 16),
   hexDigit ((n >>> 4) % 16), hexDigit (n % 16)]

/-- The hex-lowercased SHA-256 digest of a byte list: 64 characters. -/
def hexDigest (msg : List ℕ) : String :=
  String.mk ((digestWords msg).foldr (fun w acc => wordHex w ++ acc) [])

end SHA256

/-- UTF-8 encoding of one character. -/
def utf8Char (c : Char) : List ℕ :=
  let n := c.toNat
  if n < 0x80 then [n]
  else if n < 0x800 then [0xC0 ||| (n >>> 6), 0x80 ||| (n &&& 0x3F)]
  else if n < 0x10000 then
    [0xE0 ||| (n >>> 12), 0x80 ||| ((n >>> 6) &&& 0x3F), 0x80 ||| (n &&& 0x3F)]
  else
    [0xF0 ||| (n >>> 18), 0x80 ||| ((n >>> 12) &&& 0x3F), 0x80 ||| ((n >>> 6) &&& 0x3F),
     0x80 ||| (n &&& 0x3F)]

/-- UTF-8 bytes of a string (Rust `String::into_bytes`). -/
def utf8Bytes (s : String) : List ℕ := (s.data.map utf8Char).flatten

/-- `stable_hash` of `determinism.rs`: hex-encoded SHA-256 of a byte
sequence. -/
def stable_hash (bytes : List ℕ) : String := SHA256.hexDigest bytes

-- Reference vectors: SHA-256 of the empty message and of "abc".
example : stable_hash [] = "e3b0c44298fc1c149afbf4c8996fb92427ae41e4649b934ca495991b7852b855" := by
  decide
example :
    stable_hash (utf8Bytes "abc")
      = "ba7816bf8f01cfea414140de5dae2223b00361a396177a9cb410ff61f20015ad" := by
  decide

/-! ## Rendering numbers the way Rust `Display` does -/

/-- Decimal digits of a natural number (fuel-bounded; enough for any
number printable by the embedded code). -/
def natDigitsAux : ℕ → ℕ → List Char
  | 0, _ => []
  | fuel + 1, n =>
    if n < 10 then [Char.ofNat (48 + n)]
    else natDigitsAux fuel (n / 10) ++ [Char.ofNat (48 + n % 10)]

/-- Decimal digits of a natural number. -/
def natDigits (n : ℕ) : List Char := natDigitsAux 1200 n

/-- Rust `Display` of a signed integer. -/
def intDigits (n : ℤ) : List Char :=
  if n < 0 then '-' :: natDigits (-n).toNat else natDigits n.toNat

/-- `10 ^ p` (kernel-friendly). -/
def pow10 : ℕ → ℕ
  | 0 => 1
  | p + 1 => 10 * pow10 p

/-- Fixed-point rendering of `n / 10 ^ p` with exactly `p` fractional
digits. -/
def renderFixed (n : ℤ) (p : ℕ) : List Char :=
  let sign : List Char := if n < 0 then ['-'] else []
  let m := n.natAbs
  if p = 0 then sign ++ natDigits m
  else
    let ip := m / pow10 p
    let fp := m % pow10 p
    let fpd := natDigits fp
    sign ++ natDigits ip ++ '.' :: (List.replicate (p - fpd.length) '0' ++ fpd)

/-- Search the smallest number of fractional digits whose nearest decimal
round-trips to the value `q` through binary64 rounding, and render it.
This models the shortest-round-trip decimal output of Rust `Display` for
`f64` (which never uses exponent notation).  Non-integral binary64 values
have magnitude below `2 ^ 52` and at most 1074 fractional digits, so the
fuel always suffices; ties in the decimal rounding are broken to even. -/
def shortestDecAux : ℕ → ℕ → ℚ → List Char
  | 0, _, _ => []
  | fuel + 1, p, q =>
    let scaled := roundNE (qmul q (mkRat (Int.ofNat (pow10 p)) 1))
    let cand := mkRat scaled (pow10 p)
    if roundF64q cand = F64.fin q then renderFixed scaled p
    else shortestDecAux fuel (p + 1) q

/-- Rust `Display` for a finite, non-integral `f64`. -/
def shortestDec (q : ℚ) : List Char := shortestDecAux 1100 1 q

/-- Rust `Display` for `f64` (only reached for non-integral values in the
canonical encoder, where it is applied to normalized values). -/
def displayF64 : F64 → List Char
  | .nan => ['N', 'a', 'N']
  | .inf true => ['i', 'n', 'f']
  | .inf false => ['-', 'i', 'n', 'f']
  | .fin q => if q.den = 1 then renderFixed q.num 0 else shortestDec q

/-! ## The canonical JSON encoder of `determinism.rs` -/

/-- `CanonicalValue` of `determinism.rs`: the JSON value lattice with
`BTreeMap`-sorted objects. -/
inductive CanonicalValue where
  | null : CanonicalValue
  | bool (b : Bool) : CanonicalValue
  | num (v : F64) : CanonicalValue
  | str (s : String) : CanonicalValue
  | arr (items : List CanonicalValue) : CanonicalValue
  | obj (fields : List (String × CanonicalValue)) : CanonicalValue

/-- The escape set of the canonical encoder: backslash, double quote, LF,
CR, HT; the sequential `replace` calls of the source are equivalent to
this per-character map because the replacements introduce no new
occurrences of later targets. -/
def escChar (c : Char) : List Char :=
  if c = '\\' then ['\\', '\\']
  else if c = '"' then ['\\', '"']
  else if c = '\n' then ['\\', 'n']
  else if c = '\r' then ['\\', 'r']
  else if c = '\t' then ['\\', 't']
  else [c]

/-- Rendering of a JSON string with the canonical escape set. -/
def renderStr (s : String) : List Char :=
  '"' :: (s.data.map escChar).flatten ++ ['"']

/-- `FLOAT_PRECISION` of `determinism.rs` (`1e-9`). -/
def FLOAT_PRECISION : F64 := flit 1 1000000000

/-- `float_normalize` of `determinism.rs`: NaN to `0`; infinities to the
finite extremes; every other value is divided by `FLOAT_PRECISION`,
rounded (ties away from zero) and multiplied back, all in binary64
arithmetic. -/
def float_normalize (v : F64) : F64 :=
  if v.isNaN then F64.fin 0
  else if v.isInfB then (if F64.fgtb v (F64.fin 0) then F64.fin f64MaxQ else F64.fin f64MinQ)
  else F64.fmul (F64.fround (F64.fdiv v FLOAT_PRECISION)) FLOAT_PRECISION

/-- Rendering of a JSON number by the canonical encoder: normalize, then
integer form (via an `as i64` cast) for whole values, `Display` otherwise. -/
def renderNum (v : F64) : List Char :=
  let n := float_normalize v
  if n.isWholeB then intDigits n.toI64sat else displayF64 n

/-- `CanonicalValue::to_canonical_string`, with fuel on the nesting depth;
the serializers in this file produce nesting depth at most 6, far below
the fuel. -/
def renderCV : ℕ → CanonicalValue → List Char
  | 0, _ => []
  | _ + 1, .null => ['n', 'u', 'l', 'l']
  | _ + 1, .bool true => ['t', 'r', 'u', 'e']
  | _ + 1, .bool false => ['f', 'a', 'l', 's', 'e']
  | _ + 1, .num v => renderNum v
  | _ + 1, .str s => renderStr s
  | fuel + 1, .arr items =>
    '[' :: joinComma (items.map (renderCV fuel)) ++ [']']
  | fuel + 1, .obj fields =>
    '\x7b' :: joinComma (fields.map (fun kv => renderStr kv.1 ++ ':' :: renderCV fuel kv.2))
      ++ ['\x7d']
where
  /-- Comma-join rendered items. -/
  joinComma : List (List Char) → List Char
    | [] => []
    | [x] => x
    | x :: rest => x ++ ',' :: joinComma rest

/-- The canonical byte form of a value: UTF-8 bytes of the canonical
string (`canonical_json` composed with `String::into_bytes`). -/
def canonicalBytes (v : CanonicalValue) : List ℕ :=
  utf8Bytes (String.mk (renderCV 32 v))

/-- `compute_fingerprint` of `determinism.rs`, acting on an already
serialized value: SHA-256 of the canonical bytes, hex-lowercased. -/
def fingerprintCV (v : CanonicalValue) : String := stable_hash (canonicalBytes v)

-- The canonical encoder on a small value, checked end to end: keys are
-- sorted, floats are normalized, strings escaped, no whitespace.
example :
    String.mk (renderCV 32 (CanonicalValue.obj
      (smapIns "zebra" (CanonicalValue.num (F64.fin (mkRat 1 1)))
        (smapIns "apple" (CanonicalValue.num (F64.fadd (flit 1 10) (flit 2 10)))
          (smapIns "mango" (CanonicalValue.str "a\"b") [])))))
      = "\x7b\"apple\":0.30000000000000004,\"mango\":\"a\\\"b\",\"zebra\":1\x7d" := by
  decide

/-! ## The decision engine (`crates/decision-engine`)

Types from `types.rs` and evaluation from `engine.rs`, embedded with the
same names.  `BTreeMap` fields are `SMap`s, vectors are lists. -/

namespace DecisionEngine

/-- `ActionOption` of `types.rs`. -/
structure ActionOption where
  id : String
  label : String
deriving DecidableEq

/-- `Scenario` of `types.rs`. -/
structure Scenario where
  id : String
  probability : Option F64
  adversarial : Bool
deriving DecidableEq

/-- `DecisionConstraint` of `types.rs`. -/
structure DecisionConstraint where
  max_regret : Option F64
  risk_tolerance : Option F64
  additional : List (String × String)
deriving DecidableEq

/-- `DecisionEvidence` of `types.rs`. -/
structure DecisionEvidence where
  drift : Option F64
  trust : Option F64
  policy : Option F64
  provenance : Option String
deriving DecidableEq

/-- `DecisionMeta` of `types.rs`. -/
structure DecisionMeta where
  created_at : Option String
  version : Option String
  additional : List (String × String)
deriving DecidableEq

/-- `DecisionInput` of `types.rs`. -/
structure DecisionInput where
  id : Option String
  actions : List ActionOption
  scenarios : List Scenario
  outcomes : List (String × String × F64)
  constraints : Option DecisionConstraint
  evidence : Option DecisionEvidence
  meta : Option DecisionMeta
deriving DecidableEq

/-- `DecisionError` of `engine.rs`. -/
inductive DecisionError where
  | NoActions : DecisionError
  | NoScenarios : DecisionError
  | MissingOutcome (action scenario : String) : DecisionError
  | InvalidProbabilities (sum : F64) : DecisionError
deriving DecidableEq

/-- `RankedAction` of `types.rs`. -/
structure RankedAction where
  action_id : String
  score_worst_case : F64
  score_minimax_regret : F64
  score_adversarial : F64
  composite_score : F64
  recommended : Bool
  rank : ℕ
deriving DecidableEq

/-- `CompositeWeights` of `types.rs`. -/
structure CompositeWeights where
  worst_case : F64
  minimax_regret : F64
  adversarial : F64
deriving DecidableEq

/-- The `Default` instance of `CompositeWeights`: `(0.4, 0.4, 0.2)`. -/
def CompositeWeights.default : CompositeWeights :=
  { worst_case := flit 4 10, minimax_regret := flit 4 10, adversarial := flit 2 10 }

/-- `DecisionTrace` of `types.rs`. -/
structure DecisionTrace where
  utility_table : SMap (SMap F64)
  worst_case_table : SMap F64
  regret_table : SMap (SMap F64)
  max_regret_table : SMap F64
  adversarial_table : SMap F64
  composite_weights : CompositeWeights
  tie_break_rule : String
deriving DecidableEq

/-- `DecisionOutput` of `types.rs`. -/
structure DecisionOutput where
  ranked_actions : List RankedAction
  determinism_fingerprint : String
  trace : DecisionTrace
deriving DecidableEq

/-- The row skeleton of `build_utility_table`: every declared scenario id
mapped to `0.0`. -/
def buTableRow (scenarios : List Scenario) : SMap F64 :=
  scenarios.foldl (fun m s => smapIns s.id (F64.fin 0) m) []

/-- The initialization loop of `build_utility_table`: every declared
action id mapped to the zero row. -/
def buTableInit (actions : List ActionOption) (scenarios : List Scenario) :
    SMap (SMap F64) :=
  actions.foldl (fun t a => smapIns a.id (buTableRow scenarios) t) []

/-- The fill step of `build_utility_table` for one outcome triple:
overwrite the cell with the normalized utility, or fail with
`MissingOutcome` when the triple names an undeclared action or scenario. -/
def buTableStep (t : SMap (SMap F64)) (trip : String × String × F64) :
    Except DecisionError (SMap (SMap F64)) :=
  match smapGet? t trip.1 with
  | none => .error (.MissingOutcome trip.1 trip.2.1)
  | some amap =>
    if smapHas amap trip.2.1 then
      .ok (smapIns trip.1 (smapIns trip.2.1 (float_normalize trip.2.2) amap) t)
    else .error (.MissingOutcome trip.1 trip.2.1)

/-- `build_utility_table` of `engine.rs`: initialize every declared
`(action, scenario)` cell to `0.0`, then overwrite from the triples in
order; a triple naming an undeclared action or scenario is a
`MissingOutcome` error. -/
def build_utility_table (actions : List ActionOption) (scenarios : List Scenario)
    (outcomes : List (String × String × F64)) :
    Except DecisionError (SMap (SMap F64)) :=
  outcomes.foldlM buTableStep (buTableInit actions scenarios)

/-- `compute_worst_case` of `engine.rs`. -/
def compute_worst_case (ut : SMap (SMap F64)) : SMap F64 :=
  ut.foldl (fun r av =>
    smapIns av.1 (float_normalize ((av.2.map Prod.snd).foldl F64.fmin64 (F64.inf true))) r) []

/-- `compute_adversarial_worst_case` of `engine.rs`. -/
def compute_adversarial_worst_case (ut : SMap (SMap F64)) (scenarios : List Scenario) :
    SMap F64 :=
  let advIds := (scenarios.filter (fun s => s.adversarial)).map (fun s => s.id)
  ut.foldl (fun r av =>
    let minu :=
      if advIds.isEmpty then (av.2.map Prod.snd).foldl F64.fmin64 (F64.inf true)
      else (((av.2.filter (fun kv => advIds.contains kv.1)).map Prod.snd).foldl
        F64.fmin64 (F64.inf true))
    smapIns av.1 (float_normalize minu) r) []

/-- `compute_regret_table` of `engine.rs`. -/
def compute_regret_table (ut : SMap (SMap F64)) (scenarios : List Scenario) :
    SMap (SMap F64) :=
  let maxPer : SMap F64 :=
    scenarios.foldl (fun m s =>
      smapIns s.id (float_normalize
        (((ut.map Prod.snd).filterMap (fun sm => smapGet? sm s.id)).foldl
          F64.fmax64 (F64.inf false))) m) []
  ut.foldl (fun rt av =>
    smapIns av.1
      (av.2.foldl (fun ar sv =>
        let maxu := smapGetD maxPer sv.1 (F64.fin 0)
        smapIns sv.1 (float_normalize (F64.fsub maxu sv.2)) ar) []) rt) []

/-- `compute_max_regret` of `engine.rs` (note the fold starts at `0.0`). -/
def compute_max_regret (rt : SMap (SMap F64)) : SMap F64 :=
  rt.foldl (fun r av =>
    smapIns av.1 (float_normalize ((av.2.map Prod.snd).foldl F64.fmax64 (F64.fin 0))) r) []

/-- `normalize_to_range` of `engine.rs`. -/
def normalize_to_range (value minv maxv : F64) : F64 :=
  if F64.fltb (F64.fabs (F64.fsub maxv minv)) (flit 1 1000000000000) then F64.fin 1
  else float_normalize (F64.fdiv (F64.fsub value minv) (F64.fsub maxv minv))

/-- The sort comparator of `evaluate_decision`: descending composite score
by `partial_cmp` with `Equal` on NaN, then ascending action id. -/
def rankedCmp (a b : RankedAction) : Ordering :=
  ((F64.pcmp b.composite_score a.composite_score).getD .eq).then
    (strCmp a.action_id b.action_id)

/-- Rank assignment after sorting: ranks `1..N`, `recommended` exactly on
the first element. -/
def assignRanks (l : List RankedAction) : List RankedAction :=
  l.enum.map (fun p =>
    { p.2 with rank := p.1 + 1, recommended := decide (p.1 = 0) })

end DecisionEngine

/-! Serde serialization of `DecisionInput` composed with
`CanonicalValue::from`: structs become key-sorted objects, `Option` fields
marked `skip_serializing_if` are omitted when `None`/empty, plain `Option`
fields serialize as `null`, tuples become arrays, and non-finite floats
serialize as `null` (`serde_json` cannot represent them). -/

/-- A float as a JSON value (`serde_json`: non-finite becomes `Null`). -/
def serF64 (v : F64) : CanonicalValue :=
  if v.isNaN || v.isInfB then .null else .num v

/-- An optional float field without skip attribute. -/
def serOptF64 : Option F64 → CanonicalValue
  | none => .null
  | some v => serF64 v

/-- An optional string field without skip attribute. -/
def serOptStr : Option String → CanonicalValue
  | none => .null
  | some s => .str s

/-- A `BTreeMap<String, String>` as a JSON object. -/
def serStrMap (m : List (String × String)) : List (String × CanonicalValue) :=
  m.foldl (fun acc kv => smapIns kv.1 (CanonicalValue.str kv.2) acc) []

namespace DecisionEngine

/-- Serialization of `ActionOption`. -/
def serActionOption (a : ActionOption) : CanonicalValue :=
  .obj (smapIns "id" (.str a.id) (smapIns "label" (.str a.label) []))

/-- Serialization of `Scenario`. -/
def serScenario (s : Scenario) : CanonicalValue :=
  .obj (smapIns "id" (.str s.id)
    (smapIns "probability" (serOptF64 s.probability)
      (smapIns "adversarial" (.bool s.adversarial) [])))

/-- Serialization of an outcome triple (a tuple becomes an array). -/
def serOutcome (t : String × String × F64) : CanonicalValue :=
  .arr [.str t.1, .str t.2.1, serF64 t.2.2]

/-- Serialization of `DecisionConstraint` (all fields have skip
attributes). -/
def serConstraint (c : DecisionConstraint) : CanonicalValue :=
  .obj ((fun fs => if c.additional.isEmpty then fs
          else smapIns "additional" (.obj (serStrMap c.additional)) fs)
    ((fun fs => match c.risk_tolerance with
        | none => fs
        | some v => smapIns "risk_tolerance" (serF64 v) fs)
      (match c.max_regret with
        | none => []
        | some v => smapIns "max_regret" (serF64 v) [])))

/-- Serialization of `DecisionEvidence` (all fields have skip
attributes). -/
def serEvidence (e : DecisionEvidence) : CanonicalValue :=
  .obj ((fun fs => match e.provenance with
          | none => fs
          | some s => smapIns "provenance" (.str s) fs)
    ((fun fs => match e.policy with
        | none => fs
        | some v => smapIns "policy" (serF64 v) fs)
      ((fun fs => match e.trust with
          | none => fs
          | some v => smapIns "trust" (serF64 v) fs)
        (match e.drift with
          | none => []
          | some v => smapIns "drift" (serF64 v) []))))

/-- Serialization of `DecisionMeta` (all fields have skip attributes). -/
def serMeta (m : DecisionMeta) : CanonicalValue :=
  .obj ((fun fs => if m.additional.isEmpty then fs
          else smapIns "additional" (.obj (serStrMap m.additional)) fs)
    ((fun fs => match m.version with
        | none => fs
        | some s => smapIns "version" (.str s) fs)
      (match m.created_at with
        | none => []
        | some s => smapIns "created_at" (.str s) [])))

/-- Serialization of `DecisionInput` (the `id` field is skipped when
`None`; `constraints`, `evidence` and `meta` serialize as `null` when
`None`). -/
def serDecisionInput (x : DecisionInput) : CanonicalValue :=
  .obj ((fun fs => match x.id with
          | none => fs
          | some s => smapIns "id" (.str s) fs)
    (smapIns "actions" (.arr (x.actions.map serActionOption))
      (smapIns "scenarios" (.arr (x.scenarios.map serScenario))
        (smapIns "outcomes" (.arr (x.outcomes.map serOutcome))
          (smapIns "constraints" (match x.constraints with
              | none => .null | some c => serConstraint c)
            (smapIns "evidence" (match x.evidence with
                | none => .null | some e => serEvidence e)
              (smapIns "meta" (match x.meta with
                  | none => .null | some m => serMeta m) [])))))))

/-- `compute_fingerprint` of `determinism.rs` applied to a
`DecisionInput`: SHA-256 of the canonical JSON bytes, hex-lowercased. -/
def compute_fingerprint (x : DecisionInput) : String :=
  fingerprintCV (serDecisionInput x)

/-- `evaluate_decision` of `engine.rs`. -/
def evaluate_decision (input : DecisionInput) : Except DecisionError DecisionOutput :=
  if input.actions.isEmpty then .error .NoActions
  else if input.scenarios.isEmpty then .error .NoScenarios
  else
    match build_utility_table input.actions input.scenarios input.outcomes with
    | .error e => .error e
    | .ok utility_table =>
      let worst_case_table := compute_worst_case utility_table
      let regret_table := compute_regret_table utility_table input.scenarios
      let max_regret_table := compute_max_regret regret_table
      let adversarial_table := compute_adversarial_worst_case utility_table input.scenarios
      let wcVals := worst_case_table.map Prod.snd
      let wcMin := wcVals.foldl F64.fmin64 (F64.inf true)
      let wcMax := wcVals.foldl F64.fmax64 (F64.inf false)
      let mrVals := max_regret_table.map Prod.snd
      let mrMin := mrVals.foldl F64.fmin64 (F64.inf true)
      let mrMax := mrVals.foldl F64.fmax64 (F64.inf false)
      let advVals := adversarial_table.map Prod.snd
      let advMin := advVals.foldl F64.fmin64 (F64.inf true)
      let advMax := advVals.foldl F64.fmax64 (F64.inf false)
      let weights := CompositeWeights.default
      let ranked0 := input.actions.map (fun action =>
        let aid := action.id
        let swc := smapGetD worst_case_table aid (F64.fin 0)
        let smr := smapGetD max_regret_table aid (F64.fin 0)
        let sadv := smapGetD adversarial_table aid (F64.fin 0)
        let nwc := normalize_to_range swc wcMin wcMax
        let nmr := F64.fsub (F64.fin 1) (normalize_to_range smr mrMin mrMax)
        let nadv := normalize_to_range sadv advMin advMax
        let comp := float_normalize
          (F64.fadd (F64.fadd (F64.fmul weights.worst_case nwc)
            (F64.fmul weights.minimax_regret nmr)) (F64.fmul weights.adversarial nadv))
        { action_id := aid, score_worst_case := swc, score_minimax_regret := smr,
          score_adversarial := sadv, composite_score := comp,
          recommended := false, rank := 0 : RankedAction })
      let ranked := assignRanks (sortCmp rankedCmp ranked0)
      .ok {
        ranked_actions := ranked,
        determinism_fingerprint := compute_fingerprint input,
        trace := {
          utility_table := utility_table,
          worst_case_table := worst_case_table,
          regret_table := regret_table,
          max_regret_table := max_regret_table,
          adversarial_table := adversarial_table,
          composite_weights := weights,
          tie_break_rule := "lexicographic_by_action_id" } }

end DecisionEngine

/-! ## The classical decision kernel (`crates/engine-core`, `classical.rs`)

`OrderedFloat<f64>` fields are `F64` compared by `F64.ocmp`; `Vec` is
`List`; `BTreeMap` is `SMap`.  Rust panics (an `unwrap` of `None`, which
the source comments claim are guarded by validation) are embedded as an
explicit `panicked` result. -/

namespace EngineCore

/-- `ClassicalInput` of `classical.rs`. -/
structure ClassicalInput where
  actions : List String
  states : List String
  outcomes : SMap (SMap F64)
  algorithm : Option String
  weights : Option (SMap F64)
  strict : Bool
  temperature : Option F64
  optimism : Option F64
  confidence : Option F64
  iterations : Option ℕ
  epsilon : Option F64
deriving DecidableEq

/-- `ClassicalError` of `classical.rs`. -/
inductive ClassicalError where
  | InvalidInput (msg : String) : ClassicalError
  | MissingOutcome (action state : String) : ClassicalError
  | NoActions : ClassicalError
deriving DecidableEq

/-- `ClassicalTrace` of `classical.rs`. -/
structure ClassicalTrace where
  algorithm : String
  regret_table : Option (SMap (SMap F64))
  max_regret : Option (SMap F64)
  min_utility : Option (SMap F64)
  weighted_scores : Option (SMap F64)
  probabilities : Option (SMap F64)
  hurwicz_scores : Option (SMap F64)
  laplace_scores : Option (SMap F64)
  starr_scores : Option (SMap F64)
  hodges_lehmann_scores : Option (SMap F64)
  brown_robinson_scores : Option (SMap F64)
  nash_equilibria : Option (List (String × String))
  pareto_frontier : Option (List String)
  epsilon_contamination_scores : Option (SMap F64)
  fingerprint : Option String
deriving DecidableEq

/-- `ClassicalOutput` of `classical.rs`. -/
structure ClassicalOutput where
  recommended_action : String
  ranking : List String
  trace : ClassicalTrace
deriving DecidableEq

/-- The outcome of running an algorithm: a value, a domain error, or a
Rust panic. -/
inductive CResult (α : Type _) where
  | panicked : CResult α
  | err (e : ClassicalError) : CResult α
  | ok (a : α) : CResult α
deriving DecidableEq

/-- `empty_trace` of `classical.rs`. -/
def empty_trace (algorithm : String) : ClassicalTrace :=
  { algorithm := algorithm, regret_table := none, max_regret := none, min_utility := none,
    weighted_scores := none, probabilities := none, hurwicz_scores := none,
    laplace_scores := none, starr_scores := none, hodges_lehmann_scores := none,
    brown_robinson_scores := none, nash_equilibria := none, pareto_frontier := none,
    epsilon_contamination_scores := none, fingerprint := none }

/-- The per-state part of `ClassicalInput::validate`. -/
def validateStates (sm : SMap F64) (action : String) : List String → Except ClassicalError Unit
  | [] => .ok ()
  | st :: rest =>
    match smapGet? sm st with
    | none => .error (.MissingOutcome action st)
    | some u =>
      if u.isNaN || u.isInfB then
        .error (.InvalidInput "Utility value cannot be NaN or Infinity")
      else validateStates sm action rest

/-- The per-action part of `ClassicalInput::validate`. -/
def validateActions (input : ClassicalInput) : List String → Except ClassicalError Unit
  | [] => .ok ()
  | a :: rest =>
    match smapGet? input.outcomes a with
    | none => .error (.MissingOutcome a "ALL")
    | some sm =>
      match validateStates sm a input.states with
      | .error e => .error e
      | .ok _ => validateActions input rest

/-- `ClassicalInput::validate`. -/
def ClassicalInput.validate (input : ClassicalInput) : Except ClassicalError Unit :=
  if input.actions.isEmpty then .error .NoActions
  else validateActions input input.actions

/-- `util` of `classical.rs`.  The source unwraps both lookups; every call
site runs after `validate`, which guarantees the entries exist, so the
default is never observable. -/
def util (input : ClassicalInput) (action state : String) : F64 :=
  smapGetD (smapGetD input.outcomes action []) state (F64.fin 0)

/-- Rust `Iterator::min` on `OrderedFloat` values: the first minimum. -/
def listMinO : List F64 → Option F64
  | [] => none
  | x :: xs => some (xs.foldl (fun acc y => if F64.ocmp acc y = .gt then y else acc) x)

/-- Rust `Iterator::max` on `OrderedFloat` values: the last maximum. -/
def listMaxO : List F64 → Option F64
  | [] => none
  | x :: xs => some (xs.foldl (fun acc y => if F64.ocmp acc y = .gt then acc else y) x)

/-- The comparator of `rank_desc`: descending score, then ascending id;
lookups unwrap (guarded by construction of the score maps). -/
def rankDescCmp (scores : SMap F64) (a b : String) : Ordering :=
  (F64.ocmp (smapGetD scores b (F64.fin 0)) (smapGetD scores a (F64.fin 0))).then (strCmp a b)

/-- The comparator of `rank_asc`: ascending score, then ascending id. -/
def rankAscCmp (scores : SMap F64) (a b : String) : Ordering :=
  (F64.ocmp (smapGetD scores a (F64.fin 0)) (smapGetD scores b (F64.fin 0))).then (strCmp a b)

/-- `rank_desc` of `classical.rs`. -/
def rank_desc (actions : List String) (scores : SMap F64) : List String :=
  sortCmp (rankDescCmp scores) actions

/-- `rank_asc` of `classical.rs`. -/
def rank_asc (actions : List String) (scores : SMap F64) : List String :=
  sortCmp (rankAscCmp scores) actions

/-- The `max_state_utility` loop shared by `minimax_regret`, `starr` and
(`col_maxs` in) `nash`: the per-state maximum over actions, panicking on
an empty action list. -/
def maxPerStateA (input : ClassicalInput) (acc : SMap F64) :
    List String → CResult (SMap F64)
  | [] => .ok acc
  | st :: rest =>
    match listMaxO (input.actions.map (fun a => util input a st)) with
    | none => .panicked
    | some m => maxPerStateA input (smapIns st m acc) rest

/-- The per-action minimum over states used by `maximin` and (`row_mins`
in) `nash`, panicking on an empty state list. -/
def minPerActionA (input : ClassicalInput) (acc : SMap F64) :
    List String → CResult (SMap F64)
  | [] => .ok acc
  | a :: rest =>
    match listMinO (input.states.map (fun s => util input a s)) with
    | none => .panicked
    | some m => minPerActionA input (smapIns a m acc) rest

/-- The per-action regret row of `minimax_regret`: the regret map and the
running maximum regret (which starts at `0.0`). -/
def regretRow (input : ClassicalInput) (maxPer : SMap F64) (action : String) :
    SMap F64 × F64 :=
  input.states.foldl (fun p st =>
    let regret := F64.fsub (smapGetD maxPer st (F64.fin 0)) (util input action st)
    (smapIns st regret p.1, if F64.ocmp regret p.2 = .gt then regret else p.2))
    ([], F64.fin 0)

/-- `minimax_regret` of `classical.rs` (the Savage criterion, also the
default route). -/
def minimax_regret (input : ClassicalInput) : CResult ClassicalOutput :=
  match input.validate with
  | .error e => .err e
  | .ok _ =>
    match maxPerStateA input [] input.states with
    | .panicked => .panicked
    | .err e => .err e
    | .ok maxPer =>
      let tables := input.actions.foldl (fun p a =>
        let row := regretRow input maxPer a
        (smapIns a row.1 p.1, smapIns a row.2 p.2)) (([] : SMap (SMap F64)), ([] : SMap F64))
      let ranked := rank_asc input.actions tables.2
      match ranked.head? with
      | none => .err .NoActions
      | some recommended =>
        .ok { recommended_action := recommended, ranking := ranked,
              trace := { empty_trace "minimax_regret" with
                regret_table := some tables.1, max_regret := some tables.2 } }

/-- `maximin` of `classical.rs` (the Wald criterion). -/
def maximin (input : ClassicalInput) : CResult ClassicalOutput :=
  match input.validate with
  | .error e => .err e
  | .ok _ =>
    match minPerActionA input [] input.actions with
    | .panicked => .panicked
    | .err e => .err e
    | .ok minUtil =>
      let ranked := rank_desc input.actions minUtil
      match ranked.head? with
      | none => .err .NoActions
      | some recommended =>
        .ok { recommended_action := recommended, ranking := ranked,
              trace := { empty_trace "maximin" with min_utility := some minUtil } }

end EngineCore

namespace EngineCore

/-- `weighted_sum` of `classical.rs` (Bayesian expected utility). -/
def weighted_sum (input : ClassicalInput) : CResult ClassicalOutput :=
  match input.validate with
  | .error e => .err e
  | .ok _ =>
    match input.weights with
    | none => .err (.InvalidInput "Weights required for weighted_sum algorithm")
    | some weights =>
      let scores := input.actions.foldl (fun m a =>
        let score := input.states.foldl (fun s st =>
          F64.fadd s (F64.fmul (util input a st) (smapGetD weights st (F64.fin 0))))
          (F64.fin 0)
        smapIns a score m) []
      let ranked := rank_desc input.actions scores
      match ranked.head? with
      | none => .err .NoActions
      | some recommended =>
        .ok { recommended_action := recommended, ranking := ranked,
              trace := { empty_trace "weighted_sum" with weighted_scores := some scores } }

/-- `softmax` of `classical.rs`.  The transcendental `f64::exp` has no
exact rational semantics, so it is taken as a parameter `expF`; every
theorem about `softmax` is quantified over it. -/
def softmax (expF : F64 → F64) (input : ClassicalInput) : CResult ClassicalOutput :=
  match input.validate with
  | .error e => .err e
  | .ok _ =>
    match input.weights with
    | none => .err (.InvalidInput "Weights required for softmax algorithm")
    | some weights =>
      let temp := input.temperature.getD (flit 1 1)
      if F64.fleb temp (F64.fin 0) then .err (.InvalidInput "Temperature must be positive")
      else
        let wsAndMax := input.actions.foldl (fun p a =>
          let score := input.states.foldl (fun s st =>
            F64.fadd s (F64.fmul (util input a st) (smapGetD weights st (F64.fin 0))))
            (F64.fin 0)
          (smapIns a score p.1, if F64.fgtb score p.2 then score else p.2))
          (([] : SMap F64), F64.inf false)
        let weighted_scores := wsAndMax.1
        let max_score := wsAndMax.2
        let expsAndSum := weighted_scores.foldl (fun p kv =>
          let val := expF (F64.fdiv (F64.fsub kv.2 max_score) temp)
          (smapIns kv.1 val p.1, F64.fadd p.2 val)) (([] : SMap F64), F64.fin 0)
        let probabilities := expsAndSum.1.foldl (fun m kv =>
          smapIns kv.1 (F64.fdiv kv.2 expsAndSum.2) m) []
        let ranked := rank_desc input.actions probabilities
        match ranked.head? with
        | none => .err .NoActions
        | some recommended =>
          .ok { recommended_action := recommended, ranking := ranked,
                trace := { empty_trace "softmax" with
                  weighted_scores := some weighted_scores,
                  probabilities := some probabilities } }

/-- `hurwicz` of `classical.rs` (optimism-pessimism index). -/
def hurwicz (input : ClassicalInput) : CResult ClassicalOutput :=
  match input.validate with
  | .error e => .err e
  | .ok _ =>
    let alpha := input.optimism.getD (flit 5 10)
    if !(F64.fleb (F64.fin 0) alpha && F64.fleb alpha (F64.fin 1)) then
      .err (.InvalidInput "Optimism (alpha) must be between 0.0 and 1.0")
    else
      let scores := input.actions.foldl (fun m a =>
        let mm := input.states.foldl (fun p st =>
          let u := util input a st
          ((if F64.fltb u p.1 then u else p.1), (if F64.fgtb u p.2 then u else p.2)))
          (F64.inf true, F64.inf false)
        let score := F64.fadd (F64.fmul alpha mm.2)
          (F64.fmul (F64.fsub (F64.fin 1) alpha) mm.1)
        smapIns a score m) []
      let ranked := rank_desc input.actions scores
      match ranked.head? with
      | none => .err .NoActions
      | some recommended =>
        .ok { recommended_action := recommended, ranking := ranked,
              trace := { empty_trace "hurwicz" with hurwicz_scores := some scores } }

/-- `laplace` of `classical.rs` (insufficient reason). -/
def laplace (input : ClassicalInput) : CResult ClassicalOutput :=
  match input.validate with
  | .error e => .err e
  | .ok _ =>
    let n := roundF64q (mkRat (Int.ofNat input.states.length) 1)
    if n = F64.fin 0 then
      .err (.InvalidInput "Cannot apply Laplace criterion with no states")
    else
      let scores := input.actions.foldl (fun m a =>
        let s := input.states.foldl (fun s st => F64.fadd s (util input a st)) (F64.fin 0)
        smapIns a (F64.fdiv s n) m) []
      let ranked := rank_desc input.actions scores
      match ranked.head? with
      | none => .err .NoActions
      | some recommended =>
        .ok { recommended_action := recommended, ranking := ranked,
              trace := { empty_trace "laplace" with laplace_scores := some scores } }

/-- `starr` of `classical.rs` (minimise expected regret). -/
def starr (input : ClassicalInput) : CResult ClassicalOutput :=
  match input.validate with
  | .error e => .err e
  | .ok _ =>
    match input.weights with
    | none => .err (.InvalidInput "Weights (probabilities) required for Starr algorithm")
    | some weights =>
      match maxPerStateA input [] input.states with
      | .panicked => .panicked
      | .err e => .err e
      | .ok maxPer =>
        let scores := input.actions.foldl (fun m a =>
          let er := input.states.foldl (fun s st =>
            let regret := F64.fsub (smapGetD maxPer st (F64.fin 0)) (util input a st)
            F64.fadd s (F64.fmul regret (smapGetD weights st (F64.fin 0)))) (F64.fin 0)
          smapIns a er m) []
        let ranked := rank_asc input.actions scores
        match ranked.head? with
        | none => .err .NoActions
        | some recommended =>
          .ok { recommended_action := recommended, ranking := ranked,
                trace := { empty_trace "starr" with starr_scores := some scores } }

/-- `hodges_lehmann` of `classical.rs` (confidence-weighted compromise). -/
def hodges_lehmann (input : ClassicalInput) : CResult ClassicalOutput :=
  match input.validate with
  | .error e => .err e
  | .ok _ =>
    let alpha := input.confidence.getD (flit 5 10)
    if !(F64.fleb (F64.fin 0) alpha && F64.fleb alpha (F64.fin 1)) then
      .err (.InvalidInput "Confidence (alpha) must be between 0.0 and 1.0")
    else
      let n := roundF64q (mkRat (Int.ofNat input.states.length) 1)
      if n = F64.fin 0 then
        .err (.InvalidInput "Cannot apply Hodges-Lehmann with no states")
      else
        let scores := input.actions.foldl (fun m a =>
          let p := input.states.foldl (fun p st =>
            let u := util input a st
            ((if F64.fltb u p.1 then u else p.1), F64.fadd p.2 u))
            (F64.inf true, F64.fin 0)
          let avg := F64.fdiv p.2 n
          let score := F64.fadd (F64.fmul alpha p.1)
            (F64.fmul (F64.fsub (F64.fin 1) alpha) avg)
          smapIns a score m) []
        let ranked := rank_desc input.actions scores
        match ranked.head? with
        | none => .err .NoActions
        | some recommended =>
          .ok { recommended_action := recommended, ranking := ranked,
                trace := { empty_trace "hodges_lehmann" with
                  hodges_lehmann_scores := some scores } }

/-- Rust `iter().enumerate().max_by(partial_cmp with NaN as Equal)`: the
index of the last maximum (0 for an empty list). -/
def argmaxLastIdx (l : List F64) : ℕ :=
  match l with
  | [] => 0
  | x :: xs =>
    (xs.enum.foldl (fun p q =>
      if (F64.pcmp p.2 q.2).getD .eq = .gt then p else (q.1 + 1, q.2)) ((0 : ℕ), x)).1

/-- Rust `iter().enumerate().min_by(partial_cmp with NaN as Equal)`: the
index of the first minimum (0 for an empty list). -/
def argminFirstIdx (l : List F64) : ℕ :=
  match l with
  | [] => 0
  | x :: xs =>
    (xs.enum.foldl (fun p q =>
      if (F64.pcmp p.2 q.2).getD .eq = .gt then (q.1 + 1, q.2) else p) ((0 : ℕ), x)).1

/-- One fictitious-play round of `brown_robinson`: pick the agent action
(last maximum of the agent accumulators), the nature state (first minimum
of the nature accumulators), bump its count and update both accumulator
vectors from the payoff matrix. -/
def brStep (matrix : List (List F64)) (st : List ℕ × List F64 × List F64) :
    List ℕ × List F64 × List F64 :=
  let ba := argmaxLastIdx st.2.1
  let bs := argminFirstIdx st.2.2
  let counts := st.1.set ba (st.1.getD ba 0 + 1)
  let agent := st.2.1.enum.map (fun p =>
    F64.fadd p.2 ((matrix.getD p.1 []).getD bs (F64.fin 0)))
  let nature := st.2.2.enum.map (fun p =>
    F64.fadd p.2 ((matrix.getD ba []).getD p.1 (F64.fin 0)))
  (counts, agent, nature)

/-- Iterate `brStep`. -/
def brIter (matrix : List (List F64)) :
    ℕ → List ℕ × List F64 × List F64 → List ℕ × List F64 × List F64
  | 0, st => st
  | n + 1, st => brIter matrix n (brStep matrix st)

/-- `brown_robinson` of `classical.rs` (fictitious play). -/
def brown_robinson (input : ClassicalInput) : CResult ClassicalOutput :=
  match input.validate with
  | .error e => .err e
  | .ok _ =>
    let iterations := input.iterations.getD 1000
    if iterations = 0 then .err (.InvalidInput "Iterations must be greater than 0")
    else
      let matrix := input.actions.map (fun a => input.states.map (fun s => util input a s))
      let st0 := (List.replicate input.actions.length 0,
        List.replicate input.actions.length (F64.fin 0),
        List.replicate input.states.length (F64.fin 0))
      let fin := brIter matrix iterations st0
      let total := roundF64q (mkRat (Int.ofNat iterations) 1)
      let scores := (input.actions.zip fin.1).foldl (fun m p =>
        smapIns p.1 (F64.fdiv (roundF64q (mkRat (Int.ofNat p.2) 1)) total) m) []
      let ranked := rank_desc input.actions scores
      match ranked.head? with
      | none => .err .NoActions
      | some recommended =>
        .ok { recommended_action := recommended, ranking := ranked,
              trace := { empty_trace "brown_robinson" with
                brown_robinson_scores := some scores } }

/-- Tuple order on `(String, String)` (Rust `Ord` for pairs). -/
def pairCmp (a b : String × String) : Ordering :=
  (strCmp a.1 b.1).then (strCmp a.2 b.2)

/-- `nash` of `classical.rs` (saddle-point identification; the base
ranking comes from `maximin` and the recommendation is overridden by the
lexicographically first saddle point when one exists). -/
def nash (input : ClassicalInput) : CResult ClassicalOutput :=
  match input.validate with
  | .error e => .err e
  | .ok _ =>
    match minPerActionA input [] input.actions with
    | .panicked => .panicked
    | .err e => .err e
    | .ok row_mins =>
      match maxPerStateA input [] input.states with
      | .panicked => .panicked
      | .err e => .err e
      | .ok col_maxs =>
        let equilibria0 := (input.actions.map (fun a =>
          input.states.filterMap (fun s =>
            let val := util input a s
            if val = smapGetD row_mins a (F64.fin 0) ∧
                val = smapGetD col_maxs s (F64.fin 0) then some (a, s) else none))).flatten
        let equilibria := sortCmp pairCmp equilibria0
        match maximin input with
        | .panicked => .panicked
        | .err e => .err e
        | .ok base =>
          let recommended := (match equilibria.head? with
            | some e => e.1
            | none => base.recommended_action)
          CResult.ok { base with
            recommended_action := recommended,
            trace := { base.trace with
              algorithm := "nash",
              min_utility := none,
              nash_equilibria := some equilibria } }

/-- The dominance test of `pareto`: `b` is weakly better than `a` in every
state and strictly better in at least one (on `OrderedFloat` order). -/
def dominatesB (input : ClassicalInput) (b a : String) : Bool :=
  input.states.all (fun st => F64.ocmp (util input b st) (util input a st) ≠ .lt) &&
  input.states.any (fun st => F64.ocmp (util input b st) (util input a st) = .gt)

/-- `pareto` of `classical.rs` (dominance filtering; the frontier comes
first, each part sorted ascending). -/
def pareto (input : ClassicalInput) : CResult ClassicalOutput :=
  match input.validate with
  | .error e => .err e
  | .ok _ =>
    let dominated := input.actions.foldl (fun dset a =>
      if !dset.contains a && input.actions.any (fun b => b ≠ a && dominatesB input b a)
      then dset ++ [a] else dset) []
    let frontier := sortCmp strCmp (input.actions.filter (fun a => !dominated.contains a))
    let dominated_list := sortCmp strCmp dominated
    let ranking := frontier ++ dominated_list
    match frontier.head? with
    | none => .err .NoActions
    | some recommended =>
      .ok { recommended_action := recommended, ranking := ranking,
            trace := { empty_trace "pareto" with pareto_frontier := some frontier } }

/-- `epsilon_contamination` of `classical.rs`. -/
def epsilon_contamination (input : ClassicalInput) : CResult ClassicalOutput :=
  match input.validate with
  | .error e => .err e
  | .ok _ =>
    let epsilon := input.epsilon.getD (flit 1 10)
    if !(F64.fleb (F64.fin 0) epsilon && F64.fleb epsilon (F64.fin 1)) then
      .err (.InvalidInput "Epsilon must be between 0.0 and 1.0")
    else
      match input.weights with
      | none => .err (.InvalidInput "Weights required for Epsilon-Contamination algorithm")
      | some weights =>
        let scores := input.actions.foldl (fun m a =>
          let p := input.states.foldl (fun p st =>
            let u := util input a st
            let prob := smapGetD weights st (F64.fin 0)
            (F64.fadd p.1 (F64.fmul u prob), if F64.fltb u p.2 then u else p.2))
            (F64.fin 0, F64.inf true)
          let score := F64.fadd (F64.fmul (F64.fsub (F64.fin 1) epsilon) p.1)
            (F64.fmul epsilon p.2)
          smapIns a score m) []
        let ranked := rank_desc input.actions scores
        match ranked.head? with
        | none => .err .NoActions
        | some recommended =>
          .ok { recommended_action := recommended, ranking := ranked,
                trace := { empty_trace "epsilon_contamination" with
                  epsilon_contamination_scores := some scores } }

/-! Serde serialization of `ClassicalOutput` (every `Option` field of the
trace carries `skip_serializing_if = "Option::is_none"` except
`fingerprint`, which serializes as `null` when `None`). -/

/-- A score map as a JSON object. -/
def serSMapF64 (m : SMap F64) : CanonicalValue :=
  .obj (m.foldl (fun acc kv => smapIns kv.1 (serF64 kv.2) acc) [])

/-- A nested score table as a JSON object. -/
def serSMapSMapF64 (m : SMap (SMap F64)) : CanonicalValue :=
  .obj (m.foldl (fun acc kv => smapIns kv.1 (serSMapF64 kv.2) acc) [])

/-- Insert an optional trace field (skipped when `None`). -/
def insOpt {α : Type _} (k : String) (ser : α → CanonicalValue) :
    Option α → List (String × CanonicalValue) → List (String × CanonicalValue)
  | none, fs => fs
  | some v, fs => smapIns k (ser v) fs

/-- Serialization of `ClassicalTrace`. -/
def serClassicalTrace (t : ClassicalTrace) : CanonicalValue :=
  .obj (smapIns "algorithm" (.str t.algorithm)
    (insOpt "regret_table" serSMapSMapF64 t.regret_table
      (insOpt "max_regret" serSMapF64 t.max_regret
        (insOpt "min_utility" serSMapF64 t.min_utility
          (insOpt "weighted_scores" serSMapF64 t.weighted_scores
            (insOpt "probabilities" serSMapF64 t.probabilities
              (insOpt "hurwicz_scores" serSMapF64 t.hurwicz_scores
                (insOpt "laplace_scores" serSMapF64 t.laplace_scores
                  (insOpt "starr_scores" serSMapF64 t.starr_scores
                    (insOpt "hodges_lehmann_scores" serSMapF64 t.hodges_lehmann_scores
                      (insOpt "brown_robinson_scores" serSMapF64 t.brown_robinson_scores
                        (insOpt "nash_equilibria"
                          (fun l => .arr (l.map (fun p => .arr [.str p.1, .str p.2])))
                          t.nash_equilibria
                          (insOpt "pareto_frontier"
                            (fun l => .arr (l.map CanonicalValue.str)) t.pareto_frontier
                            (insOpt "epsilon_contamination_scores" serSMapF64
                              t.epsilon_contamination_scores
                              (smapIns "fingerprint" (serOptStr t.fingerprint) [])))))))))))))))

/-- Serialization of `ClassicalOutput`. -/
def serClassicalOutput (o : ClassicalOutput) : CanonicalValue :=
  .obj (smapIns "recommended_action" (.str o.recommended_action)
    (smapIns "ranking" (.arr (o.ranking.map CanonicalValue.str))
      (smapIns "trace" (serClassicalTrace o.trace) [])))

/-- `evaluate_classical` of `classical.rs`: route on the algorithm string,
then attach the SHA-256 fingerprint of the canonical JSON of the output
(computed while `trace.fingerprint` is still `None`). -/
def evaluate_classical (expF : F64 → F64) (input : ClassicalInput) :
    CResult ClassicalOutput :=
  let routed :=
    if input.algorithm = some "maximin" ∨ input.algorithm = some "wald" ∨
        input.algorithm = some "minimax" then maximin input
    else if input.algorithm = some "weighted_sum" then weighted_sum input
    else if input.algorithm = some "softmax" then softmax expF input
    else if input.algorithm = some "hurwicz" then hurwicz input
    else if input.algorithm = some "laplace" then laplace input
    else if input.algorithm = some "starr" then starr input
    else if input.algorithm = some "hodges_lehmann" then hodges_lehmann input
    else if input.algorithm = some "brown_robinson" then brown_robinson input
    else if input.algorithm = some "nash" then nash input
    else if input.algorithm = some "pareto" then pareto input
    else if input.algorithm = some "epsilon_contamination" then epsilon_contamination input
    else minimax_regret input
  match routed with
  | .panicked => .panicked
  | .err e => .err e
  | .ok out =>
    .ok { out with trace := { out.trace with
      fingerprint := some (stable_hash (canonicalBytes (serClassicalOutput out))) } }

end EngineCore

/-! ## The wire frame codec (`crates/requiem`, `protocol/frame.rs`)

Buffers are byte lists (each element < 256).  `Frame::decode` consumes one
frame from the front of the buffer and returns the remainder; the source
mutates the `BytesMut` in place. -/

namespace Requiem

/-- The frame magic, `0x52454348` ("RECH"). -/
def MAGIC : ℕ := 0x52454348

/-- Maximum payload size: 64 MiB. -/
def MAX_PAYLOAD_BYTES : ℕ := 64 * 1024 * 1024

/-- Header size in bytes. -/
def HEADER_SIZE : ℕ := 24

/-- Header plus CRC trailer. -/
def FRAME_OVERHEAD : ℕ := 28

/-- `MessageType` of `frame.rs`. -/
inductive MessageType where
  | Heartbeat : MessageType
  | Hello : MessageType
  | HelloAck : MessageType
  | ExecRequest : MessageType
  | ExecResult : MessageType
  | HealthRequest : MessageType
  | HealthResult : MessageType
  | Error : MessageType
deriving DecidableEq

/-- `MessageType::to_u32`. -/
def MessageType.toU32 : MessageType → ℕ
  | .Heartbeat => 0x00
  | .Hello => 0x01
  | .HelloAck => 0x02
  | .ExecRequest => 0x10
  | .ExecResult => 0x11
  | .HealthRequest => 0x20
  | .HealthResult => 0x21
  | .Error => 0xFF

/-- `MessageType::from_u32`. -/
def MessageType.fromU32 (v : ℕ) : Option MessageType :=
  if v = 0x00 then some .Heartbeat
  else if v = 0x01 then some .Hello
  else if v = 0x02 then some .HelloAck
  else if v = 0x10 then some .ExecRequest
  else if v = 0x11 then some .ExecResult
  else if v = 0x20 then some .HealthRequest
  else if v = 0x21 then some .HealthResult
  else if v = 0xFF then some .Error
  else none

/-- `FrameError` of `frame.rs` (the IO variant carries no protocol
content and never arises in the pure codec). -/
inductive FrameError where
  | InvalidMagic (expected got : ℕ) : FrameError
  | UnsupportedVersion (major minor : ℕ) : FrameError
  | UnknownMessageType (v : ℕ) : FrameError
  | PayloadTooLarge (size max : ℕ) : FrameError
  | PayloadLengthMismatch (expected actual : ℕ) : FrameError
  | CrcMismatch (expected calculated : ℕ) : FrameError
  | Incomplete (needed : ℕ) : FrameError
deriving DecidableEq

/-- `Frame` of `frame.rs`. -/
structure Frame where
  version_major : ℕ
  version_minor : ℕ
  msg_type : MessageType
  flags : ℕ
  correlation_id : ℕ
  payload : List ℕ
deriving DecidableEq

/-- Little-endian 16-bit encoding. -/
def u16le (x : ℕ) : List ℕ := [x % 256, x / 256 % 256]

/-- Little-endian 32-bit encoding. -/
def u32le (x : ℕ) : List ℕ := [x % 256, x / 256 % 256, x / 65536 % 256, x / 16777216 % 256]

/-- Little-endian 16-bit read from the front of a buffer. -/
def readU16 (l : List ℕ) : ℕ := l.getD 0 0 + 256 * l.getD 1 0

/-- Little-endian 32-bit read from the front of a buffer. -/
def readU32 (l : List ℕ) : ℕ :=
  l.getD 0 0 + 256 * l.getD 1 0 + 65536 * l.getD 2 0 + 16777216 * l.getD 3 0

/-- The reflected CRC-32C (Castagnoli) bit step. -/
def crcStep (c : ℕ) : ℕ := if c % 2 = 1 then (c / 2) ^^^ 0x82F63B78 else c / 2

/-- Eight bit steps. -/
def crcStep8 (c : ℕ) : ℕ :=
  crcStep (crcStep (crcStep (crcStep (crcStep (crcStep (crcStep (crcStep c)))))))

/-- Absorb one byte into the CRC register. -/
def crcByte (c b : ℕ) : ℕ := crcStep8 (c ^^^ b)

/-- Run the CRC register over a message. -/
def crcReg (c : ℕ) (m : List ℕ) : ℕ := m.foldl crcByte c

/-- CRC-32C of a byte sequence (the `crc32c` crate). -/
def crc32c (m : List ℕ) : ℕ := crcReg 0xFFFFFFFF m ^^^ 0xFFFFFFFF

-- Reference check value of CRC-32C.
example : crc32c (utf8Bytes "123456789") = 0xE3069283 := by decide
example : crc32c [] = 0 := by decide

/-- The header-and-payload bytes covered by the CRC, in the order hashed
by `Frame::calculate_crc`. -/
def crcInput (f : Frame) : List ℕ :=
  u32le MAGIC ++ u16le f.version_major ++ u16le f.version_minor ++
  u32le f.msg_type.toU32 ++ u32le f.flags ++ u32le f.correlation_id ++
  u32le f.payload.length ++ f.payload

/-- `Frame::calculate_crc`. -/
def calculate_crc (f : Frame) : ℕ := crc32c (crcInput f)

/-- `Frame::encode`: header, payload, CRC trailer. -/
def encode (f : Frame) : List ℕ := crcInput f ++ u32le (calculate_crc f)

/-- The result of `Frame::decode`: `Ok(None)` (need more data), an error,
or a frame together with the unconsumed remainder of the buffer. -/
inductive DecodeOut where
  | needMore : DecodeOut
  | fail (e : FrameError) : DecodeOut
  | ok (f : Frame) (rest : List ℕ) : DecodeOut
deriving DecidableEq

/-- `Frame::decode`. -/
def decode (src : List ℕ) : DecodeOut :=
  if src.length < HEADER_SIZE then .needMore
  else
    let magic := readU32 src
    if magic ≠ MAGIC then .fail (.InvalidMagic MAGIC magic)
    else
      let msg_type_raw := readU32 (src.drop 8)
      match MessageType.fromU32 msg_type_raw with
      | none => .fail (.UnknownMessageType msg_type_raw)
      | some msg_type =>
        let payload_len := readU32 (src.drop 20)
        if MAX_PAYLOAD_BYTES < payload_len then
          .fail (.PayloadTooLarge payload_len MAX_PAYLOAD_BYTES)
        else if src.length < FRAME_OVERHEAD + payload_len then .needMore
        else
          let frame : Frame := {
            version_major := readU16 (src.drop 4),
            version_minor := readU16 (src.drop 6),
            msg_type := msg_type,
            flags := readU32 (src.drop 12),
            correlation_id := readU32 (src.drop 16),
            payload := (src.drop HEADER_SIZE).take payload_len }
          let expected_crc := readU32 (src.drop (HEADER_SIZE + payload_len))
          let calculated := calculate_crc frame
          if expected_crc ≠ calculated then .fail (.CrcMismatch expected_crc calculated)
          else .ok frame (src.drop (FRAME_OVERHEAD + payload_len))

/-- Flip bit `i` (LSB-first within each byte) of a buffer. -/
def flipBit (src : List ℕ) (i : ℕ) : List ℕ :=
  src.set (i / 8) (src.getD (i / 8) 0 ^^^ (1 <<< (i % 8)))

end Requiem

-- Round-trip smoke test on a tiny frame.
example :
    Requiem.decode (Requiem.encode
      { version_major := 1, version_minor := 0, msg_type := .Hello,
        flags := 0, correlation_id := 7, payload := [104, 105] })
      = .ok { version_major := 1, version_minor := 0, msg_type := .Hello,
              flags := 0, correlation_id := 7, payload := [104, 105] } [] := by
  decide

/-! ## Claims -/

/-- Claim C7.  The claim states that `float_normalize` is idempotent on
every `f64`, including the extremes of the finite range.  The code
violates this: `float_normalize(f64::MAX)` computes `f64::MAX / 1e-9`,
which overflows to `+∞`, rounds to `+∞` and multiplies back to `+∞` - so a
finite input maps to an infinite output, and applying `float_normalize`
again maps that `+∞` back to `f64::MAX`.  Hence
`float_normalize (float_normalize v) ≠ float_normalize v` at
`v = f64::MAX` (and symmetrically at `v = ±∞` and all huge finite values),
contradicting spec property P4 and the documented purpose of the function
(clamping to the finite extremes and rounding to 1e-9 precision). -/
theorem c7_normalize_not_idempotent_at_max :
    float_normalize (F64.fin f64MaxQ) = F64.inf true ∧
    float_normalize (F64.inf true) = F64.fin f64MaxQ ∧
    float_normalize (float_normalize (F64.fin f64MaxQ))
      ≠ float_normalize (F64.fin f64MaxQ) ∧
    float_normalize (float_normalize (F64.inf true)) ≠ float_normalize (F64.inf true) := by
  constructor
  · decide
  constructor
  · decide
  constructor
  · decide
  · decide

/-- A decision-engine input containing a NaN utility (claim C5). -/
def c5Input : DecisionEngine.DecisionInput :=
  { id := none,
    actions := [{ id := "a", label := "A" }],
    scenarios := [{ id := "s", probability := none, adversarial := false }],
    outcomes := [("a", "s", F64.nan)],
    constraints := none, evidence := none, meta := none }

/-- Claim C5, counterexample.  The claim says every evaluation entry point
that accepts utilities rejects NaN and infinite utilities with a
validation error and produces no output.  The decision-engine entry point
`evaluate_decision` does not: on an input whose only utility is NaN it
succeeds (the NaN is silently normalized to `0`). -/
theorem c5_nan_not_rejected :
    (DecisionEngine.evaluate_decision c5Input).isOk = true ∧
    (match DecisionEngine.evaluate_decision c5Input with
      | .ok o => o.trace.utility_table
      | _ => []) = [("a", [("s", F64.fin 0)])] := by
  constructor
  · decide
  · decide

/-- Every state validated by `validateStates` is present with a finite
utility. -/
theorem validateStates_mem {sm : SMap F64} {a : String} {sts : List String}
    (h : EngineCore.validateStates sm a sts = .ok ()) :
    ∀ s ∈ sts, ∃ u, smapGet? sm s = some u ∧ u.isNaN = false ∧ u.isInfB = false := by
  induction sts with
  | nil => intro s hs; simp at hs
  | cons s0 rest ih =>
    intro s hs
    rw [EngineCore.validateStates] at h
    cases hg : smapGet? sm s0 with
    | none =>
      rw [hg] at h
      exact absurd (show Except.error (EngineCore.ClassicalError.MissingOutcome a s0)
        = (Except.ok () : Except EngineCore.ClassicalError Unit) from h) (by simp)
    | some u =>
      rw [hg] at h
      have h2 : (if (u.isNaN || u.isInfB) = true then
          (Except.error (EngineCore.ClassicalError.InvalidInput
            "Utility value cannot be NaN or Infinity") : Except EngineCore.ClassicalError Unit)
        else EngineCore.validateStates sm a rest) = Except.ok () := h
      by_cases hn : (u.isNaN || u.isInfB) = true
      · rw [if_pos hn] at h2; exact absurd h2 (by simp)
      · rw [if_neg hn] at h2
        have hn2 := hn
        simp only [Bool.or_eq_true, not_or, Bool.not_eq_true] at hn2
        rcases List.mem_cons.mp hs with hs | hs
        · exact ⟨u, by rw [hs]; exact hg, hn2.1, hn2.2⟩
        · exact ih h2 s hs

/-- Every action validated by `validateActions` has a present outcome row
that passes the per-state validation. -/
theorem validateActions_mem {input : EngineCore.ClassicalInput} {acts : List String}
    (h : EngineCore.validateActions input acts = .ok ()) :
    ∀ a ∈ acts, ∃ sm, smapGet? input.outcomes a = some sm ∧
      EngineCore.validateStates sm a input.states = .ok () := by
  induction acts with
  | nil => intro a ha; simp at ha
  | cons a0 rest ih =>
    intro a ha
    rw [EngineCore.validateActions] at h
    cases hg : smapGet? input.outcomes a0 with
    | none =>
      rw [hg] at h
      exact absurd (show Except.error (EngineCore.ClassicalError.MissingOutcome a0 "ALL")
        = (Except.ok () : Except EngineCore.ClassicalError Unit) from h) (by simp)
    | some sm =>
      rw [hg] at h
      have h2 : (match EngineCore.validateStates sm a0 input.states with
        | Except.error e => (Except.error e : Except EngineCore.ClassicalError Unit)
        | Except.ok _ => EngineCore.validateActions input rest) = Except.ok () := h
      cases hv : EngineCore.validateStates sm a0 input.states with
      | error e => rw [hv] at h2; exact absurd h2 (by simp)
      | ok u =>
        rw [hv] at h2
        rcases List.mem_cons.mp ha with ha2 | ha2
        · exact ⟨sm, by rw [ha2]; exact hg, by rw [ha2]; cases u; exact hv⟩
        · exact ih h2 a ha2

/-- Claim C5, amended.  The engine-core classical entry point rejects
non-finite utilities at validation (an input that passes `validate` has
only finite utilities for declared action/state pairs); the decision
engine entry point does not reject them - `float_normalize` maps NaN to
`0` and the infinities to the finite extremes, and evaluation succeeds,
as witnessed by the concrete NaN input. -/
theorem c5_nonfinite_rejection_amended :
    (∀ input : EngineCore.ClassicalInput, input.validate = .ok () →
      ∀ a ∈ input.actions, ∀ s ∈ input.states,
        (EngineCore.util input a s).isNaN = false ∧
        (EngineCore.util input a s).isInfB = false) ∧
    (∀ u : F64, u.isNaN = true → float_normalize u = F64.fin 0) ∧
    float_normalize (F64.inf true) = F64.fin f64MaxQ ∧
    float_normalize (F64.inf false) = F64.fin f64MinQ ∧
    (DecisionEngine.evaluate_decision c5Input).isOk = true := by
  refine ⟨?_, ?_, by decide, by decide, by decide⟩
  · intro input hv a ha s hs
    rw [EngineCore.ClassicalInput.validate] at hv
    by_cases he : input.actions.isEmpty
    · rw [if_pos he] at hv; exact absurd hv (by simp)
    · rw [if_neg he] at hv
      obtain ⟨sm, hg, hvs⟩ := validateActions_mem hv a ha
      obtain ⟨u, hu, hn, hi⟩ := validateStates_mem hvs s hs
      rw [EngineCore.util, smapGetD, smapGetD, hg]
      simp only [Option.getD_some]
      rw [hu]
      exact ⟨hn, hi⟩
  · intro u hu
    cases u
    · rfl
    · simp [F64.isNaN] at hu
    · simp [F64.isNaN] at hu

/-- A valid classical input with finite utilities (claim C5 witness). -/
def c5ClassIn : EngineCore.ClassicalInput :=
  { actions := ["a"], states := ["s"], outcomes := [("a", [("s", F64.fin 1)])],
    algorithm := none, weights := none, strict := false, temperature := none,
    optimism := none, confidence := none, iterations := none, epsilon := none }

/-- Witness for claim C5: the amended theorem applied at a concrete
validated input and a concrete NaN. -/
theorem c5_witness :
    c5ClassIn.validate = .ok () ∧
    ((EngineCore.util c5ClassIn "a" "s").isNaN = false ∧
      (EngineCore.util c5ClassIn "a" "s").isInfB = false) ∧
    F64.nan.isNaN = true ∧ float_normalize F64.nan = F64.fin 0 :=
  ⟨by rfl,
   c5_nonfinite_rejection_amended.1 c5ClassIn (by rfl) "a" (by decide) "s" (by decide),
   by decide,
   c5_nonfinite_rejection_amended.2.1 F64.nan (by decide)⟩

/-! ## Claim C2: the utility-table fill semantics -/

/-- Joint cell lookup in a nested map. -/
def cellGet (t : SMap (SMap F64)) (a s : String) : Option F64 :=
  (smapGet? t a).bind (fun am => smapGet? am s)

/-- The value carried by the last outcome triple with the given keys. -/
def lastTrip? : List (String × String × F64) → String → String → Option F64
  | [], _, _ => none
  | trip :: rest, a, s =>
    (lastTrip? rest a s).or (if trip.1 = a ∧ trip.2.1 = s then some trip.2.2 else none)

theorem lastVal?_const {α β : Type _} (f : β → String) (c : α) (l : List β) (k : String) :
    lastVal? (l.map (fun b => (f b, c))) k = if k ∈ l.map f then some c else none := by
  induction l with
  | nil => simp [lastVal?]
  | cons b rest ih =>
    rw [List.map_cons, lastVal?, ih]
    by_cases hk : k ∈ rest.map f
    · simp [hk, Option.or]
    · by_cases he : f b = k
      · simp [hk, he, Option.or]
      · simp only [List.map_cons]
        rw [if_neg hk, if_neg he, if_neg (by
          intro hm
          rcases List.mem_cons.mp hm with hm | hm
          · exact he hm.symm
          · exact hk hm)]
        simp [Option.or]



namespace DecisionEngine

theorem buTableRow_get (scenarios : List Scenario) (s : String) :
    smapGet? (buTableRow scenarios) s
      = if s ∈ scenarios.map Scenario.id then some (F64.fin 0) else none := by
  have h1 : buTableRow scenarios
      = (scenarios.map (fun sc => (sc.id, F64.fin 0))).foldl (fun m p => smapIns p.1 p.2 m) [] := by
    rw [buTableRow, List.foldl_map]
  rw [h1, smapGet?_foldl_ins, lastVal?_const Scenario.id (F64.fin 0)]
  by_cases hm : s ∈ scenarios.map Scenario.id
  · rw [if_pos hm]; rfl
  · rw [if_neg hm]; rfl

theorem buTableInit_get (actions : List ActionOption) (scenarios : List Scenario) (a : String) :
    smapGet? (buTableInit actions scenarios) a
      = if a ∈ actions.map ActionOption.id then some (buTableRow scenarios) else none := by
  have h1 : buTableInit actions scenarios
      = (actions.map (fun b => (b.id, buTableRow scenarios))).foldl
          (fun m p => smapIns p.1 p.2 m) [] := by
    rw [buTableInit, List.foldl_map]
  rw [h1, smapGet?_foldl_ins, lastVal?_const ActionOption.id (buTableRow scenarios)]
  by_cases hm : a ∈ actions.map ActionOption.id
  · rw [if_pos hm]; rfl
  · rw [if_neg hm]; rfl

theorem cellGet_init (actions : List ActionOption) (scenarios : List Scenario) (a s : String) :
    cellGet (buTableInit actions scenarios) a s
      = if a ∈ actions.map ActionOption.id ∧ s ∈ scenarios.map Scenario.id then
          some (F64.fin 0) else none := by
  rw [cellGet, buTableInit_get]
  by_cases ha : a ∈ actions.map ActionOption.id
  · rw [if_pos ha, Option.some_bind, buTableRow_get]
    by_cases hs : s ∈ scenarios.map Scenario.id
    · rw [if_pos hs, if_pos ⟨ha, hs⟩]
    · rw [if_neg hs, if_neg (fun h => hs h.2)]
  · rw [if_neg ha, if_neg (fun h => ha h.1)]
    rfl

theorem cellGet_after_ins {t : SMap (SMap F64)} {a s : String} {v : F64} {am : SMap F64}
    (hg : smapGet? t a = some am) (x y : String) :
    cellGet (smapIns a (smapIns s v am) t) x y
      = if x = a ∧ y = s then some v else cellGet t x y := by
  rw [cellGet]
  by_cases hx : x = a
  · rw [hx, smapGet?_ins_self, Option.some_bind]
    by_cases hy : y = s
    · rw [hy, smapGet?_ins_self, if_pos (And.intro rfl rfl)]
    · rw [smapGet?_ins_ne hy, if_neg (fun h => hy h.2), cellGet, hg, Option.some_bind]
  · rw [smapGet?_ins_ne hx, if_neg (fun h => hx h.1), cellGet]

theorem buTableFill_ok {outcomes : List (String × String × F64)} :
    ∀ t0 : SMap (SMap F64),
    (∀ trip ∈ outcomes, (cellGet t0 trip.1 trip.2.1).isSome = true) →
    ∃ t, outcomes.foldlM buTableStep t0 = .ok t ∧
      ∀ a s, cellGet t a s = ((lastTrip? outcomes a s).map float_normalize).or (cellGet t0 a s) := by
  induction outcomes with
  | nil =>
    intro t0 _
    exact ⟨t0, rfl, fun a s => by simp [lastTrip?]⟩
  | cons trip rest ih =>
    intro t0 h
    have htrip := h trip (by simp)
    rw [cellGet] at htrip
    cases hg : smapGet? t0 trip.1 with
    | none => rw [hg] at htrip; simp at htrip
    | some am =>
      rw [hg, Option.some_bind] at htrip
      have hstep : buTableStep t0 trip
          = .ok (smapIns trip.1 (smapIns trip.2.1 (float_normalize trip.2.2) am) t0) := by
        rw [buTableStep, hg]
        simp only [smapHas, htrip, if_pos]
      have hpres : ∀ tr ∈ rest,
          (cellGet (smapIns trip.1 (smapIns trip.2.1 (float_normalize trip.2.2) am) t0)
            tr.1 tr.2.1).isSome = true := by
        intro tr htr
        rw [cellGet_after_ins hg]
        by_cases hc : tr.1 = trip.1 ∧ tr.2.1 = trip.2.1
        · rw [if_pos hc]; rfl
        · rw [if_neg hc]; exact h tr (by simp [htr])
      obtain ⟨t, hfold, hchar⟩ :=
        ih (smapIns trip.1 (smapIns trip.2.1 (float_normalize trip.2.2) am) t0) hpres
      refine ⟨t, ?_, ?_⟩
      · rw [List.foldlM_cons, hstep]
        exact hfold
      · intro a s
        rw [hchar a s, cellGet_after_ins hg, lastTrip?]
        cases hl : lastTrip? rest a s with
        | some u => simp [Option.or]
        | none =>
          by_cases hc : trip.1 = a ∧ trip.2.1 = s
          · rw [if_pos (show a = trip.1 ∧ s = trip.2.1 from ⟨hc.1.symm, hc.2.symm⟩),
              if_pos hc]
            simp [Option.or]
          · rw [if_neg (fun hcc : a = trip.1 ∧ s = trip.2.1 => hc ⟨hcc.1.symm, hcc.2.symm⟩),
              if_neg hc]
            simp [Option.or]

/-- If some triple carries the keys `(a, s)` (so `lastTrip?` finds a
value), those keys are declared, provided every triple is declared. -/
theorem lastTrip?_declared {aIds sIds : List String}
    {outcomes : List (String × String × F64)} {a s : String} {u : F64}
    (hdecl : ∀ trip ∈ outcomes, trip.1 ∈ aIds ∧ trip.2.1 ∈ sIds)
    (hl : lastTrip? outcomes a s = some u) : a ∈ aIds ∧ s ∈ sIds := by
  induction outcomes generalizing u with
  | nil => simp [lastTrip?] at hl
  | cons tr rest ih =>
    rw [lastTrip?] at hl
    cases hr : lastTrip? rest a s with
    | some v =>
      rw [hr] at hl
      exact ih (fun p hp => hdecl p (by simp [hp])) hr
    | none =>
      rw [hr] at hl
      simp only [Option.or] at hl
      by_cases hc : tr.1 = a ∧ tr.2.1 = s
      · have := hdecl tr (by simp)
        rw [← hc.1, ← hc.2]
        exact this
      · rw [if_neg hc] at hl
        simp at hl

/-- A decision-engine input with a declared action and scenario but an
empty outcome list, so the single cell is missing (claim C2). -/
def c2Input : DecisionInput :=
  { id := none,
    actions := [{ id := "a", label := "A" }],
    scenarios := [{ id := "s", probability := none, adversarial := false }],
    outcomes := [],
    constraints := none, evidence := none, meta := none }

/-- Claim C2, counterexample.  The claim says a missing `(action, state)`
cell is a validation error (`MissingOutcome`, no output).  The code
instead pre-fills every declared cell with `0.0` and only errors on
triples referencing undeclared ids: on an input with one action, one
scenario and no outcome triples at all, evaluation succeeds and the
utility table holds `0.0` for the missing cell. -/
theorem c2_missing_cell_not_error :
    (match evaluate_decision c2Input with
      | .ok o => some o.trace.utility_table
      | .error _ => none) = some [("a", [("s", F64.fin 0)])] := by
  decide

/-- Claim C2, amended.  When every outcome triple references a declared
action and scenario, `build_utility_table` succeeds, and each declared
cell holds the normalized value of the *last* triple for that cell in
insertion order (the last one wins), or `0.0` when no triple mentions
the cell — a missing cell is never an error; undeclared cells are absent
from the table.  When some triple references an undeclared action or
scenario and every earlier triple is declared, the build fails with
`MissingOutcome` naming that triple. -/
theorem c2_utility_table_semantics :
    (∀ (actions : List ActionOption) (scenarios : List Scenario)
        (outcomes : List (String × String × F64)),
      (∀ trip ∈ outcomes, trip.1 ∈ actions.map ActionOption.id ∧
        trip.2.1 ∈ scenarios.map Scenario.id) →
      ∃ t, build_utility_table actions scenarios outcomes = .ok t ∧
        ∀ a s, cellGet t a s =
          if a ∈ actions.map ActionOption.id ∧ s ∈ scenarios.map Scenario.id then
            some (match lastTrip? outcomes a s with
              | some u => float_normalize u
              | none => F64.fin 0)
          else none) ∧
    (∀ (actions : List ActionOption) (scenarios : List Scenario)
        (pre post : List (String × String × F64)) (trip : String × String × F64),
      (∀ p ∈ pre, p.1 ∈ actions.map ActionOption.id ∧
        p.2.1 ∈ scenarios.map Scenario.id) →
      ¬ (trip.1 ∈ actions.map ActionOption.id ∧
        trip.2.1 ∈ scenarios.map Scenario.id) →
      build_utility_table actions scenarios (pre ++ trip :: post)
        = .error (.MissingOutcome trip.1 trip.2.1)) := by
  constructor
  · intro actions scenarios outcomes hdecl
    have hpres : ∀ trip ∈ outcomes,
        (cellGet (buTableInit actions scenarios) trip.1 trip.2.1).isSome = true := by
      intro trip htrip
      rw [cellGet_init, if_pos (hdecl trip htrip)]
      rfl
    obtain ⟨t, hfold, hchar⟩ := buTableFill_ok (buTableInit actions scenarios) hpres
    refine ⟨t, hfold, ?_⟩
    intro a s
    rw [hchar a s, cellGet_init]
    by_cases hd : a ∈ actions.map ActionOption.id ∧ s ∈ scenarios.map Scenario.id
    · rw [if_pos hd, if_pos hd]
      cases hl : lastTrip? outcomes a s with
      | some u => simp [Option.or]
      | none => simp [Option.or]
    · rw [if_neg hd, if_neg hd]
      cases hl : lastTrip? outcomes a s with
      | some u => exact absurd (lastTrip?_declared hdecl hl) hd
      | none => simp [Option.or]
  · intro actions scenarios pre post trip hpre hbad
    have hpres : ∀ p ∈ pre,
        (cellGet (buTableInit actions scenarios) p.1 p.2.1).isSome = true := by
      intro p hp
      rw [cellGet_init, if_pos (hpre p hp)]
      rfl
    obtain ⟨t1, hfold, hchar⟩ := buTableFill_ok (buTableInit actions scenarios) hpres
    have hcell : cellGet t1 trip.1 trip.2.1 = none := by
      rw [hchar, cellGet_init, if_neg hbad]
      cases hl : lastTrip? pre trip.1 trip.2.1 with
      | some u => exact absurd (lastTrip?_declared hpre hl) hbad
      | none => simp [Option.or]
    rw [cellGet] at hcell
    have hstep : buTableStep t1 trip = .error (.MissingOutcome trip.1 trip.2.1) := by
      rw [buTableStep]
      cases hg : smapGet? t1 trip.1 with
      | none => rfl
      | some am =>
        rw [hg, Option.some_bind] at hcell
        simp only [smapHas, hcell, Option.isSome_none, Bool.false_eq_true, if_false]
    rw [build_utility_table, List.foldlM_append, hfold]
    show List.foldlM buTableStep t1 (trip :: post)
        = Except.error (DecisionError.MissingOutcome trip.1 trip.2.1)
    rw [List.foldlM_cons, hstep]
    rfl

/-- Witness for the amended C2 theorem at a concrete input: one action,
one scenario, two triples for the same cell; the table holds the value of
the last triple, and appending an undeclared triple is a
`MissingOutcome` error. -/
theorem c2_witness :
    (∃ t, build_utility_table [{ id := "a", label := "A" }]
        [{ id := "s", probability := none, adversarial := false }]
        [("a", "s", F64.fin 1), ("a", "s", F64.fin 2)] = .ok t ∧
      ∀ x y, cellGet t x y =
        if x ∈ ["a"] ∧ y ∈ ["s"] then
          some (match lastTrip? [("a", "s", F64.fin 1), ("a", "s", F64.fin 2)] x y with
            | some u => float_normalize u
            | none => F64.fin 0)
        else none) ∧
    build_utility_table [{ id := "a", label := "A" }]
        [{ id := "s", probability := none, adversarial := false }]
        [("a", "s", F64.fin 1), ("b", "s", F64.fin 2)]
      = .error (.MissingOutcome "b" "s") := by
  constructor
  · exact c2_utility_table_semantics.1 [{ id := "a", label := "A" }]
      [{ id := "s", probability := none, adversarial := false }]
      [("a", "s", F64.fin 1), ("a", "s", F64.fin 2)] (by decide)
  · exact c2_utility_table_semantics.2 [{ id := "a", label := "A" }]
      [{ id := "s", probability := none, adversarial := false }]
      [("a", "s", F64.fin 1)] [] ("b", "s", F64.fin 2) (by decide) (by decide)

end DecisionEngine

/-! ## Claim C6: zero states must be a validation error -/

namespace EngineCore

/-- A classical input with one action and zero states (claim C6).  The
single declared action has an (empty) outcome row. -/
def c6Input : ClassicalInput :=
  { actions := ["a"], states := [], outcomes := [("a", [])],
    algorithm := some "maximin", weights := none, strict := false,
    temperature := none, optimism := none, confidence := none,
    iterations := none, epsilon := none }

/-- A decision-engine input with one action and zero scenarios. -/
def c6DecInput : DecisionEngine.DecisionInput :=
  { id := none,
    actions := [{ id := "a", label := "A" }],
    scenarios := [], outcomes := [],
    constraints := none, evidence := none, meta := none }

/-- Claim C6, refuted as a code bug.  `ClassicalInput::validate` checks
only for an empty action list, so an input with one action and zero
states passes validation; the maximin route then calls
`.min().unwrap()` on the empty per-action utility iterator and panics —
for every choice of the exp oracle, since the maximin route never calls
it.  The minimax-regret (default) route on the same shape silently
succeeds instead of failing.  Only the decision-engine entry point
rejects the shape with its dedicated `NoScenarios` error, which is the
behaviour the claim (and the `validate` doc comment guarding the
unwraps) prescribes for every entry point. -/
theorem c6_zero_states_panics :
    ClassicalInput.validate c6Input = .ok () ∧
    (∀ expF : F64 → F64, evaluate_classical expF c6Input = .panicked) ∧
    (match minimax_regret c6Input with
      | .ok o => some (o.recommended_action, o.ranking)
      | _ => none) = some ("a", ["a"]) ∧
    DecisionEngine.evaluate_decision c6DecInput = .error .NoScenarios := by
  refine ⟨by rfl, fun expF => rfl, by decide, by rfl⟩

end EngineCore

/-! ## Claim C9: the Brown–Robinson rounds -/

namespace EngineCore

end EngineCore

namespace EngineCore

end EngineCore

theorem getD_map_eq {α β : Type _} (f : α → β) (l : List α) (k : ℕ) (hk : k < l.length)
    (d : α) (d2 : β) : (l.map f).getD k d2 = f (l.getD k d) := by
  rw [List.getD_eq_getElem _ d2 (by simpa using hk), List.getD_eq_getElem _ d hk]
  exact List.getElem_map f

namespace EngineCore

end EngineCore

namespace EngineCore

end EngineCore

/-! ## Claim C10: scenario probabilities never influence evaluation -/

namespace DecisionEngine

/-- Scenario lists related pointwise on `id` and `adversarial` (so they
differ at most in the `probability` fields) have equal id projections. -/
theorem forall2_map_id : ∀ {l1 l2 : List Scenario},
    List.Forall₂ (fun s t => s.id = t.id ∧ s.adversarial = t.adversarial) l1 l2 →
    l2.map Scenario.id = l1.map Scenario.id := by
  intro l1 l2 hf
  induction hf with
  | nil => rfl
  | cons hrel htail ih =>
    rw [List.map_cons, List.map_cons, ih, hrel.1]

/-- Such lists also have equal adversarial-scenario id lists. -/
theorem forall2_adv_ids : ∀ {l1 l2 : List Scenario},
    List.Forall₂ (fun s t => s.id = t.id ∧ s.adversarial = t.adversarial) l1 l2 →
    (l2.filter (fun s => s.adversarial)).map (fun s => s.id)
      = (l1.filter (fun s => s.adversarial)).map (fun s => s.id) := by
  intro l1 l2 hf
  induction hf with
  | nil => rfl
  | @cons a b l1t l2t hrel htail ih =>
    simp only [List.filter_cons]
    rw [← hrel.2]
    by_cases hb : a.adversarial = true
    · rw [if_pos hb, if_pos hb, List.map_cons, List.map_cons, ih, hrel.1]
    · rw [if_neg hb, if_neg hb]
      exact ih

/-- And equal emptiness. -/
theorem forall2_isEmpty : ∀ {l1 l2 : List Scenario},
    List.Forall₂ (fun s t => s.id = t.id ∧ s.adversarial = t.adversarial) l1 l2 →
    l2.isEmpty = l1.isEmpty := by
  intro l1 l2 hf
  cases hf with
  | nil => rfl
  | cons hrel htail => rfl

theorem buTableRow_congr {s1 s2 : List Scenario}
    (hid : s1.map Scenario.id = s2.map Scenario.id) : buTableRow s1 = buTableRow s2 := by
  have h1 : buTableRow s1
      = (s1.map Scenario.id).foldl (fun m i => smapIns i (F64.fin 0) m) [] :=
    (List.foldl_map Scenario.id (fun m i => smapIns i (F64.fin 0) m) s1 []).symm
  have h2 : buTableRow s2
      = (s2.map Scenario.id).foldl (fun m i => smapIns i (F64.fin 0) m) [] :=
    (List.foldl_map Scenario.id (fun m i => smapIns i (F64.fin 0) m) s2 []).symm
  rw [h1, h2, hid]

theorem build_utility_table_congr (actions : List ActionOption)
    (outcomes : List (String × String × F64)) {s1 s2 : List Scenario}
    (hid : s1.map Scenario.id = s2.map Scenario.id) :
    build_utility_table actions s1 outcomes = build_utility_table actions s2 outcomes := by
  simp only [build_utility_table, buTableInit]
  rw [buTableRow_congr hid]

theorem compute_regret_table_congr (ut : SMap (SMap F64)) {s1 s2 : List Scenario}
    (hid : s1.map Scenario.id = s2.map Scenario.id) :
    compute_regret_table ut s1 = compute_regret_table ut s2 := by
  have h1 : (s1.foldl (fun m s =>
      smapIns s.id (float_normalize
        (((ut.map Prod.snd).filterMap (fun sm => smapGet? sm s.id)).foldl
          F64.fmax64 (F64.inf false))) m) [])
      = ((s1.map Scenario.id).foldl (fun m i =>
          smapIns i (float_normalize
            (((ut.map Prod.snd).filterMap (fun sm => smapGet? sm i)).foldl
              F64.fmax64 (F64.inf false))) m) []) :=
    (List.foldl_map Scenario.id (fun m i =>
      smapIns i (float_normalize
        (((ut.map Prod.snd).filterMap (fun sm => smapGet? sm i)).foldl
          F64.fmax64 (F64.inf false))) m) s1 []).symm
  have h2 : (s2.foldl (fun m s =>
      smapIns s.id (float_normalize
        (((ut.map Prod.snd).filterMap (fun sm => smapGet? sm s.id)).foldl
          F64.fmax64 (F64.inf false))) m) [])
      = ((s2.map Scenario.id).foldl (fun m i =>
          smapIns i (float_normalize
            (((ut.map Prod.snd).filterMap (fun sm => smapGet? sm i)).foldl
              F64.fmax64 (F64.inf false))) m) []) :=
    (List.foldl_map Scenario.id (fun m i =>
      smapIns i (float_normalize
        (((ut.map Prod.snd).filterMap (fun sm => smapGet? sm i)).foldl
          F64.fmax64 (F64.inf false))) m) s2 []).symm
  simp only [compute_regret_table]
  rw [h1, h2, hid]

theorem compute_adversarial_congr (ut : SMap (SMap F64)) {s1 s2 : List Scenario}
    (hadv : (s1.filter (fun s => s.adversarial)).map (fun s => s.id)
      = (s2.filter (fun s => s.adversarial)).map (fun s => s.id)) :
    compute_adversarial_worst_case ut s1 = compute_adversarial_worst_case ut s2 := by
  simp only [compute_adversarial_worst_case]
  rw [hadv]

/-- One pre-rank entry of the `evaluate_decision` ranking: the three raw
scores and the normalized composite for an action, from the three tables
and their ranges. -/
def rankedEntry (worst_case_table max_regret_table adversarial_table : SMap F64)
    (wcMin wcMax mrMin mrMax advMin advMax : F64) (action : ActionOption) : RankedAction :=
  let aid := action.id
  let swc := smapGetD worst_case_table aid (F64.fin 0)
  let smr := smapGetD max_regret_table aid (F64.fin 0)
  let sadv := smapGetD adversarial_table aid (F64.fin 0)
  let nwc := normalize_to_range swc wcMin wcMax
  let nmr := F64.fsub (F64.fin 1) (normalize_to_range smr mrMin mrMax)
  let nadv := normalize_to_range sadv advMin advMax
  let comp := float_normalize
    (F64.fadd (F64.fadd (F64.fmul CompositeWeights.default.worst_case nwc)
      (F64.fmul CompositeWeights.default.minimax_regret nmr))
      (F64.fmul CompositeWeights.default.adversarial nadv))
  { action_id := aid, score_worst_case := swc, score_minimax_regret := smr,
    score_adversarial := sadv, composite_score := comp,
    recommended := false, rank := 0 : RankedAction }

/-- The post-table part of `evaluate_decision`: the ranked actions and
the trace, with the two scenario-dependent tables (regret, adversarial)
passed in.  `evaluate_decision` is definitionally this core plus the
fingerprint (see `evaluate_decision_evalCore`). -/
def evalCore (actions : List ActionOption) (utility_table regret_table : SMap (SMap F64))
    (adversarial_table : SMap F64) : List RankedAction × DecisionTrace :=
  let worst_case_table := compute_worst_case utility_table
  let max_regret_table := compute_max_regret regret_table
  let wcVals := worst_case_table.map Prod.snd
  let wcMin := wcVals.foldl F64.fmin64 (F64.inf true)
  let wcMax := wcVals.foldl F64.fmax64 (F64.inf false)
  let mrVals := max_regret_table.map Prod.snd
  let mrMin := mrVals.foldl F64.fmin64 (F64.inf true)
  let mrMax := mrVals.foldl F64.fmax64 (F64.inf false)
  let advVals := adversarial_table.map Prod.snd
  let advMin := advVals.foldl F64.fmin64 (F64.inf true)
  let advMax := advVals.foldl F64.fmax64 (F64.inf false)
  let ranked0 := actions.map (rankedEntry worst_case_table max_regret_table adversarial_table
    wcMin wcMax mrMin mrMax advMin advMax)
  let ranked := assignRanks (sortCmp rankedCmp ranked0)
  (ranked,
   { utility_table := utility_table,
     worst_case_table := worst_case_table,
     regret_table := regret_table,
     max_regret_table := max_regret_table,
     adversarial_table := adversarial_table,
     composite_weights := CompositeWeights.default,
     tie_break_rule := "lexicographic_by_action_id" })

theorem evaluate_decision_evalCore (input : DecisionInput) :
    evaluate_decision input =
      (if input.actions.isEmpty then .error .NoActions
       else if input.scenarios.isEmpty then .error .NoScenarios
       else match build_utility_table input.actions input.scenarios input.outcomes with
        | .error e => .error e
        | .ok ut =>
          .ok { ranked_actions := (evalCore input.actions ut
                  (compute_regret_table ut input.scenarios)
                  (compute_adversarial_worst_case ut input.scenarios)).1,
                determinism_fingerprint := compute_fingerprint input,
                trace := (evalCore input.actions ut
                  (compute_regret_table ut input.scenarios)
                  (compute_adversarial_worst_case ut input.scenarios)).2 }) := rfl

/-- Claim C10, confirmed.  Scenario `probability` fields are never read
by the evaluation pipeline: for any two inputs with equal actions, equal
outcomes and scenario lists that agree pointwise on `id` and
`adversarial` (so they differ at most in the probabilities), the two
evaluations agree on the ranked actions and the whole trace — on both
the success and the error side; only the fingerprint may differ. -/
theorem c10_probability_independence :
    ∀ (x y : DecisionInput),
    y.actions = x.actions → y.outcomes = x.outcomes →
    List.Forall₂ (fun s t => s.id = t.id ∧ s.adversarial = t.adversarial)
      x.scenarios y.scenarios →
    (evaluate_decision y).map (fun o => (o.ranked_actions, o.trace))
      = (evaluate_decision x).map (fun o => (o.ranked_actions, o.trace)) := by
  intro x y hA hO h
  have hid : y.scenarios.map Scenario.id = x.scenarios.map Scenario.id := forall2_map_id h
  have hadv : (y.scenarios.filter (fun s => s.adversarial)).map (fun s => s.id)
      = (x.scenarios.filter (fun s => s.adversarial)).map (fun s => s.id) :=
    forall2_adv_ids h
  have hempty : y.scenarios.isEmpty = x.scenarios.isEmpty := forall2_isEmpty h
  have hbuild : build_utility_table x.actions y.scenarios x.outcomes
      = build_utility_table x.actions x.scenarios x.outcomes :=
    build_utility_table_congr x.actions x.outcomes hid
  have hreg : ∀ ut, compute_regret_table ut y.scenarios = compute_regret_table ut x.scenarios :=
    fun ut => compute_regret_table_congr ut hid
  have hadvT : ∀ ut, compute_adversarial_worst_case ut y.scenarios
      = compute_adversarial_worst_case ut x.scenarios :=
    fun ut => compute_adversarial_congr ut hadv
  rw [evaluate_decision_evalCore x, evaluate_decision_evalCore y]
  simp only [hA, hO, hempty, hbuild, hreg, hadvT]
  by_cases hAe : x.actions.isEmpty = true
  · rw [if_pos hAe, if_pos hAe]
  · rw [if_neg hAe, if_neg hAe]
    by_cases hSe : x.scenarios.isEmpty = true
    · rw [if_pos hSe, if_pos hSe]
    · rw [if_neg hSe, if_neg hSe]
      cases hT : build_utility_table x.actions x.scenarios x.outcomes with
      | error e => rfl
      | ok ut =>
        show (Except.ok ((evalCore x.actions ut (compute_regret_table ut x.scenarios)
                (compute_adversarial_worst_case ut x.scenarios)).1,
              (evalCore x.actions ut (compute_regret_table ut x.scenarios)
                (compute_adversarial_worst_case ut x.scenarios)).2)
            : Except DecisionError (List RankedAction × DecisionTrace))
          = Except.ok ((evalCore x.actions ut (compute_regret_table ut x.scenarios)
                (compute_adversarial_worst_case ut x.scenarios)).1,
              (evalCore x.actions ut (compute_regret_table ut x.scenarios)
                (compute_adversarial_worst_case ut x.scenarios)).2)
        rfl

/-- A one-action, one-scenario input whose scenario carries a
probability (claim C10 witness). -/
def c10Input : DecisionInput :=
  { id := none,
    actions := [{ id := "a", label := "A" }],
    scenarios := [{ id := "s", probability := some (F64.fin 1), adversarial := false }],
    outcomes := [("a", "s", F64.fin 2)],
    constraints := none, evidence := none, meta := none }

/-- The same input with the probability dropped. -/
def c10InputB : DecisionInput :=
  { id := none,
    actions := [{ id := "a", label := "A" }],
    scenarios := [{ id := "s", probability := none, adversarial := false }],
    outcomes := [("a", "s", F64.fin 2)],
    constraints := none, evidence := none, meta := none }

/-- Witness for the C10 theorem at a concrete input pair differing only
in one scenario probability. -/
theorem c10_witness :
    (evaluate_decision c10InputB).map (fun o => (o.ranked_actions, o.trace))
      = (evaluate_decision c10Input).map (fun o => (o.ranked_actions, o.trace)) :=
  c10_probability_independence c10Input c10InputB rfl rfl
    (List.Forall₂.cons ⟨rfl, rfl⟩ List.Forall₂.nil)

end DecisionEngine

/-! ## Claim C1: determinism and the fingerprint -/

namespace DecisionEngine

/-- A one-cell input with utility exactly `0` (claim C1 witness). -/
def c1InputA : DecisionInput :=
  { id := none,
    actions := [{ id := "a", label := "A" }],
    scenarios := [{ id := "s", probability := none, adversarial := false }],
    outcomes := [("a", "s", F64.fin 0)],
    constraints := none, evidence := none, meta := none }

/-- The same input with utility `1e-10`, a different float that
normalizes to `0`: the canonical byte forms coincide. -/
def c1InputB : DecisionInput :=
  { id := none,
    actions := [{ id := "a", label := "A" }],
    scenarios := [{ id := "s", probability := none, adversarial := false }],
    outcomes := [("a", "s", flit 1 10000000000)],
    constraints := none, evidence := none, meta := none }

/-- Claim C1, confirmed.  Evaluation is a pure function, so two runs on
the same input agree byte for byte; the fingerprint attached to every
successful output is exactly the hex-lowercased SHA-256 of the canonical
byte form of the input; and the fingerprint is a function of the
canonical byte form only. -/
theorem c1_determinism_fingerprint :
    (∀ x : DecisionInput, evaluate_decision x = evaluate_decision x) ∧
    (∀ x : DecisionInput,
      (evaluate_decision x).map DecisionOutput.determinism_fingerprint
        = (evaluate_decision x).map
            (fun _ => stable_hash (canonicalBytes (serDecisionInput x)))) ∧
    (∀ x y : DecisionInput,
      canonicalBytes (serDecisionInput x) = canonicalBytes (serDecisionInput y) →
      compute_fingerprint x = compute_fingerprint y) := by
  refine ⟨fun x => rfl, ?_, ?_⟩
  · intro x
    rw [evaluate_decision_evalCore x]
    by_cases hAe : x.actions.isEmpty = true
    · rw [if_pos hAe]
      rfl
    · rw [if_neg hAe]
      by_cases hSe : x.scenarios.isEmpty = true
      · rw [if_pos hSe]
        rfl
      · rw [if_neg hSe]
        cases hT : build_utility_table x.actions x.scenarios x.outcomes with
        | error e => rfl
        | ok ut => rfl
  · intro x y hcb
    exact congrArg stable_hash hcb

/-- Witness for the C1 theorem: two genuinely different inputs (utility
`0` versus `1e-10`) with equal canonical byte forms, hence equal
fingerprints. -/
theorem c1_witness :
    canonicalBytes (serDecisionInput c1InputB) = canonicalBytes (serDecisionInput c1InputA) ∧
    compute_fingerprint c1InputB = compute_fingerprint c1InputA :=
  ⟨by decide, c1_determinism_fingerprint.2.2 c1InputB c1InputA (by decide)⟩

end DecisionEngine

/-! ## Claim C4: tie-breaks are byte-wise ascending on action id -/

theorem roundF64pos_not_nan (neg : Bool) (q : ℚ) : (roundF64pos neg q).isNaN = false := by
  simp only [roundF64pos]
  split
  · rfl
  · split <;> (try split) <;> rfl

theorem roundF64q_not_nan (q : ℚ) : (roundF64q q).isNaN = false := by
  simp only [roundF64q]
  split
  · exact roundF64pos_not_nan _ _
  · split
    · exact roundF64pos_not_nan _ _
    · rfl

theorem fdiv_fin_not_nan (a b : ℚ) (hb : ¬ b = 0) :
    (F64.fdiv (F64.fin a) (F64.fin b)).isNaN = false := by
  show (if b = 0 then (if a = 0 then F64.nan else F64.inf (decide (0 < a)))
    else roundF64q (qdivE a b)).isNaN = false
  rw [if_neg hb]
  exact roundF64q_not_nan _

theorem fround_not_nan (v : F64) (h : v.isNaN = false) : (F64.fround v).isNaN = false := by
  match v with
  | .nan => exact absurd h (by decide)
  | .inf b => rfl
  | .fin q => rfl

theorem fmul_fin_not_nan (v : F64) (h : v.isNaN = false) (b : ℚ) (hb : ¬ b = 0) :
    (F64.fmul v (F64.fin b)).isNaN = false := by
  match v with
  | .nan => exact absurd h (by decide)
  | .inf s =>
    show (if b = 0 then F64.nan else F64.inf (s = decide (0 < b))).isNaN = false
    rw [if_neg hb]
    rfl
  | .fin a => exact roundF64q_not_nan _

/-- `float_normalize` never returns NaN: NaN maps to `0`, infinities to
the finite extremes, and the rounding pipeline divides and multiplies by
the nonzero finite constant `1e-9`. -/
theorem float_normalize_not_nan (v : F64) : (float_normalize v).isNaN = false := by
  match v with
  | .nan => rfl
  | .inf b => cases b <;> rfl
  | .fin q =>
    show (F64.fmul (F64.fround (F64.fdiv (F64.fin q) FLOAT_PRECISION)) FLOAT_PRECISION).isNaN
      = false
    cases hPc : FLOAT_PRECISION with
    | nan => exact absurd hPc (by decide)
    | inf s =>
      have h2 : FLOAT_PRECISION.isInfB = true := by rw [hPc]; rfl
      exact absurd h2 (by decide)
    | fin p =>
      have hp : ¬ p = 0 := by
        intro h0
        rw [h0] at hPc
        exact absurd hPc (by decide)
      exact fmul_fin_not_nan _ (fround_not_nan _ (fdiv_fin_not_nan q p hp)) p hp

namespace DecisionEngine

theorem assignRanks_length (l : List RankedAction) : (assignRanks l).length = l.length := by
  simp [assignRanks]

theorem assignRanks_getD (l : List RankedAction) (k : ℕ) (hk : k < l.length)
    (d d2 : RankedAction) :
    ((assignRanks l).getD k d).action_id = (l.getD k d2).action_id ∧
    ((assignRanks l).getD k d).composite_score = (l.getD k d2).composite_score := by
  have hk2 : k < (assignRanks l).length := by rw [assignRanks_length]; exact hk
  rw [List.getD_eq_getElem _ d hk2, List.getD_eq_getElem _ d2 hk]
  have h1 : (assignRanks l)[k] = { l[k] with rank := k + 1, recommended := decide (k = 0) } := by
    simp [assignRanks]
  rw [h1]
  exact ⟨rfl, rfl⟩

/-- The `RankedAction` used as a lookup default in the C4 statement. -/
def defaultRankedAction : RankedAction :=
  { action_id := "", score_worst_case := F64.fin 0, score_minimax_regret := F64.fin 0,
    score_adversarial := F64.fin 0, composite_score := F64.fin 0,
    recommended := false, rank := 0 }

theorem rankedEntry_comp_not_nan (wct mrt advt : SMap F64) (a b c d e f : F64)
    (act : ActionOption) :
    (rankedEntry wct mrt advt a b c d e f act).composite_score.isNaN = false :=
  float_normalize_not_nan _

end DecisionEngine

namespace DecisionEngine

/-- Tie-break property of the `evaluate_decision` sort: on a NaN-free
pre-rank list the comparator is the lawful order descending composite
then ascending id, so equal composite scores at two sorted positions put
the byte-wise smaller id first. -/
theorem assignRanks_tiebreak (l0 : List RankedAction)
    (hnan : ∀ r ∈ l0, r.composite_score.isNaN = false) (i j : ℕ) (hij : i < j)
    (hj : j < (assignRanks (sortCmp rankedCmp l0)).length)
    (hcomp : ((assignRanks (sortCmp rankedCmp l0)).getD i defaultRankedAction).composite_score
      = ((assignRanks (sortCmp rankedCmp l0)).getD j defaultRankedAction).composite_score) :
    strCmp ((assignRanks (sortCmp rankedCmp l0)).getD i defaultRankedAction).action_id
      ((assignRanks (sortCmp rankedCmp l0)).getD j defaultRankedAction).action_id ≠ .gt := by
  have hj0 : j < (sortCmp rankedCmp l0).length := by
    rw [assignRanks_length] at hj
    exact hj
  have hi0 : i < (sortCmp rankedCmp l0).length := by omega
  obtain ⟨hidI, hcompI⟩ :=
    assignRanks_getD (sortCmp rankedCmp l0) i hi0 defaultRankedAction defaultRankedAction
  obtain ⟨hidJ, hcompJ⟩ :=
    assignRanks_getD (sortCmp rankedCmp l0) j hj0 defaultRankedAction defaultRankedAction
  rw [hidI, hidJ]
  rw [hcompI, hcompJ] at hcomp
  have hagree : ∀ a ∈ l0, ∀ b ∈ l0, rankedCmp a b
      = thenCmp (fun a b : RankedAction => F64.ocmp b.composite_score a.composite_score)
          (fun a b : RankedAction => strCmp a.action_id b.action_id) a b := by
    intro a ha b hb
    rw [rankedCmp, pcmp_eq_ocmp (hnan b hb) (hnan a ha)]
    rfl
  have hcongr : sortCmp rankedCmp l0
      = sortCmp (thenCmp (fun a b : RankedAction => F64.ocmp b.composite_score a.composite_score)
          (fun a b : RankedAction => strCmp a.action_id b.action_id)) l0 :=
    sortCmp_congr l0 hagree
  rw [hcongr] at hcomp hi0 hj0 ⊢
  rw [List.getD_eq_getElem _ _ hi0, List.getD_eq_getElem _ _ hj0] at hcomp ⊢
  have L : LawfulCmp (thenCmp
      (fun a b : RankedAction => F64.ocmp b.composite_score a.composite_score)
      (fun a b : RankedAction => strCmp a.action_id b.action_id)) :=
    thenCmp_lawful
      (lawful_reverse (lawful_comap (fun r : RankedAction => r.composite_score) lawful_ocmp))
      (lawful_comap (fun r : RankedAction => r.action_id) lawful_strCmp)
  have hs := sortCmp_sorted_getElem L l0 hij hj0
  have hs2 : (F64.ocmp
      ((sortCmp (thenCmp (fun a b : RankedAction => F64.ocmp b.composite_score a.composite_score)
        (fun a b : RankedAction => strCmp a.action_id b.action_id)) l0)[j]).composite_score
      ((sortCmp (thenCmp (fun a b : RankedAction => F64.ocmp b.composite_score a.composite_score)
        (fun a b : RankedAction => strCmp a.action_id b.action_id)) l0)[i]).composite_score).then
      (strCmp
      ((sortCmp (thenCmp (fun a b : RankedAction => F64.ocmp b.composite_score a.composite_score)
        (fun a b : RankedAction => strCmp a.action_id b.action_id)) l0)[i]).action_id
      ((sortCmp (thenCmp (fun a b : RankedAction => F64.ocmp b.composite_score a.composite_score)
        (fun a b : RankedAction => strCmp a.action_id b.action_id)) l0)[j]).action_id) ≠ .gt := hs
  rw [hcomp, lawful_ocmp.refl_eq] at hs2
  exact hs2

end DecisionEngine

namespace DecisionEngine

/-- Two actions declared in descending id order whose utilities tie
(claim C4 witness). -/
def c4Input : DecisionInput :=
  { id := none,
    actions := [{ id := "b", label := "B" }, { id := "a", label := "A" }],
    scenarios := [{ id := "s", probability := none, adversarial := false }],
    outcomes := [("a", "s", F64.fin 1), ("b", "s", F64.fin 1)],
    constraints := none, evidence := none, meta := none }

/-- The successful output of `evaluate_decision` on `c4Input` (a dummy
output in the unreachable error arm). -/
def c4Out : DecisionOutput :=
  match evaluate_decision c4Input with
  | .ok o => o
  | .error _ =>
    { ranked_actions := [],
      determinism_fingerprint := "",
      trace :=
        { utility_table := [],
          worst_case_table := [],
          regret_table := [],
          max_regret_table := [],
          adversarial_table := [],
          composite_weights := CompositeWeights.default,
          tie_break_rule := "" } }

/-- Claim C4, confirmed.  Tie-break correctness: in `rank_desc` and
`rank_asc` (engine-core) and in the ranking of `evaluate_decision`
(decision-engine), whenever two positions of the final ranking carry
equal scores under the chosen criterion, the earlier position's action
id is byte-wise at most the later one's: ties are broken ascending on
action id, and the stable sort gives no other ordering source.  For
`evaluate_decision`, composite scores come out of `float_normalize` and
are never NaN, so the `partial_cmp ... unwrap_or(Equal)` comparator is
the lawful descending-score, ascending-id order. -/
theorem c4_tie_break :
    (∀ (actions : List String) (scores : SMap F64) (i j : ℕ),
      i < j → j < (EngineCore.rank_desc actions scores).length →
      smapGetD scores ((EngineCore.rank_desc actions scores).getD i "") (F64.fin 0)
        = smapGetD scores ((EngineCore.rank_desc actions scores).getD j "") (F64.fin 0) →
      strCmp ((EngineCore.rank_desc actions scores).getD i "")
        ((EngineCore.rank_desc actions scores).getD j "") ≠ .gt) ∧
    (∀ (actions : List String) (scores : SMap F64) (i j : ℕ),
      i < j → j < (EngineCore.rank_asc actions scores).length →
      smapGetD scores ((EngineCore.rank_asc actions scores).getD i "") (F64.fin 0)
        = smapGetD scores ((EngineCore.rank_asc actions scores).getD j "") (F64.fin 0) →
      strCmp ((EngineCore.rank_asc actions scores).getD i "")
        ((EngineCore.rank_asc actions scores).getD j "") ≠ .gt) ∧
    (∀ (x : DecisionInput) (o : DecisionOutput), evaluate_decision x = .ok o →
      ∀ (i j : ℕ), i < j → j < o.ranked_actions.length →
      (o.ranked_actions.getD i defaultRankedAction).composite_score
        = (o.ranked_actions.getD j defaultRankedAction).composite_score →
      strCmp (o.ranked_actions.getD i defaultRankedAction).action_id
        (o.ranked_actions.getD j defaultRankedAction).action_id ≠ .gt) := by
  refine ⟨?_, ?_, ?_⟩
  · intro actions scores i j hij hj hscore
    rw [EngineCore.rank_desc] at hj hscore ⊢
    have hi : i < (sortCmp (EngineCore.rankDescCmp scores) actions).length := by omega
    rw [List.getD_eq_getElem _ _ hi, List.getD_eq_getElem _ _ hj] at hscore ⊢
    have L1 : LawfulCmp (EngineCore.rankDescCmp scores) :=
      thenCmp_lawful
        (lawful_reverse (lawful_comap (fun s : String => smapGetD scores s (F64.fin 0))
          lawful_ocmp))
        lawful_strCmp
    have hs := sortCmp_sorted_getElem L1 actions hij hj
    have hs2 : (F64.ocmp
        (smapGetD scores ((sortCmp (EngineCore.rankDescCmp scores) actions)[j]) (F64.fin 0))
        (smapGetD scores ((sortCmp (EngineCore.rankDescCmp scores) actions)[i])
          (F64.fin 0))).then
        (strCmp ((sortCmp (EngineCore.rankDescCmp scores) actions)[i])
          ((sortCmp (EngineCore.rankDescCmp scores) actions)[j])) ≠ .gt := hs
    rw [hscore, lawful_ocmp.refl_eq] at hs2
    exact hs2
  · intro actions scores i j hij hj hscore
    rw [EngineCore.rank_asc] at hj hscore ⊢
    have hi : i < (sortCmp (EngineCore.rankAscCmp scores) actions).length := by omega
    rw [List.getD_eq_getElem _ _ hi, List.getD_eq_getElem _ _ hj] at hscore ⊢
    have L1 : LawfulCmp (EngineCore.rankAscCmp scores) :=
      thenCmp_lawful
        (lawful_comap (fun s : String => smapGetD scores s (F64.fin 0)) lawful_ocmp)
        lawful_strCmp
    have hs := sortCmp_sorted_getElem L1 actions hij hj
    have hs2 : (F64.ocmp
        (smapGetD scores ((sortCmp (EngineCore.rankAscCmp scores) actions)[i]) (F64.fin 0))
        (smapGetD scores ((sortCmp (EngineCore.rankAscCmp scores) actions)[j])
          (F64.fin 0))).then
        (strCmp ((sortCmp (EngineCore.rankAscCmp scores) actions)[i])
          ((sortCmp (EngineCore.rankAscCmp scores) actions)[j])) ≠ .gt := hs
    rw [hscore, lawful_ocmp.refl_eq] at hs2
    exact hs2
  · intro x o hok i j hij hj hcomp
    rw [evaluate_decision_evalCore x] at hok
    by_cases hAe : x.actions.isEmpty = true
    · rw [if_pos hAe] at hok
      exact absurd hok (by simp)
    · rw [if_neg hAe] at hok
      by_cases hSe : x.scenarios.isEmpty = true
      · rw [if_pos hSe] at hok
        exact absurd hok (by simp)
      · rw [if_neg hSe] at hok
        cases hT : build_utility_table x.actions x.scenarios x.outcomes with
        | error e =>
          rw [hT] at hok
          exact absurd hok (by simp)
        | ok ut =>
          rw [hT] at hok
          have hok2 : (Except.ok
              { ranked_actions :=
                  (evalCore x.actions ut
                    (compute_regret_table ut x.scenarios)
                    (compute_adversarial_worst_case ut x.scenarios)).1,
                determinism_fingerprint := compute_fingerprint x,
                trace :=
                  (evalCore x.actions ut
                    (compute_regret_table ut x.scenarios)
                    (compute_adversarial_worst_case ut x.scenarios)).2 }
              : Except DecisionError DecisionOutput) = Except.ok o := hok
          injection hok2 with ho
          have hra : o.ranked_actions = assignRanks (sortCmp rankedCmp (x.actions.map
              (rankedEntry (compute_worst_case ut)
                (compute_max_regret (compute_regret_table ut x.scenarios))
                (compute_adversarial_worst_case ut x.scenarios)
                (((compute_worst_case ut).map Prod.snd).foldl F64.fmin64 (F64.inf true))
                (((compute_worst_case ut).map Prod.snd).foldl F64.fmax64 (F64.inf false))
                (((compute_max_regret (compute_regret_table ut x.scenarios)).map
                  Prod.snd).foldl F64.fmin64 (F64.inf true))
                (((compute_max_regret (compute_regret_table ut x.scenarios)).map
                  Prod.snd).foldl F64.fmax64 (F64.inf false))
                (((compute_adversarial_worst_case ut x.scenarios).map Prod.snd).foldl
                  F64.fmin64 (F64.inf true))
                (((compute_adversarial_worst_case ut x.scenarios).map Prod.snd).foldl
                  F64.fmax64 (F64.inf false))))) := by
            rw [← ho]
            rfl
          rw [hra] at hj hcomp ⊢
          refine assignRanks_tiebreak _ ?_ i j hij hj hcomp
          intro r hr
          obtain ⟨a, _, rfl⟩ := List.mem_map.mp hr
          exact rankedEntry_comp_not_nan _ _ _ _ _ _ _ _ _ _

/-- Witness for C4: `rank_desc` on a two-way tie, `rank_asc` on the same
tie, and the `evaluate_decision` ranking of a tied two-action input
declared in descending id order — the smaller id "a" comes first. -/
theorem c4_witness :
    (strCmp ((EngineCore.rank_desc ["b", "a"] [("a", F64.fin 1), ("b", F64.fin 1)]).getD 0 "")
      ((EngineCore.rank_desc ["b", "a"] [("a", F64.fin 1), ("b", F64.fin 1)]).getD 1 "")
      ≠ .gt) ∧
    (strCmp ((EngineCore.rank_asc ["b", "a"] [("a", F64.fin 1), ("b", F64.fin 1)]).getD 0 "")
      ((EngineCore.rank_asc ["b", "a"] [("a", F64.fin 1), ("b", F64.fin 1)]).getD 1 "")
      ≠ .gt) ∧
    (strCmp ((c4Out.ranked_actions.getD 0 defaultRankedAction).action_id)
      ((c4Out.ranked_actions.getD 1 defaultRankedAction).action_id) ≠ .gt) ∧
    (c4Out.ranked_actions.getD 0 defaultRankedAction).action_id = "a" ∧
    (c4Out.ranked_actions.getD 1 defaultRankedAction).action_id = "b" :=
  ⟨c4_tie_break.1 ["b", "a"] [("a", F64.fin 1), ("b", F64.fin 1)] 0 1 (by decide) (by decide)
      (by decide),
   c4_tie_break.2.1 ["b", "a"] [("a", F64.fin 1), ("b", F64.fin 1)] 0 1 (by decide) (by decide)
      (by decide),
   c4_tie_break.2.2 c4Input c4Out rfl 0 1 (by decide) (by decide) (by decide),
   by decide, by decide⟩

end DecisionEngine

/-! ## Claim C3: the recommendation is rank 1 of the ranking -/

theorem ocmp_antisymm {a b : F64} (h1 : F64.ocmp a b ≠ .gt) (h2 : F64.ocmp b a ≠ .gt) :
    a = b := by
  cases hc : F64.ocmp a b with
  | gt => exact absurd hc h1
  | eq => exact ocmp_eq_iff.mp hc
  | lt => exact absurd ((lawful_ocmp.gt_iff b a).mpr hc) h2

theorem strCmp_antisymm {a b : String} (h1 : strCmp a b ≠ .gt) (h2 : strCmp b a ≠ .gt) :
    a = b := by
  cases hc : strCmp a b with
  | gt => exact absurd hc h1
  | eq => exact strCmp_eq_iff.mp hc
  | lt => exact absurd ((lawful_strCmp.gt_iff b a).mpr hc) h2

theorem foldlMin_bound : ∀ (xs : List F64) (acc : F64),
    F64.ocmp (xs.foldl (fun acc y => if F64.ocmp acc y = .gt then y else acc) acc) acc ≠ .gt ∧
    ∀ y ∈ xs, F64.ocmp (xs.foldl (fun acc y => if F64.ocmp acc y = .gt then y else acc) acc) y
      ≠ .gt := by
  intro xs
  induction xs with
  | nil =>
    intro acc
    refine ⟨?_, by simp⟩
    rw [List.foldl_nil, lawful_ocmp.refl_eq]
    simp
  | cons y ys ih =>
    intro acc
    rw [List.foldl_cons]
    have hstep1 : F64.ocmp (if F64.ocmp acc y = .gt then y else acc) acc ≠ .gt := by
      by_cases hc : F64.ocmp acc y = .gt
      · rw [if_pos hc, (lawful_ocmp.gt_iff acc y).mp hc]
        simp
      · rw [if_neg hc, lawful_ocmp.refl_eq]
        simp
    have hstep2 : F64.ocmp (if F64.ocmp acc y = .gt then y else acc) y ≠ .gt := by
      by_cases hc : F64.ocmp acc y = .gt
      · rw [if_pos hc, lawful_ocmp.refl_eq]
        simp
      · rw [if_neg hc]
        exact hc
    obtain ⟨ih1, ih2⟩ := ih (if F64.ocmp acc y = .gt then y else acc)
    refine ⟨lawful_ocmp.le_trans ih1 hstep1, ?_⟩
    intro z hz
    rcases List.mem_cons.mp hz with rfl | hz2
    · exact lawful_ocmp.le_trans ih1 hstep2
    · exact ih2 z hz2

theorem foldlMax_bound : ∀ (xs : List F64) (acc : F64),
    F64.ocmp acc (xs.foldl (fun acc y => if F64.ocmp acc y = .gt then acc else y) acc) ≠ .gt ∧
    ∀ y ∈ xs, F64.ocmp y (xs.foldl (fun acc y => if F64.ocmp acc y = .gt then acc else y) acc)
      ≠ .gt := by
  intro xs
  induction xs with
  | nil =>
    intro acc
    refine ⟨?_, by simp⟩
    rw [List.foldl_nil, lawful_ocmp.refl_eq]
    simp
  | cons y ys ih =>
    intro acc
    rw [List.foldl_cons]
    have hstep1 : F64.ocmp acc (if F64.ocmp acc y = .gt then acc else y) ≠ .gt := by
      by_cases hc : F64.ocmp acc y = .gt
      · rw [if_pos hc, lawful_ocmp.refl_eq]
        simp
      · rw [if_neg hc]
        exact hc
    have hstep2 : F64.ocmp y (if F64.ocmp acc y = .gt then acc else y) ≠ .gt := by
      by_cases hc : F64.ocmp acc y = .gt
      · rw [if_pos hc, (lawful_ocmp.gt_iff acc y).mp hc]
        simp
      · rw [if_neg hc, lawful_ocmp.refl_eq]
        simp
    obtain ⟨ih1, ih2⟩ := ih (if F64.ocmp acc y = .gt then acc else y)
    refine ⟨lawful_ocmp.le_trans hstep1 ih1, ?_⟩
    intro z hz
    rcases List.mem_cons.mp hz with rfl | hz2
    · exact lawful_ocmp.le_trans hstep2 ih1
    · exact ih2 z hz2

namespace EngineCore

theorem listMinO_le {l : List F64} {v : F64} (h : listMinO l = some v) :
    ∀ y ∈ l, F64.ocmp v y ≠ .gt := by
  match l with
  | [] => exact absurd h (by simp [listMinO])
  | x :: xs =>
    have h2 : some (xs.foldl (fun acc y => if F64.ocmp acc y = .gt then y else acc) x)
        = some v := h
    injection h2 with h3
    intro y hy
    obtain ⟨b1, b2⟩ := foldlMin_bound xs x
    rcases List.mem_cons.mp hy with rfl | hy2
    · rw [← h3]
      exact b1
    · rw [← h3]
      exact b2 y hy2

theorem listMaxO_ge {l : List F64} {v : F64} (h : listMaxO l = some v) :
    ∀ y ∈ l, F64.ocmp y v ≠ .gt := by
  match l with
  | [] => exact absurd h (by simp [listMaxO])
  | x :: xs =>
    have h2 : some (xs.foldl (fun acc y => if F64.ocmp acc y = .gt then acc else y) x)
        = some v := h
    injection h2 with h3
    intro y hy
    obtain ⟨b1, b2⟩ := foldlMax_bound xs x
    rcases List.mem_cons.mp hy with rfl | hy2
    · rw [← h3]
      exact b1
    · rw [← h3]
      exact b2 y hy2

/-- The per-action minimum value inserted by `minPerActionA`. -/
def rowMinVal (input : ClassicalInput) (a : String) : F64 :=
  (listMinO (input.states.map (fun s => util input a s))).getD (F64.fin 0)

/-- The per-state maximum value inserted by `maxPerStateA`. -/
def colMaxVal (input : ClassicalInput) (s : String) : F64 :=
  (listMaxO (input.actions.map (fun a => util input a s))).getD (F64.fin 0)

theorem minPerActionA_ok_get (input : ClassicalInput) :
    ∀ (l : List String) (acc m : SMap F64), minPerActionA input acc l = .ok m →
    ∀ k, smapGet? m k = if k ∈ l then some (rowMinVal input k) else smapGet? acc k := by
  intro l
  induction l with
  | nil =>
    intro acc m h k
    have h2 : (CResult.ok acc : CResult (SMap F64)) = .ok m := h
    injection h2 with h3
    rw [← h3]
    simp
  | cons a rest ih =>
    intro acc m h k
    rw [minPerActionA] at h
    cases hm : listMinO (input.states.map (fun s => util input a s)) with
    | none =>
      rw [hm] at h
      exact absurd h (by simp)
    | some v =>
      rw [hm] at h
      have h4 := ih (smapIns a v acc) m h k
      by_cases hk : k ∈ rest
      · rw [h4, if_pos hk, if_pos (by simp [hk])]
      · rw [h4, if_neg hk]
        by_cases hka : k = a
        · rw [if_pos (by simp [hka]), hka, smapGet?_ins_self]
          rw [rowMinVal, hm]
          rfl
        · rw [if_neg (by simp [hka, hk]), smapGet?_ins_ne hka]

theorem maxPerStateA_ok_get (input : ClassicalInput) :
    ∀ (l : List String) (acc m : SMap F64), maxPerStateA input acc l = .ok m →
    ∀ k, smapGet? m k = if k ∈ l then some (colMaxVal input k) else smapGet? acc k := by
  intro l
  induction l with
  | nil =>
    intro acc m h k
    have h2 : (CResult.ok acc : CResult (SMap F64)) = .ok m := h
    injection h2 with h3
    rw [← h3]
    simp
  | cons s rest ih =>
    intro acc m h k
    rw [maxPerStateA] at h
    cases hm : listMaxO (input.actions.map (fun a => util input a s)) with
    | none =>
      rw [hm] at h
      exact absurd h (by simp)
    | some v =>
      rw [hm] at h
      have h4 := ih (smapIns s v acc) m h k
      by_cases hk : k ∈ rest
      · rw [h4, if_pos hk, if_pos (by simp [hk])]
      · rw [h4, if_neg hk]
        by_cases hks : k = s
        · rw [if_pos (by simp [hks]), hks, smapGet?_ins_self]
          rw [colMaxVal, hm]
          rfl
        · rw [if_neg (by simp [hks, hk]), smapGet?_ins_ne hks]

end EngineCore

namespace EngineCore

/-- The common final step of the classical algorithms: the output is
built from `ranked.head?`, so the recommendation is the head of the
ranking. -/
theorem route_rec_of_head (ranked : List String) (tr : ClassicalTrace) {o : ClassicalOutput}
    (h : (match ranked.head? with
      | none => (CResult.err .NoActions : CResult ClassicalOutput)
      | some r => CResult.ok { recommended_action := r, ranking := ranked, trace := tr })
      = .ok o) :
    o.recommended_action = o.ranking.headD "" ∧ o.ranking ≠ [] := by
  match ranked, h with
  | [], h => exact CResult.noConfusion h
  | a :: t, h =>
    have h2 : (CResult.ok { recommended_action := a, ranking := a :: t, trace := tr }
        : CResult ClassicalOutput) = .ok o := h
    injection h2 with ho
    rw [← ho]
    exact ⟨rfl, by simp⟩

/-- The `pareto` variant: the recommendation is the head of the frontier,
which is also the head of the frontier-first ranking. -/
theorem route_rec_of_head2 (front rest2 : List String) (tr : ClassicalTrace)
    {o : ClassicalOutput}
    (h : (match front.head? with
      | none => (CResult.err .NoActions : CResult ClassicalOutput)
      | some r => CResult.ok { recommended_action := r, ranking := front ++ rest2, trace := tr })
      = .ok o) :
    o.recommended_action = o.ranking.headD "" ∧ o.ranking ≠ [] := by
  match front, h with
  | [], h => exact CResult.noConfusion h
  | a :: t, h =>
    have h2 : (CResult.ok { recommended_action := a, ranking := (a :: t) ++ rest2, trace := tr }
        : CResult ClassicalOutput) = .ok o := h
    injection h2 with ho
    rw [← ho]
    exact ⟨rfl, by simp⟩

theorem minimax_regret_rec {input : ClassicalInput} {o : ClassicalOutput}
    (h : minimax_regret input = .ok o) :
    o.recommended_action = o.ranking.headD "" ∧ o.ranking ≠ [] := by
  simp only [minimax_regret] at h
  split at h
  · exact CResult.noConfusion h
  · split at h
    · exact CResult.noConfusion h
    · exact CResult.noConfusion h
    · exact route_rec_of_head _ _ h

theorem maximin_rec {input : ClassicalInput} {o : ClassicalOutput}
    (h : maximin input = .ok o) :
    o.recommended_action = o.ranking.headD "" ∧ o.ranking ≠ [] := by
  simp only [maximin] at h
  split at h
  · exact CResult.noConfusion h
  · split at h
    · exact CResult.noConfusion h
    · exact CResult.noConfusion h
    · exact route_rec_of_head _ _ h

theorem weighted_sum_rec {input : ClassicalInput} {o : ClassicalOutput}
    (h : weighted_sum input = .ok o) :
    o.recommended_action = o.ranking.headD "" ∧ o.ranking ≠ [] := by
  simp only [weighted_sum] at h
  split at h
  · exact CResult.noConfusion h
  · split at h
    · exact CResult.noConfusion h
    · exact route_rec_of_head _ _ h

theorem softmax_rec {expF : F64 → F64} {input : ClassicalInput} {o : ClassicalOutput}
    (h : softmax expF input = .ok o) :
    o.recommended_action = o.ranking.headD "" ∧ o.ranking ≠ [] := by
  simp only [softmax] at h
  split at h
  · exact CResult.noConfusion h
  · split at h
    · exact CResult.noConfusion h
    · split at h
      · exact CResult.noConfusion h
      · exact route_rec_of_head _ _ h

theorem hurwicz_rec {input : ClassicalInput} {o : ClassicalOutput}
    (h : hurwicz input = .ok o) :
    o.recommended_action = o.ranking.headD "" ∧ o.ranking ≠ [] := by
  simp only [hurwicz] at h
  split at h
  · exact CResult.noConfusion h
  · split at h
    · exact CResult.noConfusion h
    · exact route_rec_of_head _ _ h

theorem laplace_rec {input : ClassicalInput} {o : ClassicalOutput}
    (h : laplace input = .ok o) :
    o.recommended_action = o.ranking.headD "" ∧ o.ranking ≠ [] := by
  simp only [laplace] at h
  split at h
  · exact CResult.noConfusion h
  · split at h
    · exact CResult.noConfusion h
    · exact route_rec_of_head _ _ h

theorem starr_rec {input : ClassicalInput} {o : ClassicalOutput}
    (h : starr input = .ok o) :
    o.recommended_action = o.ranking.headD "" ∧ o.ranking ≠ [] := by
  simp only [starr] at h
  split at h
  · exact CResult.noConfusion h
  · split at h
    · exact CResult.noConfusion h
    · split at h
      · exact CResult.noConfusion h
      · exact CResult.noConfusion h
      · exact route_rec_of_head _ _ h

theorem hodges_lehmann_rec {input : ClassicalInput} {o : ClassicalOutput}
    (h : hodges_lehmann input = .ok o) :
    o.recommended_action = o.ranking.headD "" ∧ o.ranking ≠ [] := by
  simp only [hodges_lehmann] at h
  split at h
  · exact CResult.noConfusion h
  · split at h
    · exact CResult.noConfusion h
    · split at h
      · exact CResult.noConfusion h
      · exact route_rec_of_head _ _ h

theorem brown_robinson_rec {input : ClassicalInput} {o : ClassicalOutput}
    (h : brown_robinson input = .ok o) :
    o.recommended_action = o.ranking.headD "" ∧ o.ranking ≠ [] := by
  simp only [brown_robinson] at h
  split at h
  · exact CResult.noConfusion h
  · split at h
    · exact CResult.noConfusion h
    · exact route_rec_of_head _ _ h

theorem epsilon_contamination_rec {input : ClassicalInput} {o : ClassicalOutput}
    (h : epsilon_contamination input = .ok o) :
    o.recommended_action = o.ranking.headD "" ∧ o.ranking ≠ [] := by
  simp only [epsilon_contamination] at h
  split at h
  · exact CResult.noConfusion h
  · split at h
    · exact CResult.noConfusion h
    · split at h
      · exact CResult.noConfusion h
      · exact route_rec_of_head _ _ h

theorem pareto_rec {input : ClassicalInput} {o : ClassicalOutput}
    (h : pareto input = .ok o) :
    o.recommended_action = o.ranking.headD "" ∧ o.ranking ≠ [] := by
  simp only [pareto] at h
  split at h
  · exact CResult.noConfusion h
  · exact route_rec_of_head2 _ _ _ h

end EngineCore

namespace EngineCore

theorem listMinO_none {l : List F64} (h : listMinO l = none) : l = [] := by
  match l with
  | [] => rfl
  | x :: xs => exact absurd h (by simp [listMinO])

theorem listMaxO_none {l : List F64} (h : listMaxO l = none) : l = [] := by
  match l with
  | [] => rfl
  | x :: xs => exact absurd h (by simp [listMaxO])

theorem row_mins_getD {input : ClassicalInput} {row_mins : SMap F64}
    (hrm : minPerActionA input [] input.actions = .ok row_mins)
    {a : String} (ha : a ∈ input.actions) :
    smapGetD row_mins a (F64.fin 0) = rowMinVal input a := by
  rw [smapGetD, minPerActionA_ok_get input input.actions [] row_mins hrm a, if_pos ha]
  rfl

theorem col_maxs_getD {input : ClassicalInput} {col_maxs : SMap F64}
    (hcm : maxPerStateA input [] input.states = .ok col_maxs)
    {s : String} (hs : s ∈ input.states) :
    smapGetD col_maxs s (F64.fin 0) = colMaxVal input s := by
  rw [smapGetD, maxPerStateA_ok_get input input.states [] col_maxs hcm s, if_pos hs]
  rfl

theorem rowMinVal_le {input : ClassicalInput} {a s : String} (hs : s ∈ input.states) :
    F64.ocmp (rowMinVal input a) (util input a s) ≠ .gt := by
  rw [rowMinVal]
  cases hLM : listMinO (input.states.map (fun q => util input a q)) with
  | none =>
    have hmem : util input a s ∈ input.states.map (fun q => util input a q) :=
      List.mem_map_of_mem _ hs
    rw [listMinO_none hLM] at hmem
    simp at hmem
  | some v =>
    exact listMinO_le hLM (util input a s) (List.mem_map_of_mem _ hs)

theorem colMaxVal_ge {input : ClassicalInput} {a s : String} (ha : a ∈ input.actions) :
    F64.ocmp (util input a s) (colMaxVal input s) ≠ .gt := by
  rw [colMaxVal]
  cases hLM : listMaxO (input.actions.map (fun b => util input b s)) with
  | none =>
    have hmem : util input a s ∈ input.actions.map (fun b => util input b s) :=
      List.mem_map_of_mem _ ha
    rw [listMaxO_none hLM] at hmem
    simp at hmem
  | some v =>
    exact listMaxO_ge hLM (util input a s) (List.mem_map_of_mem _ ha)

theorem mem_equilibria0 (input : ClassicalInput) (row_mins col_maxs : SMap F64)
    (p : String × String) :
    p ∈ (input.actions.map (fun a => input.states.filterMap (fun s =>
        if util input a s = smapGetD row_mins a (F64.fin 0) ∧
            util input a s = smapGetD col_maxs s (F64.fin 0) then some (a, s) else none))).flatten
    ↔ p.1 ∈ input.actions ∧ p.2 ∈ input.states ∧
      util input p.1 p.2 = smapGetD row_mins p.1 (F64.fin 0) ∧
      util input p.1 p.2 = smapGetD col_maxs p.2 (F64.fin 0) := by
  obtain ⟨a0, s0⟩ := p
  constructor
  · intro hp
    rw [List.mem_flatten] at hp
    obtain ⟨l, hl, hpl⟩ := hp
    rw [List.mem_map] at hl
    obtain ⟨a, ha, rfl⟩ := hl
    rw [List.mem_filterMap] at hpl
    obtain ⟨s, hs, hfs⟩ := hpl
    by_cases hc : util input a s = smapGetD row_mins a (F64.fin 0) ∧
        util input a s = smapGetD col_maxs s (F64.fin 0)
    · rw [if_pos hc] at hfs
      injection hfs with hfs2
      injection hfs2 with hA hS
      subst hA
      subst hS
      exact ⟨ha, hs, hc.1, hc.2⟩
    · rw [if_neg hc] at hfs
      exact absurd hfs (by simp)
  · rintro ⟨ha, hs, h1, h2⟩
    rw [List.mem_flatten]
    refine ⟨_, List.mem_map.mpr ⟨a0, ha, rfl⟩, ?_⟩
    rw [List.mem_filterMap]
    exact ⟨s0, hs, by rw [if_pos ⟨h1, h2⟩]⟩

/-- `maximin` on a validated input with known row minima: the output
ranking is `rank_desc` of the row minima and the recommendation is its
head. -/
theorem maximin_ok_shape2 {input : ClassicalInput} {row_mins : SMap F64}
    {base : ClassicalOutput}
    (hv : input.validate = .ok ()) (hrm : minPerActionA input [] input.actions = .ok row_mins)
    (h : maximin input = .ok base) :
    ∃ t, rank_desc input.actions row_mins = base.recommended_action :: t ∧
      base.ranking = rank_desc input.actions row_mins := by
  simp only [maximin, hv, hrm] at h
  cases hrd : rank_desc input.actions row_mins with
  | nil =>
    rw [hrd] at h
    exact CResult.noConfusion h
  | cons a t =>
    rw [hrd] at h
    have h2 : (CResult.ok
        { recommended_action := a,
          ranking := a :: t,
          trace := { empty_trace "maximin" with min_utility := some row_mins } }
        : CResult ClassicalOutput) = .ok base := h
    injection h2 with hb
    rw [← hb]
    exact ⟨t, rfl, rfl⟩

end EngineCore

namespace EngineCore

/-- `nash`: the saddle-point override never moves the recommendation away
from the head of the ranking, by saddle-point interchangeability: the
head of the maximin ranking always forms a saddle pair with the state of
any saddle pair, and the lexicographically first saddle pair therefore
carries exactly the head action. -/
theorem nash_rec {input : ClassicalInput} {o : ClassicalOutput}
    (h : nash input = .ok o) :
    o.recommended_action = o.ranking.headD "" ∧ o.ranking ≠ [] := by
  simp only [nash] at h
  split at h
  · exact CResult.noConfusion h
  · rename_i u hv
    split at h
    · exact CResult.noConfusion h
    · exact CResult.noConfusion h
    · rename_i row_mins hrm
      split at h
      · exact CResult.noConfusion h
      · exact CResult.noConfusion h
      · rename_i col_maxs hcm
        split at h
        · exact CResult.noConfusion h
        · exact CResult.noConfusion h
        · rename_i base hbase
          injection h with ho
          obtain ⟨t0, hhead, hrank⟩ := maximin_ok_shape2 hv hrm hbase
          have hrec : o.recommended_action
              = (match (sortCmp pairCmp ((input.actions.map (fun a =>
                  input.states.filterMap (fun s =>
                    if util input a s = smapGetD row_mins a (F64.fin 0) ∧
                        util input a s = smapGetD col_maxs s (F64.fin 0) then some (a, s)
                    else none))).flatten)).head? with
                | some e => e.1
                | none => base.recommended_action) := by
            rw [← ho]
          have hrank2 : o.ranking = base.ranking := by
            rw [← ho]
          refine ⟨?_, ?_⟩
          · rw [hrec, hrank2]
            cases hE : (sortCmp pairCmp ((input.actions.map (fun a =>
                input.states.filterMap (fun s =>
                  if util input a s = smapGetD row_mins a (F64.fin 0) ∧
                      util input a s = smapGetD col_maxs s (F64.fin 0) then some (a, s)
                  else none))).flatten)).head? with
            | none =>
              show base.recommended_action = base.ranking.headD ""
              rw [hrank, hhead]
              rfl
            | some e =>
              show e.1 = base.ranking.headD ""
              rw [hrank, hhead]
              show e.1 = base.recommended_action
              -- head of the sorted equilibria
              obtain ⟨rest1, hsE⟩ : ∃ rest1, sortCmp pairCmp ((input.actions.map (fun a =>
                  input.states.filterMap (fun s =>
                    if util input a s = smapGetD row_mins a (F64.fin 0) ∧
                        util input a s = smapGetD col_maxs s (F64.fin 0) then some (a, s)
                    else none))).flatten) = e :: rest1 := by
                cases hsE0 : sortCmp pairCmp ((input.actions.map (fun a =>
                    input.states.filterMap (fun s =>
                      if util input a s = smapGetD row_mins a (F64.fin 0) ∧
                          util input a s = smapGetD col_maxs s (F64.fin 0) then some (a, s)
                      else none))).flatten) with
                | nil =>
                  rw [hsE0] at hE
                  exact absurd hE (by simp)
                | cons p rest1 =>
                  rw [hsE0] at hE
                  have hE2 : some p = some e := hE
                  injection hE2 with hpe
                  exact ⟨rest1, by rw [hpe]⟩
              have Lp : LawfulCmp pairCmp :=
                thenCmp_lawful
                  (lawful_comap (fun p : String × String => p.1) lawful_strCmp)
                  (lawful_comap (fun p : String × String => p.2) lawful_strCmp)
              have he_mem := (mem_equilibria0 input row_mins col_maxs e).mp
                (sortCmp_head_mem hsE)
              obtain ⟨hea, hes, hu1, hu2⟩ := he_mem
              have heq_le := sortCmp_head_le Lp hsE
              -- facts about the maximin head r1
              have LRD : LawfulCmp (rankDescCmp row_mins) :=
                thenCmp_lawful
                  (lawful_reverse (lawful_comap
                    (fun s : String => smapGetD row_mins s (F64.fin 0)) lawful_ocmp))
                  lawful_strCmp
              have hr1mem : base.recommended_action ∈ input.actions :=
                sortCmp_head_mem (show sortCmp (rankDescCmp row_mins) input.actions
                  = base.recommended_action :: t0 from hhead)
              have hr1le := sortCmp_head_le LRD (show sortCmp (rankDescCmp row_mins)
                input.actions = base.recommended_action :: t0 from hhead)
              -- abbreviations
              have hMe : smapGetD row_mins e.1 (F64.fin 0) = rowMinVal input e.1 :=
                row_mins_getD hrm hea
              have hMr : smapGetD row_mins base.recommended_action (F64.fin 0)
                  = rowMinVal input base.recommended_action :=
                row_mins_getD hrm hr1mem
              have hCs : smapGetD col_maxs e.2 (F64.fin 0) = colMaxVal input e.2 :=
                col_maxs_getD hcm hes
              -- the squeeze: M r1 ≤ u(r1, s0) ≤ C s0 = u(e) = M e1 ≤ M r1
              have c1 : F64.ocmp (rowMinVal input base.recommended_action)
                  (util input base.recommended_action e.2) ≠ .gt := rowMinVal_le hes
              have c2 : F64.ocmp (util input base.recommended_action e.2)
                  (colMaxVal input e.2) ≠ .gt := colMaxVal_ge hr1mem
              have c5pre := hr1le e.1 hea
              have c5 : F64.ocmp (rowMinVal input e.1)
                  (rowMinVal input base.recommended_action) ≠ .gt := by
                intro hgt
                apply c5pre
                show (F64.ocmp (smapGetD row_mins e.1 (F64.fin 0))
                    (smapGetD row_mins base.recommended_action (F64.fin 0))).then
                  (strCmp base.recommended_action e.1) = .gt
                rw [hMe, hMr, hgt]
                rfl
              have hCu : colMaxVal input e.2 = rowMinVal input e.1 := by
                rw [← hCs, ← hu2, hu1, hMe]
              -- u(r1, s0) ≤ M r1, hence equal
              have c6 : F64.ocmp (util input base.recommended_action e.2)
                  (rowMinVal input base.recommended_action) ≠ .gt := by
                have := lawful_ocmp.le_trans c2 (by rw [hCu]; exact c5)
                exact this
              have hMru : rowMinVal input base.recommended_action
                  = util input base.recommended_action e.2 := ocmp_antisymm c1 c6
              have hCu2 : util input base.recommended_action e.2 = colMaxVal input e.2 := by
                refine ocmp_antisymm c2 ?_
                rw [hCu, ← hMru]
                exact c5
              -- (r1, e.2) is a saddle pair
              have hr1pair : (base.recommended_action, e.2) ∈ ((input.actions.map (fun a =>
                  input.states.filterMap (fun s =>
                    if util input a s = smapGetD row_mins a (F64.fin 0) ∧
                        util input a s = smapGetD col_maxs s (F64.fin 0) then some (a, s)
                    else none))).flatten) := by
                refine (mem_equilibria0 input row_mins col_maxs _).mpr ?_
                refine ⟨hr1mem, hes, ?_, ?_⟩
                · rw [hMr, ← hMru]
                · rw [hCs]
                  exact hCu2
              -- lex-minimality gives e.1 ≤ r1
              have h5 : strCmp e.1 base.recommended_action ≠ .gt := by
                intro hgt
                apply heq_le _ hr1pair
                show (strCmp e.1 base.recommended_action).then (strCmp e.2 e.2) = .gt
                rw [hgt]
                rfl
              -- the rank tie-break gives r1 ≤ e.1 (their row minima are equal)
              have hMeq : rowMinVal input e.1 = rowMinVal input base.recommended_action := by
                rw [← hCu, ← hCu2, ← hMru]
              have h6 : strCmp base.recommended_action e.1 ≠ .gt := by
                have hthen := hr1le e.1 hea
                intro hgt
                apply hthen
                show (F64.ocmp (smapGetD row_mins e.1 (F64.fin 0))
                    (smapGetD row_mins base.recommended_action (F64.fin 0))).then
                  (strCmp base.recommended_action e.1) = .gt
                rw [hMe, hMr, hMeq, lawful_ocmp.refl_eq, hgt]
                rfl
              exact strCmp_antisymm h5 h6
          · rw [hrank2, hrank, hhead]
            simp

end EngineCore

namespace DecisionEngine

theorem assignRanks_getD_rank (l : List RankedAction) (k : ℕ) (hk : k < l.length)
    (d : RankedAction) :
    ((assignRanks l).getD k d).rank = k + 1 ∧
    ((assignRanks l).getD k d).recommended = decide (k = 0) := by
  have hk2 : k < (assignRanks l).length := by rw [assignRanks_length]; exact hk
  rw [List.getD_eq_getElem _ d hk2]
  have h1 : (assignRanks l)[k] = { l[k] with rank := k + 1, recommended := decide (k = 0) } := by
    simp [assignRanks]
  rw [h1]
  exact ⟨rfl, rfl⟩

end DecisionEngine

namespace EngineCore

/-- A one-action, one-state maximin input (claim C3 witness). -/
def c3ClassIn : ClassicalInput :=
  { actions := ["a"], states := ["s"], outcomes := [("a", [("s", F64.fin 1)])],
    algorithm := some "maximin", weights := none, strict := false,
    temperature := none, optimism := none, confidence := none,
    iterations := none, epsilon := none }

/-- The successful classical output on `c3ClassIn` (dummy in the
unreachable arms). -/
def c3ClassOut : ClassicalOutput :=
  match evaluate_classical (fun v => v) c3ClassIn with
  | .ok o => o
  | _ => { recommended_action := "", ranking := [], trace := empty_trace "" }

/-- The route dispatch of `evaluate_classical`: every branch recommends
the head of its ranking. -/
theorem routed_rec {expF : F64 → F64} {input : ClassicalInput} {o2 : ClassicalOutput}
    (h : (if input.algorithm = some "maximin" ∨ input.algorithm = some "wald" ∨
        input.algorithm = some "minimax" then maximin input
      else if input.algorithm = some "weighted_sum" then weighted_sum input
      else if input.algorithm = some "softmax" then softmax expF input
      else if input.algorithm = some "hurwicz" then hurwicz input
      else if input.algorithm = some "laplace" then laplace input
      else if input.algorithm = some "starr" then starr input
      else if input.algorithm = some "hodges_lehmann" then hodges_lehmann input
      else if input.algorithm = some "brown_robinson" then brown_robinson input
      else if input.algorithm = some "nash" then nash input
      else if input.algorithm = some "pareto" then pareto input
      else if input.algorithm = some "epsilon_contamination" then epsilon_contamination input
      else minimax_regret input) = .ok o2) :
    o2.recommended_action = o2.ranking.headD "" ∧ o2.ranking ≠ [] := by
  by_cases h1 : input.algorithm = some "maximin" ∨ input.algorithm = some "wald" ∨
      input.algorithm = some "minimax"
  · rw [if_pos h1] at h
    exact maximin_rec h
  · rw [if_neg h1] at h
    by_cases h2 : input.algorithm = some "weighted_sum"
    · rw [if_pos h2] at h
      exact weighted_sum_rec h
    · rw [if_neg h2] at h
      by_cases h3 : input.algorithm = some "softmax"
      · rw [if_pos h3] at h
        exact softmax_rec h
      · rw [if_neg h3] at h
        by_cases h4 : input.algorithm = some "hurwicz"
        · rw [if_pos h4] at h
          exact hurwicz_rec h
        · rw [if_neg h4] at h
          by_cases h5 : input.algorithm = some "laplace"
          · rw [if_pos h5] at h
            exact laplace_rec h
          · rw [if_neg h5] at h
            by_cases h6 : input.algorithm = some "starr"
            · rw [if_pos h6] at h
              exact starr_rec h
            · rw [if_neg h6] at h
              by_cases h7 : input.algorithm = some "hodges_lehmann"
              · rw [if_pos h7] at h
                exact hodges_lehmann_rec h
              · rw [if_neg h7] at h
                by_cases h8 : input.algorithm = some "brown_robinson"
                · rw [if_pos h8] at h
                  exact brown_robinson_rec h
                · rw [if_neg h8] at h
                  by_cases h9 : input.algorithm = some "nash"
                  · rw [if_pos h9] at h
                    exact nash_rec h
                  · rw [if_neg h9] at h
                    by_cases h10 : input.algorithm = some "pareto"
                    · rw [if_pos h10] at h
                      exact pareto_rec h
                    · rw [if_neg h10] at h
                      by_cases h11 : input.algorithm = some "epsilon_contamination"
                      · rw [if_pos h11] at h
                        exact epsilon_contamination_rec h
                      · rw [if_neg h11] at h
                        exact minimax_regret_rec h

set_option maxHeartbeats 1000000 in
/-- Claim C3, confirmed.  On every successful evaluation the recommended
action is exactly the first element of the returned ranking, for every
algorithm route of `evaluate_classical` (including the `nash`
saddle-point override, by interchangeability, and the `pareto`
frontier-first ranking); and in `evaluate_decision` the entry at every
position `k` of the ranked list carries rank `k + 1` with the
`recommended` flag set exactly at rank 1. -/
theorem c3_recommendation_is_rank_one :
    (∀ (expF : F64 → F64) (input : ClassicalInput) (out : ClassicalOutput),
      evaluate_classical expF input = .ok out →
      out.recommended_action = out.ranking.headD "" ∧ out.ranking ≠ []) ∧
    (∀ (x : DecisionEngine.DecisionInput) (o : DecisionEngine.DecisionOutput),
      DecisionEngine.evaluate_decision x = .ok o →
      ∀ k, k < o.ranked_actions.length →
      (o.ranked_actions.getD k DecisionEngine.defaultRankedAction).rank = k + 1 ∧
      ((o.ranked_actions.getD k DecisionEngine.defaultRankedAction).recommended
        = decide (k = 0))) := by
  refine ⟨?_, ?_⟩
  · intro expF input out h
    simp only [evaluate_classical] at h
    cases hr : (if input.algorithm = some "maximin" ∨ input.algorithm = some "wald" ∨
        input.algorithm = some "minimax" then maximin input
      else if input.algorithm = some "weighted_sum" then weighted_sum input
      else if input.algorithm = some "softmax" then softmax expF input
      else if input.algorithm = some "hurwicz" then hurwicz input
      else if input.algorithm = some "laplace" then laplace input
      else if input.algorithm = some "starr" then starr input
      else if input.algorithm = some "hodges_lehmann" then hodges_lehmann input
      else if input.algorithm = some "brown_robinson" then brown_robinson input
      else if input.algorithm = some "nash" then nash input
      else if input.algorithm = some "pareto" then pareto input
      else if input.algorithm = some "epsilon_contamination" then epsilon_contamination input
      else minimax_regret input) with
    | panicked =>
      rw [hr] at h
      exact CResult.noConfusion h
    | err e =>
      rw [hr] at h
      exact CResult.noConfusion h
    | ok o2 =>
      rw [hr] at h
      have h2 : (CResult.ok { o2 with trace := { o2.trace with
          fingerprint := some (stable_hash (canonicalBytes (serClassicalOutput o2))) } }
          : CResult ClassicalOutput) = .ok out := h
      injection h2 with ho
      rw [← ho]
      show o2.recommended_action = o2.ranking.headD "" ∧ o2.ranking ≠ []
      exact routed_rec hr
  · intro x o hok k hk
    rw [DecisionEngine.evaluate_decision_evalCore x] at hok
    by_cases hAe : x.actions.isEmpty = true
    · rw [if_pos hAe] at hok
      exact absurd hok (by simp)
    · rw [if_neg hAe] at hok
      by_cases hSe : x.scenarios.isEmpty = true
      · rw [if_pos hSe] at hok
        exact absurd hok (by simp)
      · rw [if_neg hSe] at hok
        cases hT : DecisionEngine.build_utility_table x.actions x.scenarios x.outcomes with
        | error e =>
          rw [hT] at hok
          exact absurd hok (by simp)
        | ok ut =>
          rw [hT] at hok
          have hok2 : (Except.ok
              { ranked_actions :=
                  (DecisionEngine.evalCore x.actions ut
                    (DecisionEngine.compute_regret_table ut x.scenarios)
                    (DecisionEngine.compute_adversarial_worst_case ut x.scenarios)).1,
                determinism_fingerprint := DecisionEngine.compute_fingerprint x,
                trace :=
                  (DecisionEngine.evalCore x.actions ut
                    (DecisionEngine.compute_regret_table ut x.scenarios)
                    (DecisionEngine.compute_adversarial_worst_case ut x.scenarios)).2 }
              : Except DecisionEngine.DecisionError DecisionEngine.DecisionOutput)
              = Except.ok o := hok
          injection hok2 with ho
          have hra : o.ranked_actions = DecisionEngine.assignRanks
              (sortCmp DecisionEngine.rankedCmp (x.actions.map
              (DecisionEngine.rankedEntry (DecisionEngine.compute_worst_case ut)
                (DecisionEngine.compute_max_regret
                  (DecisionEngine.compute_regret_table ut x.scenarios))
                (DecisionEngine.compute_adversarial_worst_case ut x.scenarios)
                (((DecisionEngine.compute_worst_case ut).map Prod.snd).foldl
                  F64.fmin64 (F64.inf true))
                (((DecisionEngine.compute_worst_case ut).map Prod.snd).foldl
                  F64.fmax64 (F64.inf false))
                (((DecisionEngine.compute_max_regret
                  (DecisionEngine.compute_regret_table ut x.scenarios)).map
                  Prod.snd).foldl F64.fmin64 (F64.inf true))
                (((DecisionEngine.compute_max_regret
                  (DecisionEngine.compute_regret_table ut x.scenarios)).map
                  Prod.snd).foldl F64.fmax64 (F64.inf false))
                (((DecisionEngine.compute_adversarial_worst_case ut x.scenarios).map
                  Prod.snd).foldl F64.fmin64 (F64.inf true))
                (((DecisionEngine.compute_adversarial_worst_case ut x.scenarios).map
                  Prod.snd).foldl F64.fmax64 (F64.inf false))))) := by
            rw [← ho]
            rfl
          rw [hra] at hk ⊢
          have hk2 : k < (sortCmp DecisionEngine.rankedCmp (x.actions.map
              (DecisionEngine.rankedEntry (DecisionEngine.compute_worst_case ut)
                (DecisionEngine.compute_max_regret
                  (DecisionEngine.compute_regret_table ut x.scenarios))
                (DecisionEngine.compute_adversarial_worst_case ut x.scenarios)
                (((DecisionEngine.compute_worst_case ut).map Prod.snd).foldl
                  F64.fmin64 (F64.inf true))
                (((DecisionEngine.compute_worst_case ut).map Prod.snd).foldl
                  F64.fmax64 (F64.inf false))
                (((DecisionEngine.compute_max_regret
                  (DecisionEngine.compute_regret_table ut x.scenarios)).map
                  Prod.snd).foldl F64.fmin64 (F64.inf true))
                (((DecisionEngine.compute_max_regret
                  (DecisionEngine.compute_regret_table ut x.scenarios)).map
                  Prod.snd).foldl F64.fmax64 (F64.inf false))
                (((DecisionEngine.compute_adversarial_worst_case ut x.scenarios).map
                  Prod.snd).foldl F64.fmin64 (F64.inf true))
                (((DecisionEngine.compute_adversarial_worst_case ut x.scenarios).map
                  Prod.snd).foldl F64.fmax64 (F64.inf false))))).length := by
            rw [DecisionEngine.assignRanks_length] at hk
            exact hk
          exact DecisionEngine.assignRanks_getD_rank _ k hk2 _

/-- Witness for C3: the classical maximin route on a concrete input, and
the two positions of the concrete `evaluate_decision` ranking. -/
theorem c3_witness :
    (c3ClassOut.recommended_action = c3ClassOut.ranking.headD "" ∧ c3ClassOut.ranking ≠ []) ∧
    ((DecisionEngine.c4Out.ranked_actions.getD 0 DecisionEngine.defaultRankedAction).rank
        = 0 + 1 ∧
      ((DecisionEngine.c4Out.ranked_actions.getD 0
        DecisionEngine.defaultRankedAction).recommended = decide (0 = 0))) ∧
    ((DecisionEngine.c4Out.ranked_actions.getD 1 DecisionEngine.defaultRankedAction).rank
        = 1 + 1 ∧
      ((DecisionEngine.c4Out.ranked_actions.getD 1
        DecisionEngine.defaultRankedAction).recommended = decide (1 = 0))) :=
  ⟨c3_recommendation_is_rank_one.1 (fun v => v) c3ClassIn c3ClassOut rfl,
   c3_recommendation_is_rank_one.2 DecisionEngine.c4Input DecisionEngine.c4Out rfl 0
     (by decide),
   c3_recommendation_is_rank_one.2 DecisionEngine.c4Input DecisionEngine.c4Out rfl 1
     (by decide)⟩

end EngineCore

/-! ## C8: frame round-trip and single-bit integrity -/

namespace Requiem

/-- XOR of two 32-bit values is a 32-bit value. -/
theorem xor_lt32 {a b : ℕ} (ha : a < 4294967296) (hb : b < 4294967296) :
    a ^^^ b < 4294967296 := by
  have h32 : (4294967296 : ℕ) = 2 ^ 32 := by norm_num
  rw [h32] at ha hb ⊢
  exact Nat.xor_lt_two_pow ha hb

/-- XOR cancels on the left. -/
theorem xor_left_cancel {a b c : ℕ} (h : a ^^^ b = a ^^^ c) : b = c := by
  have h2 := congrArg (fun x => a ^^^ x) h
  simpa [← Nat.xor_assoc] using h2

/-- XOR cancels on the right. -/
theorem xor_right_cancel {a b c : ℕ} (h : a ^^^ c = b ^^^ c) : a = b := by
  have h2 := congrArg (fun x => x ^^^ c) h
  simpa [Nat.xor_assoc] using h2

/-- `crcStep` keeps the register below `2^32`. -/
theorem crcStep_lt {c : ℕ} (h : c < 4294967296) : crcStep c < 4294967296 := by
  rw [crcStep]
  split
  · exact xor_lt32 (by omega) (by norm_num)
  · omega

/-- The Castagnoli polynomial has bit 31 set, so `crcStep` stores the
dropped parity bit in bit 31 of the result: it is injective on 32-bit
registers. -/
theorem crcStep_inj {c d : ℕ} (hc : c < 4294967296) (hd : d < 4294967296)
    (h : crcStep c = crcStep d) : c = d := by
  have hpoly : Nat.testBit 0x82F63B78 31 = true := by decide
  rw [crcStep, crcStep] at h
  by_cases h1 : c % 2 = 1 <;> by_cases h2 : d % 2 = 1
  · rw [if_pos h1, if_pos h2] at h
    have h3 : c / 2 = d / 2 := xor_right_cancel h
    omega
  · rw [if_pos h1, if_neg h2] at h
    have hbit : (c / 2 ^^^ 0x82F63B78).testBit 31 = true := by
      rw [Nat.testBit_xor, Nat.testBit_lt_two_pow (by omega), hpoly]
      rfl
    rw [h] at hbit
    rw [Nat.testBit_lt_two_pow (by omega)] at hbit
    exact absurd hbit (by decide)
  · rw [if_neg h1, if_pos h2] at h
    have hbit : (d / 2 ^^^ 0x82F63B78).testBit 31 = true := by
      rw [Nat.testBit_xor, Nat.testBit_lt_two_pow (by omega), hpoly]
      rfl
    rw [← h] at hbit
    rw [Nat.testBit_lt_two_pow (by omega)] at hbit
    exact absurd hbit (by decide)
  · rw [if_neg h1, if_neg h2] at h
    omega

/-- `crcStep8` keeps the register below `2^32`. -/
theorem crcStep8_lt {c : ℕ} (h : c < 4294967296) : crcStep8 c < 4294967296 :=
  crcStep_lt (crcStep_lt (crcStep_lt (crcStep_lt (crcStep_lt (crcStep_lt
    (crcStep_lt (crcStep_lt h)))))))

/-- `crcStep8` is injective on 32-bit registers. -/
theorem crcStep8_inj {c d : ℕ} (hc : c < 4294967296) (hd : d < 4294967296)
    (h : crcStep8 c = crcStep8 d) : c = d := by
  rw [crcStep8, crcStep8] at h
  have c1 := crcStep_lt hc
  have c2 := crcStep_lt c1
  have c3 := crcStep_lt c2
  have c4 := crcStep_lt c3
  have c5 := crcStep_lt c4
  have c6 := crcStep_lt c5
  have c7 := crcStep_lt c6
  have d1 := crcStep_lt hd
  have d2 := crcStep_lt d1
  have d3 := crcStep_lt d2
  have d4 := crcStep_lt d3
  have d5 := crcStep_lt d4
  have d6 := crcStep_lt d5
  have d7 := crcStep_lt d6
  exact crcStep_inj hc hd (crcStep_inj c1 d1 (crcStep_inj c2 d2 (crcStep_inj c3 d3
    (crcStep_inj c4 d4 (crcStep_inj c5 d5 (crcStep_inj c6 d6 (crcStep_inj c7 d7 h)))))))

/-- Absorbing a 32-bit byte keeps the register below `2^32`. -/
theorem crcByte_lt {c b : ℕ} (hc : c < 4294967296) (hb : b < 4294967296) :
    crcByte c b < 4294967296 :=
  crcStep8_lt (xor_lt32 hc hb)

/-- `crcByte` is injective in the absorbed byte. -/
theorem crcByte_inj_byte {c b b' : ℕ} (hc : c < 4294967296) (hb : b < 4294967296)
    (hb' : b' < 4294967296) (h : crcByte c b = crcByte c b') : b = b' :=
  xor_left_cancel (crcStep8_inj (xor_lt32 hc hb) (xor_lt32 hc hb') h)

/-- `crcByte` is injective in the register state. -/
theorem crcByte_inj_state {c c' b : ℕ} (hc : c < 4294967296) (hc' : c' < 4294967296)
    (hb : b < 4294967296) (h : crcByte c b = crcByte c' b) : c = c' :=
  xor_right_cancel (crcStep8_inj (xor_lt32 hc hb) (xor_lt32 hc' hb) h)

/-- Running the register over 32-bit bytes keeps it below `2^32`. -/
theorem crcReg_lt : ∀ (m : List ℕ) {c : ℕ}, c < 4294967296 →
    (∀ x ∈ m, x < 4294967296) → crcReg c m < 4294967296 := by
  intro m
  induction m with
  | nil => intro c hc _; exact hc
  | cons b m ih =>
    intro c hc hm
    exact ih (crcByte_lt hc (hm b (by simp))) (fun x hx => hm x (by simp [hx]))

/-- Distinct 32-bit register states stay distinct over any common
suffix of 32-bit bytes. -/
theorem crcReg_inj_state : ∀ (m : List ℕ) {c d : ℕ}, c < 4294967296 →
    d < 4294967296 → (∀ x ∈ m, x < 4294967296) → c ≠ d → crcReg c m ≠ crcReg d m := by
  intro m
  induction m with
  | nil => intro c d _ _ _ hne; exact hne
  | cons b m ih =>
    intro c d hc hd hm hne
    have hb : b < 4294967296 := hm b (by simp)
    exact ih (crcByte_lt hc hb) (crcByte_lt hd hb)
      (fun x hx => hm x (by simp [hx]))
      (fun he => hne (crcByte_inj_state hc hd hb he))

/-- CRC-32C distinguishes two messages of 32-bit bytes that differ in
exactly one byte. -/
theorem crc32c_single_byte_ne (pre : List ℕ) {b b' : ℕ} (post : List ℕ)
    (hpre : ∀ x ∈ pre, x < 4294967296) (hb : b < 4294967296) (hb' : b' < 4294967296)
    (hpost : ∀ x ∈ post, x < 4294967296) (hne : b ≠ b') :
    crc32c (pre ++ b :: post) ≠ crc32c (pre ++ b' :: post) := by
  intro h
  rw [crc32c, crc32c] at h
  have h2 : crcReg 0xFFFFFFFF (pre ++ b :: post) = crcReg 0xFFFFFFFF (pre ++ b' :: post) :=
    xor_right_cancel h
  rw [crcReg, crcReg, List.foldl_append, List.foldl_append] at h2
  have hsb : List.foldl crcByte 0xFFFFFFFF pre < 4294967296 :=
    crcReg_lt pre (by norm_num) hpre
  have hdiff : crcByte (List.foldl crcByte 0xFFFFFFFF pre) b
      ≠ crcByte (List.foldl crcByte 0xFFFFFFFF pre) b' :=
    fun he => hne (crcByte_inj_byte hsb hb hb' he)
  exact crcReg_inj_state post (crcByte_lt hsb hb) (crcByte_lt hsb hb') hpost hdiff
    (by simpa using h2)

/-- The CRC register run over 32-bit bytes is itself 32-bit. -/
theorem crc32c_lt (m : List ℕ) (hm : ∀ x ∈ m, x < 4294967296) :
    crc32c m < 4294967296 :=
  xor_lt32 (crcReg_lt m (by norm_num) hm) (by norm_num)

end Requiem

namespace Requiem

/-- `getD` at the length of a prefix reads the head of the suffix. -/
theorem getD_append_len {α : Type} (A : List α) (b : α) (B : List α) (d : α) :
    (A ++ b :: B).getD A.length d = b := by
  induction A with
  | nil => rfl
  | cons a A ih => simpa using ih

/-- `set` at the length of a prefix replaces the head of the suffix. -/
theorem set_append_len {α : Type} (A : List α) (b v : α) (B : List α) :
    (A ++ b :: B).set A.length v = A ++ v :: B := by
  induction A with
  | nil => rfl
  | cons a A ih => simpa using ih

/-- Flipping a bit whose byte index is the length of a prefix XORs the
head of the suffix with the bit mask. -/
theorem flipBit_decomp {A : List ℕ} {b : ℕ} {B : List ℕ} {i : ℕ}
    (hi : i / 8 = A.length) :
    flipBit (A ++ b :: B) i = A ++ (b ^^^ (1 <<< (i % 8))) :: B := by
  rw [flipBit, hi, getD_append_len, set_append_len]

/-- `readU32` reads the first four bytes little-endian. -/
theorem readU32_cons (a b c d : ℕ) (r : List ℕ) :
    readU32 (a :: b :: c :: d :: r) = a + 256 * b + 65536 * c + 16777216 * d := rfl

/-- `readU16` reads the first two bytes little-endian. -/
theorem readU16_cons (a b : ℕ) (r : List ℕ) :
    readU16 (a :: b :: r) = a + 256 * b := rfl

/-- `readU32` inverts `u32le` on 32-bit values. -/
theorem readU32_u32le (x : ℕ) (hx : x < 4294967296) : readU32 (u32le x) = x := by
  rw [u32le, readU32_cons]
  omega

/-- `u32le` of a little-endian digit sum gives back the digits. -/
theorem u32le_of_digits {a b c d : ℕ} (ha : a < 256) (hb : b < 256) (hc : c < 256)
    (hd : d < 256) : u32le (a + 256 * b + 65536 * c + 16777216 * d) = [a, b, c, d] := by
  rw [u32le]
  have h1 : (a + 256 * b + 65536 * c + 16777216 * d) % 256 = a := by omega
  have h2 : (a + 256 * b + 65536 * c + 16777216 * d) / 256 % 256 = b := by omega
  have h3 : (a + 256 * b + 65536 * c + 16777216 * d) / 65536 % 256 = c := by omega
  have h4 : (a + 256 * b + 65536 * c + 16777216 * d) / 16777216 % 256 = d := by omega
  rw [h1, h2, h3, h4]

/-- `u16le` of a little-endian digit sum gives back the digits. -/
theorem u16le_of_digits {a b : ℕ} (ha : a < 256) (hb : b < 256) :
    u16le (a + 256 * b) = [a, b] := by
  rw [u16le]
  have h1 : (a + 256 * b) % 256 = a := by omega
  have h2 : (a + 256 * b) / 256 % 256 = b := by omega
  rw [h1, h2]

/-- Two little-endian digit sums with a differing digit differ. -/
theorem readU32_ne_of_digit_ne {a b c d e f g h : ℕ} (ha : a < 256) (hb : b < 256)
    (hc : c < 256) (hd : d < 256) (he : e < 256) (hf : f < 256) (hg : g < 256)
    (hh : h < 256) (hne : a ≠ e ∨ b ≠ f ∨ c ≠ g ∨ d ≠ h) :
    a + 256 * b + 65536 * c + 16777216 * d ≠ e + 256 * f + 65536 * g + 16777216 * h := by
  omega

/-- The bytes of `u32le` are bytes. -/
theorem u32le_bytes_lt (x : ℕ) : ∀ b ∈ u32le x, b < 256 := by
  intro b hb
  rw [u32le] at hb
  simp only [List.mem_cons, List.not_mem_nil, or_false] at hb
  rcases hb with rfl | rfl | rfl | rfl <;> omega

end Requiem

namespace Requiem

/-- `decode` on a buffer that carries a well-formed header: the result is
the reconstructed frame, guarded only by the CRC comparison. -/
theorem decode_reads (src : List ℕ) (mt : MessageType) (P : List ℕ) (c : ℕ)
    (hlen : src.length = 28 + P.length)
    (hmagic : readU32 src = MAGIC)
    (hmt : MessageType.fromU32 (readU32 (src.drop 8)) = some mt)
    (hplen : readU32 (src.drop 20) = P.length)
    (hmax : P.length ≤ MAX_PAYLOAD_BYTES)
    (hpay : (src.drop 24).take P.length = P)
    (hcrc : readU32 (src.drop (24 + P.length)) = c)
    (hrem : src.drop (28 + P.length) = []) :
    decode src =
      if c ≠ calculate_crc
          { version_major := readU16 (src.drop 4), version_minor := readU16 (src.drop 6),
            msg_type := mt, flags := readU32 (src.drop 12),
            correlation_id := readU32 (src.drop 16), payload := P } then
        DecodeOut.fail (FrameError.CrcMismatch c (calculate_crc
          { version_major := readU16 (src.drop 4), version_minor := readU16 (src.drop 6),
            msg_type := mt, flags := readU32 (src.drop 12),
            correlation_id := readU32 (src.drop 16), payload := P }))
      else
        DecodeOut.ok
          { version_major := readU16 (src.drop 4), version_minor := readU16 (src.drop 6),
            msg_type := mt, flags := readU32 (src.drop 12),
            correlation_id := readU32 (src.drop 16), payload := P } [] := by
  have h24 : ¬ (src.length < 24) := by omega
  have hnm : ¬ (src.length < 28 + P.length) := by omega
  simp only [decode, HEADER_SIZE, FRAME_OVERHEAD, hmagic, hmt, hplen, hpay, hcrc, hrem,
    if_neg h24, if_neg hnm, if_neg (not_lt.mpr hmax),
    if_neg (show ¬ (MAGIC ≠ MAGIC) from fun hh => hh rfl)]

end Requiem

namespace Requiem

/-- `decode` on a byte-explicit framed buffer: magic and length bytes
honest, the remaining header bytes, payload and trailer arbitrary. -/
theorem decode_cons (a0 a1 b0 b1 t0 t1 t2 t3 f0 f1 f2 f3 g0 g1 g2 g3 : ℕ)
    (P C : List ℕ) (hC : C.length = 4) (mt : MessageType)
    (hmt : MessageType.fromU32 (t0 + 256 * t1 + 65536 * t2 + 16777216 * t3) = some mt)
    (hmax : P.length ≤ MAX_PAYLOAD_BYTES) :
    decode (72 :: 67 :: 69 :: 82 :: a0 :: a1 :: b0 :: b1 :: t0 :: t1 :: t2 :: t3 ::
      f0 :: f1 :: f2 :: f3 :: g0 :: g1 :: g2 :: g3 ::
      (P.length % 256) :: (P.length / 256 % 256) :: (P.length / 65536 % 256) ::
      (P.length / 16777216 % 256) :: (P ++ C))
    = if readU32 C ≠ calculate_crc
          { version_major := a0 + 256 * a1, version_minor := b0 + 256 * b1,
            msg_type := mt, flags := f0 + 256 * f1 + 65536 * f2 + 16777216 * f3,
            correlation_id := g0 + 256 * g1 + 65536 * g2 + 16777216 * g3,
            payload := P } then
        DecodeOut.fail (FrameError.CrcMismatch (readU32 C) (calculate_crc
          { version_major := a0 + 256 * a1, version_minor := b0 + 256 * b1,
            msg_type := mt, flags := f0 + 256 * f1 + 65536 * f2 + 16777216 * f3,
            correlation_id := g0 + 256 * g1 + 65536 * g2 + 16777216 * g3,
            payload := P }))
      else
        DecodeOut.ok
          { version_major := a0 + 256 * a1, version_minor := b0 + 256 * b1,
            msg_type := mt, flags := f0 + 256 * f1 + 65536 * f2 + 16777216 * f3,
            correlation_id := g0 + 256 * g1 + 65536 * g2 + 16777216 * g3,
            payload := P } [] := by
  set buf : List ℕ := (72 :: 67 :: 69 :: 82 :: a0 :: a1 :: b0 :: b1 :: t0 :: t1 :: t2 :: t3 ::
      f0 :: f1 :: f2 :: f3 :: g0 :: g1 :: g2 :: g3 ::
      (P.length % 256) :: (P.length / 256 % 256) :: (P.length / 65536 % 256) ::
      (P.length / 16777216 % 256) :: (P ++ C)) with hbuf
  have hL : P.length < 4294967296 := by
    have h0 := hmax
    simp only [MAX_PAYLOAD_BYTES] at h0
    omega
  have hlen : buf.length = 28 + P.length := by
    rw [hbuf]
    simp [hC]
    omega
  have hdrop24 : buf.drop 24 = P ++ C := rfl
  have hpay : (buf.drop 24).take P.length = P := by
    rw [hdrop24]
    exact List.take_left P C
  have hdropPL : buf.drop (24 + P.length) = C := by
    rw [← List.drop_drop, hdrop24]
    exact List.drop_left P C
  have hcrc : readU32 (buf.drop (24 + P.length)) = readU32 C := by rw [hdropPL]
  have hrem : buf.drop (28 + P.length) = [] := by
    have h1 : 28 + P.length = 24 + P.length + 4 := by omega
    rw [h1, ← List.drop_drop, hdropPL, ← hC, List.drop_length]
  have hmagic : readU32 buf = MAGIC := by
    rw [hbuf, readU32_cons]
    norm_num [MAGIC]
  have hmt2 : MessageType.fromU32 (readU32 (buf.drop 8)) = some mt := hmt
  have hplen : readU32 (buf.drop 20) = P.length := by
    have h2 : readU32 (buf.drop 20) = P.length % 256 + 256 * (P.length / 256 % 256)
        + 65536 * (P.length / 65536 % 256) + 16777216 * (P.length / 16777216 % 256) := rfl
    rw [h2]
    omega
  have e4 : readU16 (buf.drop 4) = a0 + 256 * a1 := rfl
  have e6 : readU16 (buf.drop 6) = b0 + 256 * b1 := rfl
  have e12 : readU32 (buf.drop 12) = f0 + 256 * f1 + 65536 * f2 + 16777216 * f3 := rfl
  have e16 : readU32 (buf.drop 16) = g0 + 256 * g1 + 65536 * g2 + 16777216 * g3 := rfl
  rw [decode_reads buf mt P (readU32 C) hlen hmagic hmt2 hplen hmax hpay hcrc hrem,
    e4, e6, e12, e16]

end Requiem

namespace Requiem

/-- Byte-explicit form of `crcInput`. -/
theorem crcInput_cons (vM vm : ℕ) (mt : MessageType) (fl cid : ℕ) (P : List ℕ) :
    crcInput ⟨vM, vm, mt, fl, cid, P⟩ = 72 :: 67 :: 69 :: 82 ::
      (vM % 256) :: (vM / 256 % 256) :: (vm % 256) :: (vm / 256 % 256) ::
      (mt.toU32 % 256) :: (mt.toU32 / 256 % 256) ::
      (mt.toU32 / 65536 % 256) :: (mt.toU32 / 16777216 % 256) ::
      (fl % 256) :: (fl / 256 % 256) :: (fl / 65536 % 256) :: (fl / 16777216 % 256) ::
      (cid % 256) :: (cid / 256 % 256) :: (cid / 65536 % 256) :: (cid / 16777216 % 256) ::
      (P.length % 256) :: (P.length / 256 % 256) :: (P.length / 65536 % 256) ::
      (P.length / 16777216 % 256) :: P := by
  simp [crcInput, u32le, u16le, MAGIC]

/-- Byte-explicit form of `encode`. -/
theorem encode_cons (vM vm : ℕ) (mt : MessageType) (fl cid : ℕ) (P : List ℕ) :
    encode ⟨vM, vm, mt, fl, cid, P⟩ = 72 :: 67 :: 69 :: 82 ::
      (vM % 256) :: (vM / 256 % 256) :: (vm % 256) :: (vm / 256 % 256) ::
      (mt.toU32 % 256) :: (mt.toU32 / 256 % 256) ::
      (mt.toU32 / 65536 % 256) :: (mt.toU32 / 16777216 % 256) ::
      (fl % 256) :: (fl / 256 % 256) :: (fl / 65536 % 256) :: (fl / 16777216 % 256) ::
      (cid % 256) :: (cid / 256 % 256) :: (cid / 65536 % 256) :: (cid / 16777216 % 256) ::
      (P.length % 256) :: (P.length / 256 % 256) :: (P.length / 65536 % 256) ::
      (P.length / 16777216 % 256) ::
      (P ++ u32le (calculate_crc ⟨vM, vm, mt, fl, cid, P⟩)) := by
  simp [encode, crcInput, u32le, u16le, MAGIC]

/-- Well-formedness of a frame as machine data: the version fields are
`u16`, flags and correlation id are `u32`, the payload is a byte vector
within the size bound (in the Rust source these are type invariants). -/
def wfFrame (f : Frame) : Prop :=
  f.version_major < 65536 ∧ f.version_minor < 65536 ∧ f.flags < 4294967296 ∧
  f.correlation_id < 4294967296 ∧ f.payload.length ≤ MAX_PAYLOAD_BYTES ∧
  ∀ b ∈ f.payload, b < 256

instance (f : Frame) : Decidable (wfFrame f) := by
  rw [wfFrame]
  infer_instance

/-- `MessageType.fromU32` inverts the digit form of `MessageType.toU32`. -/
theorem fromU32_toU32_digits (mt : MessageType) :
    MessageType.fromU32 (mt.toU32 % 256 + 256 * (mt.toU32 / 256 % 256)
      + 65536 * (mt.toU32 / 65536 % 256) + 16777216 * (mt.toU32 / 16777216 % 256))
      = some mt := by
  cases mt <;> decide

/-- Every byte of `crcInput` is a 32-bit value when the payload holds
bytes. -/
theorem crcInput_bytes_lt (vM vm : ℕ) (mt : MessageType) (fl cid : ℕ) (P : List ℕ)
    (h6 : ∀ b ∈ P, b < 256) :
    ∀ x ∈ crcInput ⟨vM, vm, mt, fl, cid, P⟩, x < 4294967296 := by
  intro x hx
  rw [crcInput_cons] at hx
  simp only [List.mem_cons] at hx
  rcases hx with rfl|rfl|rfl|rfl|rfl|rfl|rfl|rfl|rfl|rfl|rfl|rfl|rfl|rfl|rfl|rfl|rfl|rfl|
    rfl|rfl|rfl|rfl|rfl|rfl|hmem
  any_goals omega
  have := h6 x hmem
  omega

/-- Round-trip: `decode (encode f) = ok f` with nothing left over. -/
theorem roundtrip_aux (vM vm : ℕ) (mt : MessageType) (fl cid : ℕ) (P : List ℕ)
    (h1 : vM < 65536) (h2 : vm < 65536) (h3 : fl < 4294967296) (h4 : cid < 4294967296)
    (h5 : P.length ≤ MAX_PAYLOAD_BYTES) (h6 : ∀ b ∈ P, b < 256) :
    decode (encode ⟨vM, vm, mt, fl, cid, P⟩)
      = DecodeOut.ok ⟨vM, vm, mt, fl, cid, P⟩ [] := by
  rw [encode_cons]
  rw [decode_cons (vM % 256) (vM / 256 % 256) (vm % 256) (vm / 256 % 256)
    (mt.toU32 % 256) (mt.toU32 / 256 % 256) (mt.toU32 / 65536 % 256)
    (mt.toU32 / 16777216 % 256)
    (fl % 256) (fl / 256 % 256) (fl / 65536 % 256) (fl / 16777216 % 256)
    (cid % 256) (cid / 256 % 256) (cid / 65536 % 256) (cid / 16777216 % 256)
    P (u32le (calculate_crc ⟨vM, vm, mt, fl, cid, P⟩)) rfl mt
    (fromU32_toU32_digits mt) h5]
  have hF : (⟨vM % 256 + 256 * (vM / 256 % 256), vm % 256 + 256 * (vm / 256 % 256), mt,
      fl % 256 + 256 * (fl / 256 % 256) + 65536 * (fl / 65536 % 256)
        + 16777216 * (fl / 16777216 % 256),
      cid % 256 + 256 * (cid / 256 % 256) + 65536 * (cid / 65536 % 256)
        + 16777216 * (cid / 16777216 % 256), P⟩ : Frame)
      = (⟨vM, vm, mt, fl, cid, P⟩ : Frame) := by
    simp only [Frame.mk.injEq]
    exact ⟨by omega, by omega, trivial, by omega, by omega, trivial⟩
  rw [hF]
  have hcrcb : calculate_crc ⟨vM, vm, mt, fl, cid, P⟩ < 4294967296 :=
    crc32c_lt _ (crcInput_bytes_lt vM vm mt fl cid P h6)
  rw [readU32_u32le _ hcrcb,
    if_neg (show ¬ (calculate_crc (⟨vM, vm, mt, fl, cid, P⟩ : Frame)
      ≠ calculate_crc (⟨vM, vm, mt, fl, cid, P⟩ : Frame)) from fun hh => hh rfl)]

end Requiem

namespace Requiem

/-- XOR with a nonzero mask changes the value. -/
theorem xor_ne_self {a m : ℕ} (hm : m ≠ 0) : a ^^^ m ≠ a := by
  intro he
  exact hm (xor_left_cancel (show a ^^^ m = a ^^^ 0 from by rw [Nat.xor_zero]; exact he))

/-- XOR of two bytes is a byte. -/
theorem xor_lt8 {a b : ℕ} (ha : a < 256) (hb : b < 256) : a ^^^ b < 256 := by
  have h8 : (256 : ℕ) = 2 ^ 8 := by norm_num
  rw [h8] at ha hb ⊢
  exact Nat.xor_lt_two_pow ha hb

/-- A single-bit mask is a nonzero byte. -/
theorem mask_lt_256 (i : ℕ) : (1 <<< (i % 8)) < 256 := by
  rw [Nat.shiftLeft_eq, one_mul]
  calc (2 : ℕ) ^ (i % 8) ≤ 2 ^ 7 :=
        Nat.pow_le_pow_right (by norm_num) (by omega)
    _ < 256 := by norm_num

/-- A single-bit mask is nonzero. -/
theorem mask_ne_zero (i : ℕ) : (1 <<< (i % 8)) ≠ 0 := by
  rw [Nat.shiftLeft_eq, one_mul]
  exact (Nat.pow_pos (show 0 < 2 by norm_num)).ne'

/-- `decode` rejects a buffer whose first word is not the magic. -/
theorem decode_invalid_magic (src : List ℕ) (h24 : ¬ (src.length < 24))
    (hm : readU32 src ≠ MAGIC) :
    decode src = DecodeOut.fail (FrameError.InvalidMagic MAGIC (readU32 src)) := by
  simp only [decode, HEADER_SIZE]
  rw [if_neg h24, if_pos hm]

/-- The `MAGIC` word in little-endian digits. -/
theorem magic_digits : MAGIC = 72 + 256 * 67 + 65536 * 69 + 16777216 * 82 := by
  norm_num [MAGIC]

/-- Flipping any bit of the magic word makes `decode` fail with
`InvalidMagic`, not `CrcMismatch`. -/
theorem magic_flip_aux (vM vm : ℕ) (mt : MessageType) (fl cid : ℕ) (P : List ℕ)
    (i : ℕ) (hi : i < 32) :
    ∃ m, m ≠ MAGIC ∧ decode (flipBit (encode ⟨vM, vm, mt, fl, cid, P⟩) i)
      = DecodeOut.fail (FrameError.InvalidMagic MAGIC m) := by
  obtain ⟨T, hT, hTlen⟩ : ∃ T : List ℕ, encode (⟨vM, vm, mt, fl, cid, P⟩ : Frame)
      = 72 :: 67 :: 69 :: 82 :: T ∧ T.length = 24 + P.length := by
    refine ⟨_, encode_cons vM vm mt fl cid P, ?_⟩
    simp only [List.length_cons, List.length_append, List.length_nil, u32le]
    omega
  rw [hT]
  have hj : i / 8 = 0 ∨ i / 8 = 1 ∨ i / 8 = 2 ∨ i / 8 = 3 := by omega
  rcases hj with hj | hj | hj | hj
  · have hflip : flipBit (72 :: 67 :: 69 :: 82 :: T) i
        = (72 ^^^ (1 <<< (i % 8))) :: 67 :: 69 :: 82 :: T := by
      rw [flipBit, hj]
      rfl
    rw [hflip]
    have hne : readU32 ((72 ^^^ (1 <<< (i % 8))) :: 67 :: 69 :: 82 :: T) ≠ MAGIC := by
      rw [readU32_cons, magic_digits]
      exact readU32_ne_of_digit_ne (xor_lt8 (by omega) (mask_lt_256 i)) (by omega)
        (by omega) (by omega) (by omega) (by omega) (by omega) (by omega)
        (Or.inl (xor_ne_self (mask_ne_zero i)))
    exact ⟨_, hne, decode_invalid_magic _ (by simp only [List.length_cons]; omega) hne⟩
  · have hflip : flipBit (72 :: 67 :: 69 :: 82 :: T) i
        = 72 :: (67 ^^^ (1 <<< (i % 8))) :: 69 :: 82 :: T := by
      rw [flipBit, hj]
      rfl
    rw [hflip]
    have hne : readU32 (72 :: (67 ^^^ (1 <<< (i % 8))) :: 69 :: 82 :: T) ≠ MAGIC := by
      rw [readU32_cons, magic_digits]
      exact readU32_ne_of_digit_ne (by omega) (xor_lt8 (by omega) (mask_lt_256 i))
        (by omega) (by omega) (by omega) (by omega) (by omega) (by omega)
        (Or.inr (Or.inl (xor_ne_self (mask_ne_zero i))))
    exact ⟨_, hne, decode_invalid_magic _ (by simp only [List.length_cons]; omega) hne⟩
  · have hflip : flipBit (72 :: 67 :: 69 :: 82 :: T) i
        = 72 :: 67 :: (69 ^^^ (1 <<< (i % 8))) :: 82 :: T := by
      rw [flipBit, hj]
      rfl
    rw [hflip]
    have hne : readU32 (72 :: 67 :: (69 ^^^ (1 <<< (i % 8))) :: 82 :: T) ≠ MAGIC := by
      rw [readU32_cons, magic_digits]
      exact readU32_ne_of_digit_ne (by omega) (by omega)
        (xor_lt8 (by omega) (mask_lt_256 i)) (by omega) (by omega) (by omega)
        (by omega) (by omega)
        (Or.inr (Or.inr (Or.inl (xor_ne_self (mask_ne_zero i)))))
    exact ⟨_, hne, decode_invalid_magic _ (by simp only [List.length_cons]; omega) hne⟩
  · have hflip : flipBit (72 :: 67 :: 69 :: 82 :: T) i
        = 72 :: 67 :: 69 :: (82 ^^^ (1 <<< (i % 8))) :: T := by
      rw [flipBit, hj]
      rfl
    rw [hflip]
    have hne : readU32 (72 :: 67 :: 69 :: (82 ^^^ (1 <<< (i % 8))) :: T) ≠ MAGIC := by
      rw [readU32_cons, magic_digits]
      exact readU32_ne_of_digit_ne (by omega) (by omega) (by omega)
        (xor_lt8 (by omega) (mask_lt_256 i)) (by omega) (by omega) (by omega)
        (by omega)
        (Or.inr (Or.inr (Or.inr (xor_ne_self (mask_ne_zero i)))))
    exact ⟨_, hne, decode_invalid_magic _ (by simp only [List.length_cons]; omega) hne⟩

end Requiem

namespace Requiem

/-- Two byte lists that agree except at exactly one position. -/
def oneByteDiff (X Y : List ℕ) : Prop :=
  ∃ pre b bb post, X = pre ++ b :: post ∧ Y = pre ++ bb :: post ∧ b ≠ bb

/-- CRC-32C distinguishes 32-bit-byte messages differing at one
position. -/
theorem crc32c_ne_of_oneByteDiff {X Y : List ℕ} (hX : ∀ x ∈ X, x < 4294967296)
    (hY : ∀ x ∈ Y, x < 4294967296) (h : oneByteDiff X Y) : crc32c X ≠ crc32c Y := by
  obtain ⟨pre, b, bb, post, hXe, hYe, hne⟩ := h
  subst hXe
  subst hYe
  apply crc32c_single_byte_ne pre post
  · intro x hx
    exact hX x (by simp [hx])
  · exact hX b (by simp)
  · exact hY bb (by simp)
  · intro x hx
    exact hX x (by simp [hx])
  · exact hne

/-- Low digit of a 16-bit little-endian sum. -/
theorem digit2_lo {a b : ℕ} (ha : a < 256) (hb : b < 256) : (a + 256 * b) % 256 = a := by
  omega

/-- High digit of a 16-bit little-endian sum. -/
theorem digit2_hi {a b : ℕ} (ha : a < 256) (hb : b < 256) :
    (a + 256 * b) / 256 % 256 = b := by
  omega

/-- Digit 0 of a 32-bit little-endian sum. -/
theorem digit4_0 {a b c d : ℕ} (ha : a < 256) (hb : b < 256) (hc : c < 256)
    (hd : d < 256) : (a + 256 * b + 65536 * c + 16777216 * d) % 256 = a := by
  omega

/-- Digit 1 of a 32-bit little-endian sum. -/
theorem digit4_1 {a b c d : ℕ} (ha : a < 256) (hb : b < 256) (hc : c < 256)
    (hd : d < 256) : (a + 256 * b + 65536 * c + 16777216 * d) / 256 % 256 = b := by
  omega

/-- Digit 2 of a 32-bit little-endian sum. -/
theorem digit4_2 {a b c d : ℕ} (ha : a < 256) (hb : b < 256) (hc : c < 256)
    (hd : d < 256) : (a + 256 * b + 65536 * c + 16777216 * d) / 65536 % 256 = c := by
  omega

/-- Digit 3 of a 32-bit little-endian sum. -/
theorem digit4_3 {a b c d : ℕ} (ha : a < 256) (hb : b < 256) (hc : c < 256)
    (hd : d < 256) : (a + 256 * b + 65536 * c + 16777216 * d) / 16777216 % 256 = d := by
  omega

/-- `crcInput` of a frame whose fields are given as little-endian digit
sums, written with the raw digits. -/
theorem crcInput_digits (a0 a1 b0 b1 f0 f1 f2 f3 g0 g1 g2 g3 : ℕ)
    (mt : MessageType) (P : List ℕ)
    (ha0 : a0 < 256) (ha1 : a1 < 256) (hb0 : b0 < 256) (hb1 : b1 < 256)
    (hf0 : f0 < 256) (hf1 : f1 < 256) (hf2 : f2 < 256) (hf3 : f3 < 256)
    (hg0 : g0 < 256) (hg1 : g1 < 256) (hg2 : g2 < 256) (hg3 : g3 < 256) :
    crcInput ⟨a0 + 256 * a1, b0 + 256 * b1, mt,
        f0 + 256 * f1 + 65536 * f2 + 16777216 * f3,
        g0 + 256 * g1 + 65536 * g2 + 16777216 * g3, P⟩
      = 72 :: 67 :: 69 :: 82 :: a0 :: a1 :: b0 :: b1 ::
        (mt.toU32 % 256) :: (mt.toU32 / 256 % 256) :: (mt.toU32 / 65536 % 256) ::
        (mt.toU32 / 16777216 % 256) :: f0 :: f1 :: f2 :: f3 :: g0 :: g1 :: g2 :: g3 ::
        (P.length % 256) :: (P.length / 256 % 256) :: (P.length / 65536 % 256) ::
        (P.length / 16777216 % 256) :: P := by
  rw [crcInput_cons, digit2_lo ha0 ha1, digit2_hi ha0 ha1, digit2_lo hb0 hb1,
    digit2_hi hb0 hb1, digit4_0 hf0 hf1 hf2 hf3, digit4_1 hf0 hf1 hf2 hf3,
    digit4_2 hf0 hf1 hf2 hf3, digit4_3 hf0 hf1 hf2 hf3, digit4_0 hg0 hg1 hg2 hg3,
    digit4_1 hg0 hg1 hg2 hg3, digit4_2 hg0 hg1 hg2 hg3, digit4_3 hg0 hg1 hg2 hg3]

/-- A framed buffer whose CRC-covered region differs from the encoded
original in exactly one byte decodes to `CrcMismatch`. -/
theorem crc_mismatch_of_diff (a0 a1 b0 b1 f0 f1 f2 f3 g0 g1 g2 g3 : ℕ)
    (mt : MessageType) (P PP : List ℕ) (vM vm fl cid : ℕ) (n : ℕ)
    (hn : n = PP.length)
    (hmax : n ≤ MAX_PAYLOAD_BYTES)
    (h6 : ∀ b ∈ P, b < 256) (h6b : ∀ b ∈ PP, b < 256)
    (hdiff : oneByteDiff (crcInput ⟨vM, vm, mt, fl, cid, P⟩)
      (crcInput ⟨a0 + 256 * a1, b0 + 256 * b1, mt,
        f0 + 256 * f1 + 65536 * f2 + 16777216 * f3,
        g0 + 256 * g1 + 65536 * g2 + 16777216 * g3, PP⟩)) :
    ∃ e c, e ≠ c ∧
      decode (72 :: 67 :: 69 :: 82 :: a0 :: a1 :: b0 :: b1 ::
        (mt.toU32 % 256) :: (mt.toU32 / 256 % 256) :: (mt.toU32 / 65536 % 256) ::
        (mt.toU32 / 16777216 % 256) :: f0 :: f1 :: f2 :: f3 :: g0 :: g1 :: g2 :: g3 ::
        (n % 256) :: (n / 256 % 256) :: (n / 65536 % 256) :: (n / 16777216 % 256) ::
        (PP ++ u32le (calculate_crc ⟨vM, vm, mt, fl, cid, P⟩)))
      = DecodeOut.fail (FrameError.CrcMismatch e c) := by
  subst hn
  have hcrcb : calculate_crc ⟨vM, vm, mt, fl, cid, P⟩ < 4294967296 :=
    crc32c_lt _ (crcInput_bytes_lt vM vm mt fl cid P h6)
  have hneq : calculate_crc (⟨vM, vm, mt, fl, cid, P⟩ : Frame)
      ≠ calculate_crc (⟨a0 + 256 * a1, b0 + 256 * b1, mt,
        f0 + 256 * f1 + 65536 * f2 + 16777216 * f3,
        g0 + 256 * g1 + 65536 * g2 + 16777216 * g3, PP⟩ : Frame) := by
    simp only [calculate_crc]
    exact crc32c_ne_of_oneByteDiff (crcInput_bytes_lt _ _ _ _ _ _ h6)
      (crcInput_bytes_lt _ _ _ _ _ _ h6b) hdiff
  rw [decode_cons a0 a1 b0 b1 (mt.toU32 % 256) (mt.toU32 / 256 % 256)
    (mt.toU32 / 65536 % 256) (mt.toU32 / 16777216 % 256) f0 f1 f2 f3 g0 g1 g2 g3
    PP (u32le (calculate_crc ⟨vM, vm, mt, fl, cid, P⟩)) rfl mt
    (fromU32_toU32_digits mt) hmax]
  rw [readU32_u32le _ hcrcb, if_pos hneq]
  exact ⟨_, _, hneq, rfl⟩

/-- A framed buffer equal to the encoded original except in the CRC
trailer, whose stored CRC differs from the frame CRC, decodes to
`CrcMismatch`. -/
theorem crc_mismatch_trailer (vM vm : ℕ) (mt : MessageType) (fl cid : ℕ)
    (P C2 : List ℕ) (hC2 : C2.length = 4)
    (h1 : vM < 65536) (h2 : vm < 65536) (h3 : fl < 4294967296)
    (h4 : cid < 4294967296) (h5 : P.length ≤ MAX_PAYLOAD_BYTES)
    (hCne : readU32 C2 ≠ calculate_crc ⟨vM, vm, mt, fl, cid, P⟩) :
    ∃ e c, e ≠ c ∧
      decode (72 :: 67 :: 69 :: 82 ::
        (vM % 256) :: (vM / 256 % 256) :: (vm % 256) :: (vm / 256 % 256) ::
        (mt.toU32 % 256) :: (mt.toU32 / 256 % 256) :: (mt.toU32 / 65536 % 256) ::
        (mt.toU32 / 16777216 % 256) ::
        (fl % 256) :: (fl / 256 % 256) :: (fl / 65536 % 256) :: (fl / 16777216 % 256) ::
        (cid % 256) :: (cid / 256 % 256) :: (cid / 65536 % 256) ::
        (cid / 16777216 % 256) ::
        (P.length % 256) :: (P.length / 256 % 256) :: (P.length / 65536 % 256) ::
        (P.length / 16777216 % 256) :: (P ++ C2))
      = DecodeOut.fail (FrameError.CrcMismatch e c) := by
  rw [decode_cons (vM % 256) (vM / 256 % 256) (vm % 256) (vm / 256 % 256)
    (mt.toU32 % 256) (mt.toU32 / 256 % 256) (mt.toU32 / 65536 % 256)
    (mt.toU32 / 16777216 % 256)
    (fl % 256) (fl / 256 % 256) (fl / 65536 % 256) (fl / 16777216 % 256)
    (cid % 256) (cid / 256 % 256) (cid / 65536 % 256) (cid / 16777216 % 256)
    P C2 hC2 mt (fromU32_toU32_digits mt) h5]
  have hF : (⟨vM % 256 + 256 * (vM / 256 % 256), vm % 256 + 256 * (vm / 256 % 256), mt,
      fl % 256 + 256 * (fl / 256 % 256) + 65536 * (fl / 65536 % 256)
        + 16777216 * (fl / 16777216 % 256),
      cid % 256 + 256 * (cid / 256 % 256) + 65536 * (cid / 65536 % 256)
        + 16777216 * (cid / 16777216 % 256), P⟩ : Frame)
      = (⟨vM, vm, mt, fl, cid, P⟩ : Frame) := by
    simp only [Frame.mk.injEq]
    exact ⟨by omega, by omega, trivial, by omega, by omega, trivial⟩
  rw [hF, if_pos hCne]
  exact ⟨_, _, hCne, rfl⟩

end Requiem

namespace Requiem

/-- `drop` at an in-range index exposes the `getD` element. -/
theorem drop_eq_getD_cons {l : List ℕ} {k : ℕ} (h : k < l.length) :
    l.drop k = l.getD k 0 :: l.drop (k + 1) := by
  rw [List.getD_eq_get l 0 h]
  exact List.drop_eq_get_cons h

/-- `getD` on an append, index inside the first part. -/
theorem getD_append_lt {l1 l2 : List ℕ} {k : ℕ} (h : k < l1.length) (d : ℕ) :
    (l1 ++ l2).getD k d = l1.getD k d := by
  induction l1 generalizing k with
  | nil => simp at h
  | cons a t ih =>
    cases k with
    | zero => rfl
    | succ k2 =>
      have h2 : k2 < t.length := by
        simp only [List.length_cons] at h
        omega
      simpa using ih h2

/-- `getD` on an append, index past the first part. -/
theorem getD_append_ge {l1 l2 : List ℕ} {k : ℕ} (h : l1.length ≤ k) (d : ℕ) :
    (l1 ++ l2).getD k d = l2.getD (k - l1.length) d := by
  induction l1 generalizing k with
  | nil => simp
  | cons a t ih =>
    cases k with
    | zero => simp at h
    | succ k2 =>
      have h2 : t.length ≤ k2 := by
        simp only [List.length_cons] at h
        omega
      have h3 := ih h2
      simpa [Nat.succ_sub_succ] using h3

/-- The `getD` element of an in-range index is a member. -/
theorem getD_mem_of_lt {l : List ℕ} {k : ℕ} (h : k < l.length) : l.getD k 0 ∈ l := by
  rw [List.getD_eq_get l 0 h]
  exact List.get_mem l k h

end Requiem

namespace Requiem

set_option maxHeartbeats 1600000 in
/-- Flipping any single bit in the CRC-covered version, flags,
correlation-id, payload or CRC-trailer bytes of an encoded frame makes
`decode` fail with `CrcMismatch`. -/
theorem crc_flip_aux (vM vm : ℕ) (mt : MessageType) (fl cid : ℕ) (P : List ℕ)
    (h1 : vM < 65536) (h2 : vm < 65536) (h3 : fl < 4294967296) (h4 : cid < 4294967296)
    (h5 : P.length ≤ MAX_PAYLOAD_BYTES) (h6 : ∀ b ∈ P, b < 256)
    (i : ℕ)
    (hreg : (32 ≤ i ∧ i < 64) ∨ (96 ≤ i ∧ i < 160)
      ∨ (192 ≤ i ∧ i < 8 * (28 + P.length))) :
    ∃ e c, e ≠ c ∧ decode (flipBit (encode ⟨vM, vm, mt, fl, cid, P⟩) i)
      = DecodeOut.fail (FrameError.CrcMismatch e c) := by
  rw [encode_cons]
  rcases hreg with ⟨hlo, hhi⟩ | ⟨hlo, hhi⟩ | ⟨hlo, hhi⟩
  · have hj4 : i / 8 = 4 ∨ i / 8 = 5 ∨ i / 8 = 6 ∨ i / 8 = 7 := by omega
    rcases hj4 with hj | hj | hj | hj
    · rw [flipBit, hj]
      exact crc_mismatch_of_diff ((vM % 256) ^^^ (1 <<< (i % 8))) (vM / 256 % 256) (vm % 256) (vm / 256 % 256) (fl % 256) (fl / 256 % 256) (fl / 65536 % 256) (fl / 16777216 % 256) (cid % 256) (cid / 256 % 256) (cid / 65536 % 256) (cid / 16777216 % 256)
        mt P P vM vm fl cid P.length rfl h5 h6 h6
        ⟨[72, 67, 69, 82], (vM % 256), ((vM % 256) ^^^ (1 <<< (i % 8))),
         (vM / 256 % 256) :: (vm % 256) :: (vm / 256 % 256) :: (mt.toU32 % 256) :: (mt.toU32 / 256 % 256) :: (mt.toU32 / 65536 % 256) :: (mt.toU32 / 16777216 % 256) :: (fl % 256) :: (fl / 256 % 256) :: (fl / 65536 % 256) :: (fl / 16777216 % 256) :: (cid % 256) :: (cid / 256 % 256) :: (cid / 65536 % 256) :: (cid / 16777216 % 256) :: (P.length % 256) :: (P.length / 256 % 256) :: (P.length / 65536 % 256) :: (P.length / 16777216 % 256) :: P,
         by rw [crcInput_cons]; rfl,
         by rw [crcInput_digits ((vM % 256) ^^^ (1 <<< (i % 8))) (vM / 256 % 256) (vm % 256) (vm / 256 % 256) (fl % 256) (fl / 256 % 256) (fl / 65536 % 256) (fl / 16777216 % 256) (cid % 256) (cid / 256 % 256) (cid / 65536 % 256) (cid / 16777216 % 256)
           mt P (xor_lt8 (by omega) (mask_lt_256 i)) (by omega) (by omega) (by omega) (by omega) (by omega) (by omega) (by omega) (by omega) (by omega) (by omega) (by omega)]; rfl,
         (xor_ne_self (mask_ne_zero i)).symm⟩
    · rw [flipBit, hj]
      exact crc_mismatch_of_diff (vM % 256) ((vM / 256 % 256) ^^^ (1 <<< (i % 8))) (vm % 256) (vm / 256 % 256) (fl % 256) (fl / 256 % 256) (fl / 65536 % 256) (fl / 16777216 % 256) (cid % 256) (cid / 256 % 256) (cid / 65536 % 256) (cid / 16777216 % 256)
        mt P P vM vm fl cid P.length rfl h5 h6 h6
        ⟨[72, 67, 69, 82, (vM % 256)], (vM / 256 % 256), ((vM / 256 % 256) ^^^ (1 <<< (i % 8))),
         (vm % 256) :: (vm / 256 % 256) :: (mt.toU32 % 256) :: (mt.toU32 / 256 % 256) :: (mt.toU32 / 65536 % 256) :: (mt.toU32 / 16777216 % 256) :: (fl % 256) :: (fl / 256 % 256) :: (fl / 65536 % 256) :: (fl / 16777216 % 256) :: (cid % 256) :: (cid / 256 % 256) :: (cid / 65536 % 256) :: (cid / 16777216 % 256) :: (P.length % 256) :: (P.length / 256 % 256) :: (P.length / 65536 % 256) :: (P.length / 16777216 % 256) :: P,
         by rw [crcInput_cons]; rfl,
         by rw [crcInput_digits (vM % 256) ((vM / 256 % 256) ^^^ (1 <<< (i % 8))) (vm % 256) (vm / 256 % 256) (fl % 256) (fl / 256 % 256) (fl / 65536 % 256) (fl / 16777216 % 256) (cid % 256) (cid / 256 % 256) (cid / 65536 % 256) (cid / 16777216 % 256)
           mt P (by omega) (xor_lt8 (by omega) (mask_lt_256 i)) (by omega) (by omega) (by omega) (by omega) (by omega) (by omega) (by omega) (by omega) (by omega) (by omega)]; rfl,
         (xor_ne_self (mask_ne_zero i)).symm⟩
    · rw [flipBit, hj]
      exact crc_mismatch_of_diff (vM % 256) (vM / 256 % 256) ((vm % 256) ^^^ (1 <<< (i % 8))) (vm / 256 % 256) (fl % 256) (fl / 256 % 256) (fl / 65536 % 256) (fl / 16777216 % 256) (cid % 256) (cid / 256 % 256) (cid / 65536 % 256) (cid / 16777216 % 256)
        mt P P vM vm fl cid P.length rfl h5 h6 h6
        ⟨[72, 67, 69, 82, (vM % 256), (vM / 256 % 256)], (vm % 256), ((vm % 256) ^^^ (1 <<< (i % 8))),
         (vm / 256 % 256) :: (mt.toU32 % 256) :: (mt.toU32 / 256 % 256) :: (mt.toU32 / 65536 % 256) :: (mt.toU32 / 16777216 % 256) :: (fl % 256) :: (fl / 256 % 256) :: (fl / 65536 % 256) :: (fl / 16777216 % 256) :: (cid % 256) :: (cid / 256 % 256) :: (cid / 65536 % 256) :: (cid / 16777216 % 256) :: (P.length % 256) :: (P.length / 256 % 256) :: (P.length / 65536 % 256) :: (P.length / 16777216 % 256) :: P,
         by rw [crcInput_cons]; rfl,
         by rw [crcInput_digits (vM % 256) (vM / 256 % 256) ((vm % 256) ^^^ (1 <<< (i % 8))) (vm / 256 % 256) (fl % 256) (fl / 256 % 256) (fl / 65536 % 256) (fl / 16777216 % 256) (cid % 256) (cid / 256 % 256) (cid / 65536 % 256) (cid / 16777216 % 256)
           mt P (by omega) (by omega) (xor_lt8 (by omega) (mask_lt_256 i)) (by omega) (by omega) (by omega) (by omega) (by omega) (by omega) (by omega) (by omega) (by omega)]; rfl,
         (xor_ne_self (mask_ne_zero i)).symm⟩
    · rw [flipBit, hj]
      exact crc_mismatch_of_diff (vM % 256) (vM / 256 % 256) (vm % 256) ((vm / 256 % 256) ^^^ (1 <<< (i % 8))) (fl % 256) (fl / 256 % 256) (fl / 65536 % 256) (fl / 16777216 % 256) (cid % 256) (cid / 256 % 256) (cid / 65536 % 256) (cid / 16777216 % 256)
        mt P P vM vm fl cid P.length rfl h5 h6 h6
        ⟨[72, 67, 69, 82, (vM % 256), (vM / 256 % 256), (vm % 256)], (vm / 256 % 256), ((vm / 256 % 256) ^^^ (1 <<< (i % 8))),
         (mt.toU32 % 256) :: (mt.toU32 / 256 % 256) :: (mt.toU32 / 65536 % 256) :: (mt.toU32 / 16777216 % 256) :: (fl % 256) :: (fl / 256 % 256) :: (fl / 65536 % 256) :: (fl / 16777216 % 256) :: (cid % 256) :: (cid / 256 % 256) :: (cid / 65536 % 256) :: (cid / 16777216 % 256) :: (P.length % 256) :: (P.length / 256 % 256) :: (P.length / 65536 % 256) :: (P.length / 16777216 % 256) :: P,
         by rw [crcInput_cons]; rfl,
         by rw [crcInput_digits (vM % 256) (vM / 256 % 256) (vm % 256) ((vm / 256 % 256) ^^^ (1 <<< (i % 8))) (fl % 256) (fl / 256 % 256) (fl / 65536 % 256) (fl / 16777216 % 256) (cid % 256) (cid / 256 % 256) (cid / 65536 % 256) (cid / 16777216 % 256)
           mt P (by omega) (by omega) (by omega) (xor_lt8 (by omega) (mask_lt_256 i)) (by omega) (by omega) (by omega) (by omega) (by omega) (by omega) (by omega) (by omega)]; rfl,
         (xor_ne_self (mask_ne_zero i)).symm⟩
  · have hj8 : i / 8 = 12 ∨ i / 8 = 13 ∨ i / 8 = 14 ∨ i / 8 = 15 ∨ i / 8 = 16 ∨ i / 8 = 17 ∨ i / 8 = 18 ∨ i / 8 = 19 := by omega
    rcases hj8 with hj | hj | hj | hj | hj | hj | hj | hj
    · rw [flipBit, hj]
      exact crc_mismatch_of_diff (vM % 256) (vM / 256 % 256) (vm % 256) (vm / 256 % 256) ((fl % 256) ^^^ (1 <<< (i % 8))) (fl / 256 % 256) (fl / 65536 % 256) (fl / 16777216 % 256) (cid % 256) (cid / 256 % 256) (cid / 65536 % 256) (cid / 16777216 % 256)
        mt P P vM vm fl cid P.length rfl h5 h6 h6
        ⟨[72, 67, 69, 82, (vM % 256), (vM / 256 % 256), (vm % 256), (vm / 256 % 256), (mt.toU32 % 256), (mt.toU32 / 256 % 256), (mt.toU32 / 65536 % 256), (mt.toU32 / 16777216 % 256)], (fl % 256), ((fl % 256) ^^^ (1 <<< (i % 8))),
         (fl / 256 % 256) :: (fl / 65536 % 256) :: (fl / 16777216 % 256) :: (cid % 256) :: (cid / 256 % 256) :: (cid / 65536 % 256) :: (cid / 16777216 % 256) :: (P.length % 256) :: (P.length / 256 % 256) :: (P.length / 65536 % 256) :: (P.length / 16777216 % 256) :: P,
         by rw [crcInput_cons]; rfl,
         by rw [crcInput_digits (vM % 256) (vM / 256 % 256) (vm % 256) (vm / 256 % 256) ((fl % 256) ^^^ (1 <<< (i % 8))) (fl / 256 % 256) (fl / 65536 % 256) (fl / 16777216 % 256) (cid % 256) (cid / 256 % 256) (cid / 65536 % 256) (cid / 16777216 % 256)
           mt P (by omega) (by omega) (by omega) (by omega) (xor_lt8 (by omega) (mask_lt_256 i)) (by omega) (by omega) (by omega) (by omega) (by omega) (by omega) (by omega)]; rfl,
         (xor_ne_self (mask_ne_zero i)).symm⟩
    · rw [flipBit, hj]
      exact crc_mismatch_of_diff (vM % 256) (vM / 256 % 256) (vm % 256) (vm / 256 % 256) (fl % 256) ((fl / 256 % 256) ^^^ (1 <<< (i % 8))) (fl / 65536 % 256) (fl / 16777216 % 256) (cid % 256) (cid / 256 % 256) (cid / 65536 % 256) (cid / 16777216 % 256)
        mt P P vM vm fl cid P.length rfl h5 h6 h6
        ⟨[72, 67, 69, 82, (vM % 256), (vM / 256 % 256), (vm % 256), (vm / 256 % 256), (mt.toU32 % 256), (mt.toU32 / 256 % 256), (mt.toU32 / 65536 % 256), (mt.toU32 / 16777216 % 256), (fl % 256)], (fl / 256 % 256), ((fl / 256 % 256) ^^^ (1 <<< (i % 8))),
         (fl / 65536 % 256) :: (fl / 16777216 % 256) :: (cid % 256) :: (cid / 256 % 256) :: (cid / 65536 % 256) :: (cid / 16777216 % 256) :: (P.length % 256) :: (P.length / 256 % 256) :: (P.length / 65536 % 256) :: (P.length / 16777216 % 256) :: P,
         by rw [crcInput_cons]; rfl,
         by rw [crcInput_digits (vM % 256) (vM / 256 % 256) (vm % 256) (vm / 256 % 256) (fl % 256) ((fl / 256 % 256) ^^^ (1 <<< (i % 8))) (fl / 65536 % 256) (fl / 16777216 % 256) (cid % 256) (cid / 256 % 256) (cid / 65536 % 256) (cid / 16777216 % 256)
           mt P (by omega) (by omega) (by omega) (by omega) (by omega) (xor_lt8 (by omega) (mask_lt_256 i)) (by omega) (by omega) (by omega) (by omega) (by omega) (by omega)]; rfl,
         (xor_ne_self (mask_ne_zero i)).symm⟩
    · rw [flipBit, hj]
      exact crc_mismatch_of_diff (vM % 256) (vM / 256 % 256) (vm % 256) (vm / 256 % 256) (fl % 256) (fl / 256 % 256) ((fl / 65536 % 256) ^^^ (1 <<< (i % 8))) (fl / 16777216 % 256) (cid % 256) (cid / 256 % 256) (cid / 65536 % 256) (cid / 16777216 % 256)
        mt P P vM vm fl cid P.length rfl h5 h6 h6
        ⟨[72, 67, 69, 82, (vM % 256), (vM / 256 % 256), (vm % 256), (vm / 256 % 256), (mt.toU32 % 256), (mt.toU32 / 256 % 256), (mt.toU32 / 65536 % 256), (mt.toU32 / 16777216 % 256), (fl % 256), (fl / 256 % 256)], (fl / 65536 % 256), ((fl / 65536 % 256) ^^^ (1 <<< (i % 8))),
         (fl / 16777216 % 256) :: (cid % 256) :: (cid / 256 % 256) :: (cid / 65536 % 256) :: (cid / 16777216 % 256) :: (P.length % 256) :: (P.length / 256 % 256) :: (P.length / 65536 % 256) :: (P.length / 16777216 % 256) :: P,
         by rw [crcInput_cons]; rfl,
         by rw [crcInput_digits (vM % 256) (vM / 256 % 256) (vm % 256) (vm / 256 % 256) (fl % 256) (fl / 256 % 256) ((fl / 65536 % 256) ^^^ (1 <<< (i % 8))) (fl / 16777216 % 256) (cid % 256) (cid / 256 % 256) (cid / 65536 % 256) (cid / 16777216 % 256)
           mt P (by omega) (by omega) (by omega) (by omega) (by omega) (by omega) (xor_lt8 (by omega) (mask_lt_256 i)) (by omega) (by omega) (by omega) (by omega) (by omega)]; rfl,
         (xor_ne_self (mask_ne_zero i)).symm⟩
    · rw [flipBit, hj]
      exact crc_mismatch_of_diff (vM % 256) (vM / 256 % 256) (vm % 256) (vm / 256 % 256) (fl % 256) (fl / 256 % 256) (fl / 65536 % 256) ((fl / 16777216 % 256) ^^^ (1 <<< (i % 8))) (cid % 256) (cid / 256 % 256) (cid / 65536 % 256) (cid / 16777216 % 256)
        mt P P vM vm fl cid P.length rfl h5 h6 h6
        ⟨[72, 67, 69, 82, (vM % 256), (vM / 256 % 256), (vm % 256), (vm / 256 % 256), (mt.toU32 % 256), (mt.toU32 / 256 % 256), (mt.toU32 / 65536 % 256), (mt.toU32 / 16777216 % 256), (fl % 256), (fl / 256 % 256), (fl / 65536 % 256)], (fl / 16777216 % 256), ((fl / 16777216 % 256) ^^^ (1 <<< (i % 8))),
         (cid % 256) :: (cid / 256 % 256) :: (cid / 65536 % 256) :: (cid / 16777216 % 256) :: (P.length % 256) :: (P.length / 256 % 256) :: (P.length / 65536 % 256) :: (P.length / 16777216 % 256) :: P,
         by rw [crcInput_cons]; rfl,
         by rw [crcInput_digits (vM % 256) (vM / 256 % 256) (vm % 256) (vm / 256 % 256) (fl % 256) (fl / 256 % 256) (fl / 65536 % 256) ((fl / 16777216 % 256) ^^^ (1 <<< (i % 8))) (cid % 256) (cid / 256 % 256) (cid / 65536 % 256) (cid / 16777216 % 256)
           mt P (by omega) (by omega) (by omega) (by omega) (by omega) (by omega) (by omega) (xor_lt8 (by omega) (mask_lt_256 i)) (by omega) (by omega) (by omega) (by omega)]; rfl,
         (xor_ne_self (mask_ne_zero i)).symm⟩
    · rw [flipBit, hj]
      exact crc_mismatch_of_diff (vM % 256) (vM / 256 % 256) (vm % 256) (vm / 256 % 256) (fl % 256) (fl / 256 % 256) (fl / 65536 % 256) (fl / 16777216 % 256) ((cid % 256) ^^^ (1 <<< (i % 8))) (cid / 256 % 256) (cid / 65536 % 256) (cid / 16777216 % 256)
        mt P P vM vm fl cid P.length rfl h5 h6 h6
        ⟨[72, 67, 69, 82, (vM % 256), (vM / 256 % 256), (vm % 256), (vm / 256 % 256), (mt.toU32 % 256), (mt.toU32 / 256 % 256), (mt.toU32 / 65536 % 256), (mt.toU32 / 16777216 % 256), (fl % 256), (fl / 256 % 256), (fl / 65536 % 256), (fl / 16777216 % 256)], (cid % 256), ((cid % 256) ^^^ (1 <<< (i % 8))),
         (cid / 256 % 256) :: (cid / 65536 % 256) :: (cid / 16777216 % 256) :: (P.length % 256) :: (P.length / 256 % 256) :: (P.length / 65536 % 256) :: (P.length / 16777216 % 256) :: P,
         by rw [crcInput_cons]; rfl,
         by rw [crcInput_digits (vM % 256) (vM / 256 % 256) (vm % 256) (vm / 256 % 256) (fl % 256) (fl / 256 % 256) (fl / 65536 % 256) (fl / 16777216 % 256) ((cid % 256) ^^^ (1 <<< (i % 8))) (cid / 256 % 256) (cid / 65536 % 256) (cid / 16777216 % 256)
           mt P (by omega) (by omega) (by omega) (by omega) (by omega) (by omega) (by omega) (by omega) (xor_lt8 (by omega) (mask_lt_256 i)) (by omega) (by omega) (by omega)]; rfl,
         (xor_ne_self (mask_ne_zero i)).symm⟩
    · rw [flipBit, hj]
      exact crc_mismatch_of_diff (vM % 256) (vM / 256 % 256) (vm % 256) (vm / 256 % 256) (fl % 256) (fl / 256 % 256) (fl / 65536 % 256) (fl / 16777216 % 256) (cid % 256) ((cid / 256 % 256) ^^^ (1 <<< (i % 8))) (cid / 65536 % 256) (cid / 16777216 % 256)
        mt P P vM vm fl cid P.length rfl h5 h6 h6
        ⟨[72, 67, 69, 82, (vM % 256), (vM / 256 % 256), (vm % 256), (vm / 256 % 256), (mt.toU32 % 256), (mt.toU32 / 256 % 256), (mt.toU32 / 65536 % 256), (mt.toU32 / 16777216 % 256), (fl % 256), (fl / 256 % 256), (fl / 65536 % 256), (fl / 16777216 % 256), (cid % 256)], (cid / 256 % 256), ((cid / 256 % 256) ^^^ (1 <<< (i % 8))),
         (cid / 65536 % 256) :: (cid / 16777216 % 256) :: (P.length % 256) :: (P.length / 256 % 256) :: (P.length / 65536 % 256) :: (P.length / 16777216 % 256) :: P,
         by rw [crcInput_cons]; rfl,
         by rw [crcInput_digits (vM % 256) (vM / 256 % 256) (vm % 256) (vm / 256 % 256) (fl % 256) (fl / 256 % 256) (fl / 65536 % 256) (fl / 16777216 % 256) (cid % 256) ((cid / 256 % 256) ^^^ (1 <<< (i % 8))) (cid / 65536 % 256) (cid / 16777216 % 256)
           mt P (by omega) (by omega) (by omega) (by omega) (by omega) (by omega) (by omega) (by omega) (by omega) (xor_lt8 (by omega) (mask_lt_256 i)) (by omega) (by omega)]; rfl,
         (xor_ne_self (mask_ne_zero i)).symm⟩
    · rw [flipBit, hj]
      exact crc_mismatch_of_diff (vM % 256) (vM / 256 % 256) (vm % 256) (vm / 256 % 256) (fl % 256) (fl / 256 % 256) (fl / 65536 % 256) (fl / 16777216 % 256) (cid % 256) (cid / 256 % 256) ((cid / 65536 % 256) ^^^ (1 <<< (i % 8))) (cid / 16777216 % 256)
        mt P P vM vm fl cid P.length rfl h5 h6 h6
        ⟨[72, 67, 69, 82, (vM % 256), (vM / 256 % 256), (vm % 256), (vm / 256 % 256), (mt.toU32 % 256), (mt.toU32 / 256 % 256), (mt.toU32 / 65536 % 256), (mt.toU32 / 16777216 % 256), (fl % 256), (fl / 256 % 256), (fl / 65536 % 256), (fl / 16777216 % 256), (cid % 256), (cid / 256 % 256)], (cid / 65536 % 256), ((cid / 65536 % 256) ^^^ (1 <<< (i % 8))),
         (cid / 16777216 % 256) :: (P.length % 256) :: (P.length / 256 % 256) :: (P.length / 65536 % 256) :: (P.length / 16777216 % 256) :: P,
         by rw [crcInput_cons]; rfl,
         by rw [crcInput_digits (vM % 256) (vM / 256 % 256) (vm % 256) (vm / 256 % 256) (fl % 256) (fl / 256 % 256) (fl / 65536 % 256) (fl / 16777216 % 256) (cid % 256) (cid / 256 % 256) ((cid / 65536 % 256) ^^^ (1 <<< (i % 8))) (cid / 16777216 % 256)
           mt P (by omega) (by omega) (by omega) (by omega) (by omega) (by omega) (by omega) (by omega) (by omega) (by omega) (xor_lt8 (by omega) (mask_lt_256 i)) (by omega)]; rfl,
         (xor_ne_self (mask_ne_zero i)).symm⟩
    · rw [flipBit, hj]
      exact crc_mismatch_of_diff (vM % 256) (vM / 256 % 256) (vm % 256) (vm / 256 % 256) (fl % 256) (fl / 256 % 256) (fl / 65536 % 256) (fl / 16777216 % 256) (cid % 256) (cid / 256 % 256) (cid / 65536 % 256) ((cid / 16777216 % 256) ^^^ (1 <<< (i % 8)))
        mt P P vM vm fl cid P.length rfl h5 h6 h6
        ⟨[72, 67, 69, 82, (vM % 256), (vM / 256 % 256), (vm % 256), (vm / 256 % 256), (mt.toU32 % 256), (mt.toU32 / 256 % 256), (mt.toU32 / 65536 % 256), (mt.toU32 / 16777216 % 256), (fl % 256), (fl / 256 % 256), (fl / 65536 % 256), (fl / 16777216 % 256), (cid % 256), (cid / 256 % 256), (cid / 65536 % 256)], (cid / 16777216 % 256), ((cid / 16777216 % 256) ^^^ (1 <<< (i % 8))),
         (P.length % 256) :: (P.length / 256 % 256) :: (P.length / 65536 % 256) :: (P.length / 16777216 % 256) :: P,
         by rw [crcInput_cons]; rfl,
         by rw [crcInput_digits (vM % 256) (vM / 256 % 256) (vm % 256) (vm / 256 % 256) (fl % 256) (fl / 256 % 256) (fl / 65536 % 256) (fl / 16777216 % 256) (cid % 256) (cid / 256 % 256) (cid / 65536 % 256) ((cid / 16777216 % 256) ^^^ (1 <<< (i % 8)))
           mt P (by omega) (by omega) (by omega) (by omega) (by omega) (by omega) (by omega) (by omega) (by omega) (by omega) (by omega) (xor_lt8 (by omega) (mask_lt_256 i))]; rfl,
         (xor_ne_self (mask_ne_zero i)).symm⟩
  · by_cases hpay : i < 8 * (24 + P.length)
    · -- flip inside the payload
      have hk : i / 8 - 24 < P.length := by omega
      have hj : i / 8 = (i / 8 - 24) + 24 := by omega
      rw [flipBit, hj]
      have hP : P = P.take (i / 8 - 24) ++ P.getD (i / 8 - 24) 0 :: P.drop (i / 8 - 24 + 1) := by
        conv_lhs => rw [← List.take_append_drop (i / 8 - 24) P]
        rw [drop_eq_getD_cons hk]
      show ∃ e c, e ≠ c ∧ decode ((72) :: (67) :: (69) :: (82) :: (vM % 256) :: (vM / 256 % 256) :: (vm % 256) :: (vm / 256 % 256) :: (mt.toU32 % 256) :: (mt.toU32 / 256 % 256) :: (mt.toU32 / 65536 % 256) :: (mt.toU32 / 16777216 % 256) :: (fl % 256) :: (fl / 256 % 256) :: (fl / 65536 % 256) :: (fl / 16777216 % 256) :: (cid % 256) :: (cid / 256 % 256) :: (cid / 65536 % 256) :: (cid / 16777216 % 256) :: (P.length % 256) :: (P.length / 256 % 256) :: (P.length / 65536 % 256) :: (P.length / 16777216 % 256) ::
        ((P ++ u32le (calculate_crc ⟨vM, vm, mt, fl, cid, P⟩)).set (i / 8 - 24) ((P ++ u32le (calculate_crc ⟨vM, vm, mt, fl, cid, P⟩)).getD (i / 8 - 24) 0 ^^^ (1 <<< (i % 8)))))
          = DecodeOut.fail (FrameError.CrcMismatch e c)
      rw [List.set_append_left _ _ hk, getD_append_lt hk, List.set_eq_take_cons_drop _ hk]
      have hn : P.length = (P.take (i / 8 - 24) ++ (P.getD (i / 8 - 24) 0 ^^^ (1 <<< (i % 8))) :: P.drop (i / 8 - 24 + 1)).length := by
        simp only [List.length_append, List.length_take, List.length_cons, List.length_drop]
        omega
      have h6b : ∀ b ∈ P.take (i / 8 - 24) ++ (P.getD (i / 8 - 24) 0 ^^^ (1 <<< (i % 8))) :: P.drop (i / 8 - 24 + 1), b < 256 := by
        intro x hx
        rcases List.mem_append.mp hx with hx1 | hx2
        · exact h6 x (List.mem_of_mem_take hx1)
        · rcases List.mem_cons.mp hx2 with hx3 | hx4
          · rw [hx3]
            exact xor_lt8 (h6 _ (getD_mem_of_lt hk)) (mask_lt_256 i)
          · exact h6 x (List.mem_of_mem_drop hx4)
      exact crc_mismatch_of_diff (vM % 256) (vM / 256 % 256) (vm % 256) (vm / 256 % 256) (fl % 256) (fl / 256 % 256) (fl / 65536 % 256) (fl / 16777216 % 256) (cid % 256) (cid / 256 % 256) (cid / 65536 % 256) (cid / 16777216 % 256)
        mt P (P.take (i / 8 - 24) ++ (P.getD (i / 8 - 24) 0 ^^^ (1 <<< (i % 8))) :: P.drop (i / 8 - 24 + 1))
        vM vm fl cid P.length hn h5 h6 h6b
        ⟨[72, 67, 69, 82, (vM % 256), (vM / 256 % 256), (vm % 256), (vm / 256 % 256), (mt.toU32 % 256), (mt.toU32 / 256 % 256), (mt.toU32 / 65536 % 256), (mt.toU32 / 16777216 % 256), (fl % 256), (fl / 256 % 256), (fl / 65536 % 256), (fl / 16777216 % 256), (cid % 256), (cid / 256 % 256), (cid / 65536 % 256), (cid / 16777216 % 256), (P.length % 256), (P.length / 256 % 256), (P.length / 65536 % 256), (P.length / 16777216 % 256)] ++ P.take (i / 8 - 24),
         P.getD (i / 8 - 24) 0, (P.getD (i / 8 - 24) 0 ^^^ (1 <<< (i % 8))), P.drop (i / 8 - 24 + 1),
         by rw [crcInput_cons]
            simp only [List.cons_append, List.nil_append, List.append_assoc]
            rw [← hP],
         by rw [crcInput_digits (vM % 256) (vM / 256 % 256) (vm % 256) (vm / 256 % 256) (fl % 256) (fl / 256 % 256) (fl / 65536 % 256) (fl / 16777216 % 256) (cid % 256) (cid / 256 % 256) (cid / 65536 % 256) (cid / 16777216 % 256)
              mt (P.take (i / 8 - 24) ++ (P.getD (i / 8 - 24) 0 ^^^ (1 <<< (i % 8))) :: P.drop (i / 8 - 24 + 1))
              (by omega) (by omega) (by omega) (by omega) (by omega) (by omega) (by omega) (by omega) (by omega) (by omega) (by omega) (by omega), ← hn]
            simp only [List.cons_append, List.nil_append, List.append_assoc],
         (xor_ne_self (mask_ne_zero i)).symm⟩
    · -- flip inside the CRC trailer
      have hcb : calculate_crc ⟨vM, vm, mt, fl, cid, P⟩ < 4294967296 :=
        crc32c_lt _ (crcInput_bytes_lt vM vm mt fl cid P h6)
      have hr : i / 8 = P.length + 24 ∨ i / 8 = (P.length + 1) + 24
          ∨ i / 8 = (P.length + 2) + 24 ∨ i / 8 = (P.length + 3) + 24 := by omega
      rcases hr with hj | hj | hj | hj
      · rw [flipBit, hj]
        show ∃ e c, e ≠ c ∧ decode ((72) :: (67) :: (69) :: (82) :: (vM % 256) :: (vM / 256 % 256) :: (vm % 256) :: (vm / 256 % 256) :: (mt.toU32 % 256) :: (mt.toU32 / 256 % 256) :: (mt.toU32 / 65536 % 256) :: (mt.toU32 / 16777216 % 256) :: (fl % 256) :: (fl / 256 % 256) :: (fl / 65536 % 256) :: (fl / 16777216 % 256) :: (cid % 256) :: (cid / 256 % 256) :: (cid / 65536 % 256) :: (cid / 16777216 % 256) :: (P.length % 256) :: (P.length / 256 % 256) :: (P.length / 65536 % 256) :: (P.length / 16777216 % 256) ::
        ((P ++ u32le (calculate_crc ⟨vM, vm, mt, fl, cid, P⟩)).set (P.length) ((P ++ u32le (calculate_crc ⟨vM, vm, mt, fl, cid, P⟩)).getD (P.length) 0 ^^^ (1 <<< (i % 8)))))
            = DecodeOut.fail (FrameError.CrcMismatch e c)
        rw [List.set_append_right _ _ (show P.length ≤ P.length by omega),
          getD_append_ge (show P.length ≤ P.length by omega),
          show P.length - P.length = 0 from by omega]
        have hx1 : ((calculate_crc ⟨vM, vm, mt, fl, cid, P⟩ % 256) ^^^ (1 <<< (i % 8))) ≠ (calculate_crc ⟨vM, vm, mt, fl, cid, P⟩ % 256) := xor_ne_self (mask_ne_zero i)
        have hx2 : ((calculate_crc ⟨vM, vm, mt, fl, cid, P⟩ % 256) ^^^ (1 <<< (i % 8))) < 256 := xor_lt8 (by omega) (mask_lt_256 i)
        refine crc_mismatch_trailer vM vm mt fl cid P _ (by simp [u32le]) h1 h2 h3 h4 h5 ?_
        show ((calculate_crc ⟨vM, vm, mt, fl, cid, P⟩ % 256) ^^^ (1 <<< (i % 8))) + 256 * (calculate_crc ⟨vM, vm, mt, fl, cid, P⟩ / 256 % 256) + 65536 * (calculate_crc ⟨vM, vm, mt, fl, cid, P⟩ / 65536 % 256) + 16777216 * (calculate_crc ⟨vM, vm, mt, fl, cid, P⟩ / 16777216 % 256) ≠ calculate_crc ⟨vM, vm, mt, fl, cid, P⟩
        omega
      · rw [flipBit, hj]
        show ∃ e c, e ≠ c ∧ decode ((72) :: (67) :: (69) :: (82) :: (vM % 256) :: (vM / 256 % 256) :: (vm % 256) :: (vm / 256 % 256) :: (mt.toU32 % 256) :: (mt.toU32 / 256 % 256) :: (mt.toU32 / 65536 % 256) :: (mt.toU32 / 16777216 % 256) :: (fl % 256) :: (fl / 256 % 256) :: (fl / 65536 % 256) :: (fl / 16777216 % 256) :: (cid % 256) :: (cid / 256 % 256) :: (cid / 65536 % 256) :: (cid / 16777216 % 256) :: (P.length % 256) :: (P.length / 256 % 256) :: (P.length / 65536 % 256) :: (P.length / 16777216 % 256) ::
        ((P ++ u32le (calculate_crc ⟨vM, vm, mt, fl, cid, P⟩)).set (P.length + 1) ((P ++ u32le (calculate_crc ⟨vM, vm, mt, fl, cid, P⟩)).getD (P.length + 1) 0 ^^^ (1 <<< (i % 8)))))
            = DecodeOut.fail (FrameError.CrcMismatch e c)
        rw [List.set_append_right _ _ (show P.length ≤ P.length + 1 by omega),
          getD_append_ge (show P.length ≤ P.length + 1 by omega),
          show P.length + 1 - P.length = 1 from by omega]
        have hx1 : ((calculate_crc ⟨vM, vm, mt, fl, cid, P⟩ / 256 % 256) ^^^ (1 <<< (i % 8))) ≠ (calculate_crc ⟨vM, vm, mt, fl, cid, P⟩ / 256 % 256) := xor_ne_self (mask_ne_zero i)
        have hx2 : ((calculate_crc ⟨vM, vm, mt, fl, cid, P⟩ / 256 % 256) ^^^ (1 <<< (i % 8))) < 256 := xor_lt8 (by omega) (mask_lt_256 i)
        refine crc_mismatch_trailer vM vm mt fl cid P _ (by simp [u32le]) h1 h2 h3 h4 h5 ?_
        show (calculate_crc ⟨vM, vm, mt, fl, cid, P⟩ % 256) + 256 * ((calculate_crc ⟨vM, vm, mt, fl, cid, P⟩ / 256 % 256) ^^^ (1 <<< (i % 8))) + 65536 * (calculate_crc ⟨vM, vm, mt, fl, cid, P⟩ / 65536 % 256) + 16777216 * (calculate_crc ⟨vM, vm, mt, fl, cid, P⟩ / 16777216 % 256) ≠ calculate_crc ⟨vM, vm, mt, fl, cid, P⟩
        omega
      · rw [flipBit, hj]
        show ∃ e c, e ≠ c ∧ decode ((72) :: (67) :: (69) :: (82) :: (vM % 256) :: (vM / 256 % 256) :: (vm % 256) :: (vm / 256 % 256) :: (mt.toU32 % 256) :: (mt.toU32 / 256 % 256) :: (mt.toU32 / 65536 % 256) :: (mt.toU32 / 16777216 % 256) :: (fl % 256) :: (fl / 256 % 256) :: (fl / 65536 % 256) :: (fl / 16777216 % 256) :: (cid % 256) :: (cid / 256 % 256) :: (cid / 65536 % 256) :: (cid / 16777216 % 256) :: (P.length % 256) :: (P.length / 256 % 256) :: (P.length / 65536 % 256) :: (P.length / 16777216 % 256) ::
        ((P ++ u32le (calculate_crc ⟨vM, vm, mt, fl, cid, P⟩)).set (P.length + 2) ((P ++ u32le (calculate_crc ⟨vM, vm, mt, fl, cid, P⟩)).getD (P.length + 2) 0 ^^^ (1 <<< (i % 8)))))
            = DecodeOut.fail (FrameError.CrcMismatch e c)
        rw [List.set_append_right _ _ (show P.length ≤ P.length + 2 by omega),
          getD_append_ge (show P.length ≤ P.length + 2 by omega),
          show P.length + 2 - P.length = 2 from by omega]
        have hx1 : ((calculate_crc ⟨vM, vm, mt, fl, cid, P⟩ / 65536 % 256) ^^^ (1 <<< (i % 8))) ≠ (calculate_crc ⟨vM, vm, mt, fl, cid, P⟩ / 65536 % 256) := xor_ne_self (mask_ne_zero i)
        have hx2 : ((calculate_crc ⟨vM, vm, mt, fl, cid, P⟩ / 65536 % 256) ^^^ (1 <<< (i % 8))) < 256 := xor_lt8 (by omega) (mask_lt_256 i)
        refine crc_mismatch_trailer vM vm mt fl cid P _ (by simp [u32le]) h1 h2 h3 h4 h5 ?_
        show (calculate_crc ⟨vM, vm, mt, fl, cid, P⟩ % 256) + 256 * (calculate_crc ⟨vM, vm, mt, fl, cid, P⟩ / 256 % 256) + 65536 * ((calculate_crc ⟨vM, vm, mt, fl, cid, P⟩ / 65536 % 256) ^^^ (1 <<< (i % 8))) + 16777216 * (calculate_crc ⟨vM, vm, mt, fl, cid, P⟩ / 16777216 % 256) ≠ calculate_crc ⟨vM, vm, mt, fl, cid, P⟩
        omega
      · rw [flipBit, hj]
        show ∃ e c, e ≠ c ∧ decode ((72) :: (67) :: (69) :: (82) :: (vM % 256) :: (vM / 256 % 256) :: (vm % 256) :: (vm / 256 % 256) :: (mt.toU32 % 256) :: (mt.toU32 / 256 % 256) :: (mt.toU32 / 65536 % 256) :: (mt.toU32 / 16777216 % 256) :: (fl % 256) :: (fl / 256 % 256) :: (fl / 65536 % 256) :: (fl / 16777216 % 256) :: (cid % 256) :: (cid / 256 % 256) :: (cid / 65536 % 256) :: (cid / 16777216 % 256) :: (P.length % 256) :: (P.length / 256 % 256) :: (P.length / 65536 % 256) :: (P.length / 16777216 % 256) ::
        ((P ++ u32le (calculate_crc ⟨vM, vm, mt, fl, cid, P⟩)).set (P.length + 3) ((P ++ u32le (calculate_crc ⟨vM, vm, mt, fl, cid, P⟩)).getD (P.length + 3) 0 ^^^ (1 <<< (i % 8)))))
            = DecodeOut.fail (FrameError.CrcMismatch e c)
        rw [List.set_append_right _ _ (show P.length ≤ P.length + 3 by omega),
          getD_append_ge (show P.length ≤ P.length + 3 by omega),
          show P.length + 3 - P.length = 3 from by omega]
        have hx1 : ((calculate_crc ⟨vM, vm, mt, fl, cid, P⟩ / 16777216 % 256) ^^^ (1 <<< (i % 8))) ≠ (calculate_crc ⟨vM, vm, mt, fl, cid, P⟩ / 16777216 % 256) := xor_ne_self (mask_ne_zero i)
        have hx2 : ((calculate_crc ⟨vM, vm, mt, fl, cid, P⟩ / 16777216 % 256) ^^^ (1 <<< (i % 8))) < 256 := xor_lt8 (by omega) (mask_lt_256 i)
        refine crc_mismatch_trailer vM vm mt fl cid P _ (by simp [u32le]) h1 h2 h3 h4 h5 ?_
        show (calculate_crc ⟨vM, vm, mt, fl, cid, P⟩ % 256) + 256 * (calculate_crc ⟨vM, vm, mt, fl, cid, P⟩ / 256 % 256) + 65536 * (calculate_crc ⟨vM, vm, mt, fl, cid, P⟩ / 65536 % 256) + 16777216 * ((calculate_crc ⟨vM, vm, mt, fl, cid, P⟩ / 16777216 % 256) ^^^ (1 <<< (i % 8))) ≠ calculate_crc ⟨vM, vm, mt, fl, cid, P⟩
        omega

end Requiem

namespace Requiem

/-- Whether a decode outcome is a CRC mismatch failure. -/
def isCrcMismatch : DecodeOut → Bool
  | DecodeOut.fail (FrameError.CrcMismatch _ _) => true
  | _ => false

/-- A concrete well-formed frame. -/
def c8Frame : Frame :=
  { version_major := 1, version_minor := 0, msg_type := MessageType.Hello,
    flags := 0, correlation_id := 7, payload := [104, 105] }

end Requiem

/-- Counterexample to the universally quantified bit-flip half of claim
C8: flipping bit 0 of the encoded bytes of a frame lands in the magic
word, and `decode` fails with `InvalidMagic`, not `CrcMismatch`.  The
magic (and likewise the message-type and length words) is checked before
the CRC comparison, so flips there surface as other errors. -/
theorem c8_magic_flip_not_crc :
    Requiem.decode (Requiem.flipBit (Requiem.encode Requiem.c8Frame) 0)
      = Requiem.DecodeOut.fail (Requiem.FrameError.InvalidMagic Requiem.MAGIC 1380270921) ∧
    Requiem.isCrcMismatch
      (Requiem.decode (Requiem.flipBit (Requiem.encode Requiem.c8Frame) 0)) = false := by
  decide

namespace Requiem

/-- Claim C8 (amended).  For every frame whose fields fit their wire
types and whose payload is at most 64 MiB: (1) round-trip holds -
`decode (encode F)` returns exactly `F` with an empty remainder; (2)
flipping any bit of the magic word (bits 0-31) makes `decode` fail with
`InvalidMagic`; (3) flipping any bit of the version fields (bits 32-63),
the flags or correlation id (bits 96-159), the payload, or the CRC
trailer (bits 192 and up) makes `decode` fail with `CrcMismatch`, the
expected and calculated CRCs disagreeing. -/
theorem c8_frame_integrity :
    (∀ f : Frame, wfFrame f → decode (encode f) = DecodeOut.ok f []) ∧
    (∀ (f : Frame) (i : ℕ), i < 32 →
      ∃ m, m ≠ MAGIC ∧ decode (flipBit (encode f) i)
        = DecodeOut.fail (FrameError.InvalidMagic MAGIC m)) ∧
    (∀ (f : Frame) (i : ℕ), wfFrame f →
      (32 ≤ i ∧ i < 64) ∨ (96 ≤ i ∧ i < 160)
        ∨ (192 ≤ i ∧ i < 8 * (28 + f.payload.length)) →
      ∃ e c, e ≠ c ∧ decode (flipBit (encode f) i)
        = DecodeOut.fail (FrameError.CrcMismatch e c)) := by
  refine ⟨?_, ?_, ?_⟩
  · intro f hwf
    obtain ⟨vM, vm, mt, fl, cid, P⟩ := f
    obtain ⟨h1, h2, h3, h4, h5, h6⟩ := hwf
    exact roundtrip_aux vM vm mt fl cid P h1 h2 h3 h4 h5 h6
  · intro f i hi
    obtain ⟨vM, vm, mt, fl, cid, P⟩ := f
    exact magic_flip_aux vM vm mt fl cid P i hi
  · intro f i hwf hreg
    obtain ⟨vM, vm, mt, fl, cid, P⟩ := f
    obtain ⟨h1, h2, h3, h4, h5, h6⟩ := hwf
    exact crc_flip_aux vM vm mt fl cid P h1 h2 h3 h4 h5 h6 i hreg

end Requiem

/-- Witness for C8: the amended theorem applied to a concrete frame -
round-trip, a magic-bit flip at bit 0, and a version-bit flip at bit 32. -/
theorem c8_witness :
    Requiem.decode (Requiem.encode Requiem.c8Frame)
      = Requiem.DecodeOut.ok Requiem.c8Frame [] ∧
    (∃ m, m ≠ Requiem.MAGIC ∧
      Requiem.decode (Requiem.flipBit (Requiem.encode Requiem.c8Frame) 0)
        = Requiem.DecodeOut.fail (Requiem.FrameError.InvalidMagic Requiem.MAGIC m)) ∧
    (∃ e c, e ≠ c ∧
      Requiem.decode (Requiem.flipBit (Requiem.encode Requiem.c8Frame) 32)
        = Requiem.DecodeOut.fail (Requiem.FrameError.CrcMismatch e c)) :=
  ⟨Requiem.c8_frame_integrity.1 Requiem.c8Frame (by decide),
   Requiem.c8_frame_integrity.2.1 Requiem.c8Frame 0 (by decide),
   Requiem.c8_frame_integrity.2.2 Requiem.c8Frame 32 (by decide) (by decide)⟩
